import Mathlib

/-!
# 2safe daemon: transfer manager, reconciler handlers and control actions

A shallow embedding of `src/safedaemon.cpp`.  The daemon object becomes a
record `SafeDaemon`; every member function becomes a function on that record.
Heap objects (`QTimer`, `SafeApi`) are numbered by an allocation counter, the
two transfer maps hold those numbers exactly as the C++ maps hold pointers.
Remote procedure calls are appended to a trace, the answers of the outside
world (disk, remote service) are read from a `World` record.

Conventions of the embedding:
* `deleteLater()` is modelled as the deletion of the object (a stopped or
  deleted timer never fires, a deleted adapter never calls back);
* a member that waits for an answer in a nested event loop (`fetchDirId`,
  `createDir`) reads the answer from the `World`; no other handler runs
  while it waits;
* `QString` is `String`, a `QFileInfo` is the path it was set to, and the Qt
  path functions behave as on Unix;
* the event loop of `fullRemoteIndex` answers every `listDir` request once,
  with `listDirComplete` or `errorRaised`, in the order of the requests;
* `fullIndex`, `fileAdded`, `prepareTree`, `fullRemoteIndex` and `init` take
  a bound on the number of rounds (`fuel`) and have no result when it does
  not suffice;
* the class `SafeStateDb` is modelled from the State Store table of the
  specification.
-/

namespace QMap

variable {K V : Type} [DecidableEq K]

/-- The value stored under key `k` (what `QMap::value` / `operator[]` read). -/
def value : List (K × V) → K → Option V
  | [], _ => none
  | (a, v) :: rest, k => if a = k then some v else value rest k

/-- The test `QMap::contains`. -/
def contains (m : List (K × V)) (k : K) : Bool := (value m k).isSome

/-- The removal `QMap::remove` / `QMap::take`: the key is gone afterwards. -/
def remove : List (K × V) → K → List (K × V)
  | [], _ => []
  | (a, v) :: rest, k => if a = k then remove rest k else (a, v) :: remove rest k

/-- The insertion `QMap::insert`: an existing value for the key is replaced. -/
def insert (m : List (K × V)) (k : K) (v : V) : List (K × V) := (k, v) :: remove m k

end QMap

/-- The file a `QFileInfo` object was set to; every attribute is derived from
the string or asked from the disk. -/
structure QFileInfo where
  file : String
deriving DecidableEq, Repr

/-- The lambda connected to a debounce timer's `timeout` signal. -/
inductive Slot where
  | uploadFile (dir_id : String) (info : QFileInfo)
  | downloadFile (id : String) (info : QFileInfo)
deriving DecidableEq, Repr

/-- The `Qt::TimerType` values. -/
inductive TimerType where
  | PreciseTimer
  | CoarseTimer
  | VeryCoarseTimer
deriving DecidableEq, Repr

/-- A `QTimer` object: its settings, whether it is running, the clock reading
at which it was started and the connected slot. -/
structure QTimer where
  interval : Nat
  singleShot : Bool
  timerType : TimerType
  active : Bool
  startedAt : Nat
  slot : Option Slot
deriving DecidableEq, Repr

/-- A request handed to the remote adapter (`SafeApi`). -/
inductive Rpc where
  | getDiskQuota
  | getProps (path : String) (isDir : Bool)
  | getPropsById (id : String)
  | makeDir (parent_id name : String)
  | removeDir (id : String) (recursive purge : Bool)
  | pushFile (dir_id path name : String) (overwrite : Bool)
  | pullFile (id path : String)
  | removeFile (id : String) (purge : Bool)
  | publicObject (id : String)
  | listDir (id : String)
  | authUser (login password : String)
deriving DecidableEq, Repr

/-- The number `QString::length()`: the UTF-16 code units of the string, two
for a character outside the Basic Multilingual Plane.  (Where the source only
tests a length against zero, the number of characters gives the same
answer.) -/
def QString.length (s : String) : Nat :=
  (s.data.map (fun c => if c.toNat < 65536 then 1 else 2)).sum

/-! ## Path model (the parts of `QFileInfo` / `QDir` the daemon relies on) -/

namespace Path

/-- Splits at the last `/`: what stands before it (`none` when the string has
no `/`) and what stands after it. -/
def splitLast : List Char → Option (List Char) × List Char
  | [] => (none, [])
  | c :: cs =>
    match splitLast cs with
    | (none, name) => if c = '/' then (some [], name) else (none, c :: name)
    | (some d, name) => (some (c :: d), name)

/-- All pieces between slashes, empty pieces included. -/
def pieces : List Char → List (List Char)
  | [] => [[]]
  | c :: cs =>
    if c = '/' then [] :: pieces cs
    else
      match pieces cs with
      | [] => [[c]]
      | x :: xs => (c :: x) :: xs

/-- The split `QString::split('/', SkipEmptyParts)`. -/
def elements (s : List Char) : List (List Char) :=
  (pieces s).filter (fun e => !e.isEmpty)

/-- Joins path elements with single slashes. -/
def join : List (List Char) → List Char
  | [] => []
  | [e] => e
  | e :: rest => e ++ '/' :: join rest

/-- Resolves `.` and `..` elements; `acc` holds the elements kept so far,
innermost first. -/
def normalize (absolute : Bool) : List (List Char) → List (List Char) → List (List Char)
  | acc, [] => acc.reverse
  | acc, e :: rest =>
    if e = ['.'] then normalize absolute acc rest
    else if e = ['.', '.'] then
      match acc with
      | [] => if absolute then normalize absolute [] rest else normalize absolute [e] rest
      | top :: below =>
        if top = ['.', '.'] then normalize absolute (e :: acc) rest
        else normalize absolute below rest
    else normalize absolute (e :: acc) rest

/-- Whether the path starts at the file-system root. -/
def isAbsolute : List Char → Bool
  | c :: _ => c = '/'
  | [] => false

/-- The function `QDir::cleanPath`: no doubled or trailing slashes, no `.`
elements, `..` resolved where possible. -/
def cleanPath (s : String) : String :=
  let es := normalize (isAbsolute s.data) [] (elements s.data)
  if isAbsolute s.data then String.mk ('/' :: join es)
  else if es.isEmpty then (if s.data.isEmpty then "" else ".")
  else String.mk (join es)

/-- Drops the longest common run of leading elements of both lists. -/
def dropCommon : List (List Char) → List (List Char) → List (List Char) × List (List Char)
  | d :: ds, f :: fs => if d = f then dropCommon ds fs else (d :: ds, f :: fs)
  | ds, fs => (ds, fs)

/-- One `../` for every element of the list. -/
def ups : List (List Char) → List Char
  | [] => []
  | _ :: rest => '.' :: '.' :: '/' :: ups rest

/-- The function `QDir(dir).relativeFilePath(file)` of the Qt 5 releases the
daemon was written for: the empty string when `file` is `dir` itself. -/
def relativeFilePath (dir file : String) : String :=
  let d := cleanPath dir
  let f := cleanPath file
  if !isAbsolute f.data || !isAbsolute d.data then f
  else
    let r := dropCommon (elements d.data) (elements f.data)
    String.mk (ups r.1 ++ join r.2)

/-- The path a `QDir` object reports for the string it was built from: one
trailing slash is cut unless the string is a single character. -/
def qdirPath (s : String) : String :=
  if s.data.getLast? = some '/' ∧ 1 < s.data.length then String.mk s.data.dropLast else s

end Path

namespace QFileInfo

/-- The accessor `QFileInfo::filePath`. -/
def filePath (info : QFileInfo) : String := info.file

/-- The accessor `QFileInfo::fileName`: what follows the last slash. -/
def fileName (info : QFileInfo) : String := String.mk (Path.splitLast info.file.data).2

/-- The accessor `QFileInfo::path`: the file path without the file name. -/
def path (info : QFileInfo) : String :=
  match (Path.splitLast info.file.data).1 with
  | none => "."
  | some [] => "/"
  | some d => String.mk d

/-- The path of `QFileInfo::dir()`, the parent directory as a `QDir`. -/
def dirPath (info : QFileInfo) : String := Path.qdirPath info.path

/-- The name `QFileInfo::dir().dirName()` of the parent directory. -/
def dirName (info : QFileInfo) : String := fileName ⟨info.dirPath⟩

/-- The test `QFileInfo::isHidden` on Unix: the file name starts with a dot. -/
def isHidden (info : QFileInfo) : Bool :=
  match (Path.splitLast info.file.data).2 with
  | c :: _ => c = '.'
  | [] => false

end QFileInfo


/-! ## State store -/

/-- A row of a `files` table. -/
structure FileRecord where
  relative_dir : String
  relative_path : String
  name : String
  mtime : Nat
  content_hash : String
  remote_id : Option String
deriving DecidableEq, Repr

/-- A row of a `dirs` table. -/
structure DirRecord where
  relative_path : String
  name : String
  mtime : Nat
  dir_hash : String
  remote_id : Option String
deriving DecidableEq, Repr

/-- Modelled from the spec: the class `SafeStateDb` (its source file is not
part of the sources at hand).  One store holds a `files` and a `dirs` table,
each with at most one row per `relative_path`. -/
structure SafeStateDb where
  files : List FileRecord
  dirs : List DirRecord
deriving DecidableEq, Repr

namespace SafeStateDb

/-- Modelled from the spec: a freshly created (or purged) `SafeStateDb`. -/
def empty : SafeStateDb := ⟨[], []⟩

/-- Modelled from the spec: the row lookup behind the `SafeStateDb` getters,
for the `files` table. -/
def getFile (db : SafeStateDb) (path : String) : Option FileRecord :=
  db.files.find? (fun r => r.relative_path = path)

/-- Modelled from the spec: the row lookup behind the `SafeStateDb` getters,
for the `dirs` table. -/
def getDir (db : SafeStateDb) (path : String) : Option DirRecord :=
  db.dirs.find? (fun r => r.relative_path = path)

/-- Modelled from the spec: `SafeStateDb::existsFile`, a plain membership
test. -/
def existsFile (db : SafeStateDb) (path : String) : Bool := (db.getFile path).isSome

/-- Modelled from the spec: `SafeStateDb::existsDir`, a plain membership
test. -/
def existsDir (db : SafeStateDb) (path : String) : Bool := (db.getDir path).isSome

/-- Modelled from the spec: `SafeStateDb::removeFile`, a no-op when the row is
absent. -/
def removeFile (db : SafeStateDb) (path : String) : SafeStateDb :=
  { db with files := db.files.filter (fun r => r.relative_path ≠ path) }

/-- Modelled from the spec: `SafeStateDb::removeDir`, a no-op when the row is
absent. -/
def removeDir (db : SafeStateDb) (path : String) : SafeStateDb :=
  { db with dirs := db.dirs.filter (fun r => r.relative_path ≠ path) }

/-- Modelled from the spec: `SafeStateDb::insertFile`, which overwrites any
row with the same path. -/
def insertFile (db : SafeStateDb) (dir path name : String) (mtime : Nat) (hash : String)
    (remote_id : Option String) : SafeStateDb :=
  { db with files := ⟨dir, path, name, mtime, hash, remote_id⟩ ::
      db.files.filter (fun r => r.relative_path ≠ path) }

/-- Modelled from the spec: `SafeStateDb::insertDir` with a remote id as the
optional argument; inserting twice is the same as inserting once. -/
def insertDir (db : SafeStateDb) (path name : String) (mtime : Nat)
    (remote_id : Option String) : SafeStateDb :=
  { db with dirs := ⟨path, name, mtime, "", remote_id⟩ ::
      db.dirs.filter (fun r => r.relative_path ≠ path) }

/-- Modelled from the spec: `SafeStateDb::insertDir` as the local indexer calls
it, with the directory fingerprint as the optional argument. -/
def insertDirHashed (db : SafeStateDb) (path name : String) (mtime : Nat)
    (dir_hash : String) : SafeStateDb :=
  { db with dirs := ⟨path, name, mtime, dir_hash, none⟩ ::
      db.dirs.filter (fun r => r.relative_path ≠ path) }

/-- Whether `path` lies strictly below directory `dir`, that is starts with
`dir` followed by a slash. -/
def isBelow (dir path : String) : Bool := (dir.data ++ ['/']).isPrefixOf path.data

/-- Modelled from the spec: `SafeStateDb::removeDirRecursively`, which removes
every file and directory row whose path starts with the given path and a
slash. -/
def removeDirRecursively (db : SafeStateDb) (path : String) : SafeStateDb :=
  { files := db.files.filter (fun r => !isBelow path r.relative_path)
    dirs := db.dirs.filter (fun r => !isBelow path r.relative_path) }

/-- Modelled from the spec: `SafeStateDb::getFileMtime`; the spec gives no
value for a missing row, `0` is taken. -/
def getFileMtime (db : SafeStateDb) (path : String) : Nat :=
  match db.getFile path with
  | some r => r.mtime
  | none => 0

/-- Modelled from the spec: `SafeStateDb::getFileId`, empty when the row or
its id is missing. -/
def getFileId (db : SafeStateDb) (path : String) : String :=
  match db.getFile path with
  | some r => r.remote_id.getD ""
  | none => ""

/-- Modelled from the spec: `SafeStateDb::getDirId`, empty when the row or its
id is missing. -/
def getDirId (db : SafeStateDb) (path : String) : String :=
  match db.getDir path with
  | some r => r.remote_id.getD ""
  | none => ""

/-- Modelled from the spec: the row lookup by remote id behind the by-id
members of `SafeStateDb`, for the `dirs` table. -/
def getDirById (db : SafeStateDb) (id : String) : Option DirRecord :=
  db.dirs.find? (fun r => r.remote_id = some id)

/-- Modelled from the spec: `SafeStateDb::getDirPathById`, which translates a
remote id to the path of its directory row (`/` for the root, whose row has
that path); empty when no row has the id. -/
def getDirPathById (db : SafeStateDb) (id : String) : String :=
  match db.getDirById id with
  | some r => r.relative_path
  | none => ""

/-- Modelled from the spec: `SafeStateDb::removeDirById`, the removal of the
directory row with the given remote id, a no-op when there is none. -/
def removeDirById (db : SafeStateDb) (id : String) : SafeStateDb :=
  { db with dirs := db.dirs.filter (fun r => r.remote_id ≠ some id) }

/-- Modelled from the spec: `SafeStateDb::removeFileById`, the removal of the
file row with the given remote id, a no-op when there is none. -/
def removeFileById (db : SafeStateDb) (id : String) : SafeStateDb :=
  { db with files := db.files.filter (fun r => r.remote_id ≠ some id) }

/-- Modelled from the spec: `SafeStateDb::removeDirByIdRecursively`, "same
semantics via remote_id" as `removeDirRecursively`: every file and directory
row below the directory that has the given remote id is removed; a no-op when
no directory row has the id. -/
def removeDirByIdRecursively (db : SafeStateDb) (id : String) : SafeStateDb :=
  match db.getDirById id with
  | some r => db.removeDirRecursively r.relative_path
  | none => db

/-- Lexicographic comparison of two strings by character code. -/
def leChars : List Char → List Char → Bool
  | [], _ => true
  | _ :: _, [] => false
  | a :: as, b :: bs => if a.toNat < b.toNat then true else if b.toNat < a.toNat then false
      else leChars as bs

/-- Inserts a hash into a sorted list of hashes. -/
def insertSorted (h : String) : List String → List String
  | [] => [h]
  | x :: xs => if leChars h.data x.data then h :: x :: xs else x :: insertSorted h xs

/-- Sorts a list of hashes. -/
def sortHashes : List String → List String
  | [] => []
  | h :: hs => insertSorted h (sortHashes hs)

/-- The directory a relative path lies in, `/` for a top-level entry. -/
def parentOf (path : String) : String :=
  match (Path.splitLast path.data).1 with
  | none => "/"
  | some [] => "/"
  | some d => String.mk d

/-- The hashes of the immediate children of a directory: its files'
content hashes and its sub-directories' fingerprints. -/
def childHashes (db : SafeStateDb) (relative_dir : String) : List String :=
  ((db.files.filter (fun r => r.relative_dir = relative_dir)).map (fun r => r.content_hash)) ++
  ((db.dirs.filter (fun r => parentOf r.relative_path = relative_dir ∧
      r.relative_path ≠ relative_dir)).map (fun r => r.dir_hash))

/-- Modelled from the spec: `SafeStateDb::updateDirHash`, which recomputes the
fingerprint of the directory row from its current children (MD5 of the sorted,
concatenated child hashes) and leaves rows of files alone.  The root has no
fingerprint to recompute; the "dirty" mark of the parent has no field in the
data model. -/
def updateDirHash (md5 : String → String) (db : SafeStateDb) (relative_dir : String) :
    SafeStateDb :=
  if relative_dir = "/" then db
  else
    { db with dirs := db.dirs.map (fun r =>
        if r.relative_path = relative_dir then
          { r with dir_hash := md5 (String.join (sortHashes (db.childHashes relative_dir))) }
        else r) }

end SafeStateDb

/-! ## JSON values and remote objects -/

/-- A JSON value (`QJsonValue`); an object is the list of its members. -/
inductive QJsonValue where
  | null
  | bool (b : Bool)
  | num (n : Int)
  | str (s : String)
  | arr (items : List QJsonValue)
  | obj (members : List (String × QJsonValue))
deriving Repr

namespace QJsonValue

/-- The conversion `QJsonValue::toString`: empty unless the value is a string. -/
def toString : QJsonValue → String
  | str s => s
  | _ => ""

/-- The conversion `QJsonValue::toArray`: empty unless the value is an array. -/
def toArray : QJsonValue → List QJsonValue
  | arr items => items
  | _ => []

/-- The conversion `QJsonValue::toObject`: empty unless the value is an
object. -/
def toObject : QJsonValue → List (String × QJsonValue)
  | obj members => members
  | _ => []

/-- The member access `object[key]` / `object.value(key)`: null when the key
is missing. -/
def member (members : List (String × QJsonValue)) (key : String) : QJsonValue :=
  (QMap.value members key).getD null

end QJsonValue

/-- What the daemon writes to the control socket. -/
inductive Reply where
  | json (document : QJsonValue)
  | text (line : String)
deriving Repr

/-- The members of the JSON object a reply consists of; none for a text
reply. -/
def Reply.members : Reply → List (String × QJsonValue)
  | Reply.json (QJsonValue.obj members) => members
  | _ => []

/-- A remote file as the remote adapter reports it (`SafeFile`). -/
structure SafeFile where
  id : String
  name : String
  mtime : Nat
  chksum : String
  is_trash : Bool
deriving DecidableEq, Repr

/-- A remote directory as the remote adapter reports it (`SafeDir`). -/
structure SafeDir where
  id : String
  name : String
  mtime : Nat
  is_trash : Bool
  special_dir : String
deriving DecidableEq, Repr

/-- The answer `listDirComplete(id, dirs, files, root_info)` to a `listDir`
request; `tree` and `id` are the members of `root_info` that are read. -/
structure ListDirReply where
  dirs : List SafeDir
  files : List SafeFile
  tree : String
  id : String
deriving DecidableEq, Repr

/-! ## The outside world -/

/-- What the daemon reads from outside during one handler run: the disk below
the home directory and the answers of the remote service.  A handler runs
between two suspension points, so the record is constant during a call. -/
structure World where
  /-- The directory `QDir::homePath()`. -/
  homePath : String
  /-- The directory `QDir::currentPath()`, against which relative paths are
  made absolute. -/
  currentPath : String
  /-- The test `QFileInfo::isDir`. -/
  isDir : String → Bool
  /-- The test `QFileInfo::exists`. -/
  fileExists : String → Bool
  /-- The test `QFileInfo::isReadable`. -/
  isReadable : String → Bool
  /-- The test `QFileInfo::isSymLink`. -/
  isSymLink : String → Bool
  /-- The time `QFileInfo::lastModified` in seconds since the epoch. -/
  lastModified : String → Nat
  /-- The size `QFileInfo::size`. -/
  size : String → Nat
  /-- MD5 (hex) of the file's bytes, empty when the file cannot be opened. -/
  fileMd5 : String → String
  /-- MD5 (hex) of a string. -/
  md5 : String → String
  /-- The entries a recursive `QDirIterator` over the directory yields. -/
  entries : String → List String
  /-- The number `QDir(path).count()` of entries of a directory. -/
  entryCount : String → Nat
  /-- The directory id answered to `getProps(path, true)`, empty on error. -/
  dirId : String → String
  /-- The id answered to `makeDir(parent_id, name)`, empty on error. -/
  madeDirId : String → String → String
  /-- The time `QDateTime::currentDateTime().toTime_t()`. -/
  now : Nat
  /-- The result of `apiFactory->authUser(login, password)`. -/
  authUser : String → String → Bool
  /-- The answer to `listDir(id)`; `none` stands for `errorRaised`. -/
  listDir : String → Option ListDirReply
  /-- The object answered to `getProps(id)` read as a file, all members empty
  after an error. -/
  fileInfo : String → SafeFile
  /-- The object answered to `getProps(id)` read as a directory, all members
  empty after an error. -/
  dirInfo : String → SafeDir
  /-- The link answered to `publicObject(id)`, empty on error. -/
  publicLink : String → String

/-! ## The daemon object -/

/-- A value kept in `QSettings`. -/
inductive QVariant where
  | str (s : String)
  | bool (b : Bool)
  | uint (n : Nat)
deriving DecidableEq, Repr

namespace QVariant

/-- The conversion `QVariant::toString`. -/
def toString : QVariant → String
  | str s => s
  | bool b => if b then "true" else "false"
  | uint n => Nat.repr n

/-- The conversion `QVariant::toBool`.  For a string Qt lower-cases the
content first and answers `false` for the empty string, `0` and `false`; the
letters of `false` are the lower-case forms of `A`..`Z` letters only, so the
lower-casing of these letters is what matters. -/
def toBool : QVariant → Bool
  | str s =>
    let lower := String.mk (s.data.map Char.toLower)
    !(lower = "" || lower = "0" || lower = "false")
  | bool b => b
  | uint n => n ≠ 0

/-- The digits of a decimal number, most significant first, read into `acc`;
`none` when a character is not a digit. -/
def readDigits : List Char → Nat → Option Nat
  | [], acc => some acc
  | c :: cs, acc =>
    if 48 ≤ c.toNat ∧ c.toNat ≤ 57 then readDigits cs (acc * 10 + (c.toNat - 48)) else none

/-- The conversion `QVariant::toDouble` followed by the cast to an unsigned
integer, for values that are non-negative whole numbers; `0` for a string that
is not a number. -/
def toNat : QVariant → Nat
  | str s => if s = "" then 0 else (readDigits s.data 0).getD 0
  | bool b => if b then 1 else 0
  | uint n => n

end QVariant

/-- The local file-system watcher object. -/
structure FSWatcher where
  path : String
  watching : Bool
  watches : List String
deriving DecidableEq, Repr

/-- The remote event watcher object. -/
structure SafeWatcher where
  timestamp : Nat
  watching : Bool
deriving DecidableEq, Repr

/-- The remote adapter factory; `login` is empty until a user is authenticated. -/
structure SafeApiFactory where
  login : String
deriving DecidableEq, Repr

/-- A change the daemon makes on the local disk. -/
inductive DiskOp where
  | remove (path : String)
  | mkdir (path : String)
  | rename (old new : String)
  | removeRecursively (path : String)
deriving DecidableEq, Repr

/-- The members of the `SafeDaemon` object.  `watcher`, `swatcher` and the two
state stores are created together by `init` and destroyed together by
`deauthUser`; `watcher = none` stands for the time at which these pointers do
not refer to live objects.  `timers` is the heap of `QTimer` objects, `clock`
the current time in milliseconds, `rpcs` the requests handed to the remote
adapter so far and `diskOps` the changes made on the local disk so far. -/
structure SafeDaemon where
  settings : List (String × QVariant)
  apiFactory : SafeApiFactory
  online : Bool
  watcher : Option FSWatcher
  swatcher : Option SafeWatcher
  localStateDb : SafeStateDb
  remoteStateDb : SafeStateDb
  pendingTransfers : List (String × Nat)
  activeTransfers : List (String × Nat)
  timers : List (Nat × QTimer)
  nextObject : Nat
  clock : Nat
  rpcs : List Rpc
  diskOps : List DiskOp
  used_bytes : Nat
  total_bytes : Nat
  messagesQueue : List QJsonValue
deriving Repr

namespace SafeDaemon

/-- The daemon right after construction without stored credentials. -/
def start : SafeDaemon :=
  { settings := [], apiFactory := ⟨""⟩, online := false, watcher := none, swatcher := none,
    localStateDb := SafeStateDb.empty, remoteStateDb := SafeStateDb.empty,
    pendingTransfers := [], activeTransfers := [], timers := [], nextObject := 0,
    clock := 0, rpcs := [], diskOps := [], used_bytes := 0, total_bytes := 0,
    messagesQueue := [] }

/-- Time passing on the event loop without any handler running. -/
def passTime (s : SafeDaemon) (ms : Nat) : SafeDaemon := { s with clock := s.clock + ms }

/-- Applies a change to the `QTimer` object `timer`, if it exists. -/
def modifyTimer (s : SafeDaemon) (timer : Nat) (f : QTimer → QTimer) : SafeDaemon :=
  match QMap.value s.timers timer with
  | some t => { s with timers := QMap.insert s.timers timer (f t) }
  | none => s

/-- The member `fetchUsage`: a new adapter object asks for the disk quota. -/
def fetchUsage (s : SafeDaemon) : SafeDaemon :=
  { s with nextObject := s.nextObject + 1, rpcs := s.rpcs ++ [Rpc.getDiskQuota] }

/-- The member `finishTransfer`. -/
def finishTransfer (s : SafeDaemon) (path : String) : SafeDaemon :=
  if QMap.contains s.activeTransfers path then
    fetchUsage { s with activeTransfers := QMap.remove s.activeTransfers path }
  else s

/-- The member `storeTransfer`. -/
def storeTransfer (s : SafeDaemon) (path : String) (api : Nat) : SafeDaemon :=
  { s with activeTransfers := QMap.insert s.activeTransfers path api }

/-- The member `queueUploadFile`. -/
def queueUploadFile (s : SafeDaemon) (dir_id : String) (info : QFileInfo) : SafeDaemon :=
  -- QTimer *timer = new QTimer(this);
  let timer := s.nextObject
  let s := { s with nextObject := s.nextObject + 1,
                    timers := QMap.insert s.timers timer
                      ⟨0, false, TimerType.CoarseTimer, false, 0, none⟩ }
  let path := info.filePath
  let s := s.modifyTimer timer (fun t => { t with interval := 2000 })
  let s := s.modifyTimer timer (fun t => { t with singleShot := true })
  let s := s.modifyTimer timer (fun t => { t with timerType := TimerType.VeryCoarseTimer })
  let active := QMap.contains s.activeTransfers path
  let s := if active then s.finishTransfer path else s
  let s := s.modifyTimer timer (fun t => { t with slot := some (Slot.uploadFile dir_id info) })
  let queued := QMap.contains s.pendingTransfers path
  let s :=
    if queued then
      match QMap.value s.pendingTransfers path with
      | some old =>
        -- stop(), then take(path)->deleteLater()
        let s := s.modifyTimer old (fun t => { t with active := false })
        { s with pendingTransfers := QMap.remove s.pendingTransfers path,
                 timers := QMap.remove s.timers old }
      | none => s
    else s
  let s := { s with pendingTransfers := QMap.insert s.pendingTransfers path timer }
  s.modifyTimer timer (fun t => { t with active := true, startedAt := s.clock })

/-- The member `uploadFile`, the slot of an upload timer. -/
def uploadFile (s : SafeDaemon) (dir_id : String) (info : QFileInfo) : SafeDaemon :=
  let path := info.filePath
  let api := s.nextObject
  { s with nextObject := s.nextObject + 1,
           activeTransfers := QMap.insert s.activeTransfers path api,
           rpcs := s.rpcs ++ [Rpc.pushFile dir_id path info.fileName true] }

/-- The member `queueDownloadFile`. -/
def queueDownloadFile (s : SafeDaemon) (id : String) (info : QFileInfo) : SafeDaemon :=
  let timer := s.nextObject
  let s := { s with nextObject := s.nextObject + 1,
                    timers := QMap.insert s.timers timer
                      ⟨0, false, TimerType.CoarseTimer, false, 0, none⟩ }
  let path := info.filePath
  let s := s.modifyTimer timer (fun t => { t with interval := 2000 })
  let s := s.modifyTimer timer (fun t => { t with singleShot := true })
  let s := s.modifyTimer timer (fun t => { t with timerType := TimerType.VeryCoarseTimer })
  let active := QMap.contains s.activeTransfers path
  let s := if active then s.finishTransfer path else s
  let s := s.modifyTimer timer (fun t => { t with slot := some (Slot.downloadFile id info) })
  let queued := QMap.contains s.pendingTransfers path
  let s :=
    if queued then
      match QMap.value s.pendingTransfers path with
      | some old =>
        let s := s.modifyTimer old (fun t => { t with active := false })
        { s with pendingTransfers := QMap.remove s.pendingTransfers path,
                 timers := QMap.remove s.timers old }
      | none => s
    else s
  let s := { s with pendingTransfers := QMap.insert s.pendingTransfers path timer }
  s.modifyTimer timer (fun t => { t with active := true, startedAt := s.clock })

/-- The member `downloadFile`, the slot of a download timer. -/
def downloadFile (s : SafeDaemon) (id : String) (info : QFileInfo) : SafeDaemon :=
  let path := info.filePath
  let api := s.nextObject
  { s with nextObject := s.nextObject + 1,
           activeTransfers := QMap.insert s.activeTransfers path api,
           rpcs := s.rpcs ++ [Rpc.pullFile id path] }

/-- The path a timer slot transfers. -/
def slotPath : Slot → String
  | Slot.uploadFile _ info => info.filePath
  | Slot.downloadFile _ info => info.filePath

/-- Whether `timer` is a live debounce timer: the object exists and is running. -/
def isLive (s : SafeDaemon) (timer : Nat) : Bool :=
  match QMap.value s.timers timer with
  | some t => t.active
  | none => false

/-- Expiry of the `QTimer` object `timer`: a running timer emits `timeout`,
which runs the connected slot; a single-shot timer stops.  Nothing happens for
a stopped or deleted timer. -/
def timeout (s : SafeDaemon) (timer : Nat) : SafeDaemon :=
  match QMap.value s.timers timer with
  | some t =>
    if t.active then
      let s := s.modifyTimer timer
        (fun t => if t.singleShot then { t with active := false }
                  else { t with startedAt := s.clock })
      match t.slot with
      | some (Slot.uploadFile dir_id info) => s.uploadFile dir_id info
      | some (Slot.downloadFile id info) => s.downloadFile id info
      | none => s
    else s
  | none => s

/-- Lets every timer object that currently exists expire, one after the
other. -/
def expireAll (s : SafeDaemon) : SafeDaemon :=
  (s.timers.map Prod.fst).foldl timeout s

end SafeDaemon

/-! ## Paths, hashes and remote calls of the daemon -/

namespace SafeDaemon

/-- The call `settings->value(key, default)`. -/
def settingsValue (s : SafeDaemon) (key : String) (dflt : QVariant) : QVariant :=
  (QMap.value s.settings key).getD dflt

/-- The call `settings->setValue(key, value)`. -/
def setValue (s : SafeDaemon) (key : String) (v : QVariant) : SafeDaemon :=
  { s with settings := QMap.insert s.settings key v }

/-- The absolute, clean form of a path (`QDir::absolutePath`,
`QFileInfo::absolutePath`). -/
def absolutePath (w : World) (path : String) : String :=
  if Path.isAbsolute path.data then Path.cleanPath path
  else Path.cleanPath (w.currentPath ++ "/" ++ path)

/-- The member `getFilesystemPath`: the sync root. -/
def getFilesystemPath (w : World) (s : SafeDaemon) : String :=
  let root := (s.settingsValue "root_name" (QVariant.str "2safe")).toString
  Path.cleanPath (w.homePath ++ "/" ++ root)

/-- The member `relativeFilePath`. -/
def relativeFilePath (w : World) (s : SafeDaemon) (info : QFileInfo) : String :=
  let relative := Path.relativeFilePath (getFilesystemPath w s) info.filePath
  if relative = "" then "/" else relative

/-- The member `relativePath`. -/
def relativePath (w : World) (s : SafeDaemon) (info : QFileInfo) : String :=
  let relative :=
    if w.isDir info.filePath then Path.relativeFilePath (getFilesystemPath w s) info.dirPath
    else Path.relativeFilePath (getFilesystemPath w s) info.path
  if relative = "" then "/" else relative

/-- The member `isFileAllowed`. -/
def isFileAllowed (info : QFileInfo) : Bool := !info.isHidden

/-- The member `makeHash(const QFileInfo &)`: MD5 of the file's bytes, empty
when the file cannot be opened. -/
def makeHash (w : World) (info : QFileInfo) : String := w.fileMd5 info.filePath

/-- The member `makeHash(const QString &)`. -/
def makeHashString (w : World) (str : String) : String := w.md5 str

/-- The member `getMtime`; `toTime_t` yields an unsigned 32-bit number. -/
def getMtime (w : World) (info : QFileInfo) : Nat := w.lastModified info.filePath % 4294967296

/-- The member `fetchDirId`: a `getProps(path, true)` request whose answer is
awaited; the result is the id of the answer, empty after an error. -/
def fetchDirId (w : World) (s : SafeDaemon) (path : String) : SafeDaemon × String :=
  ({ s with nextObject := s.nextObject + 1, rpcs := s.rpcs ++ [Rpc.getProps path true] },
   w.dirId path)

/-- The member `createDir`: a `makeDir` request whose answer is awaited. -/
def createDir (w : World) (s : SafeDaemon) (parent_id path : String) : SafeDaemon × String :=
  let name := QFileInfo.fileName ⟨Path.qdirPath path⟩
  ({ s with nextObject := s.nextObject + 1, rpcs := s.rpcs ++ [Rpc.makeDir parent_id name] },
   w.madeDirId parent_id name)

/-- The member `remoteRemoveDir`. -/
def remoteRemoveDir (w : World) (s : SafeDaemon) (info : QFileInfo) : SafeDaemon :=
  let relative := relativeFilePath w s info
  let id := s.remoteStateDb.getDirId relative
  if id = "" then s
  else
    { s with nextObject := s.nextObject + 1, rpcs := s.rpcs ++ [Rpc.removeDir id true true] }

/-- The member `remoteRemoveFile`. -/
def remoteRemoveFile (w : World) (s : SafeDaemon) (info : QFileInfo) : SafeDaemon :=
  let path := info.filePath
  let s := s.finishTransfer path
  let id := s.remoteStateDb.getFileId (relativeFilePath w s info)
  if id = "" then s
  else
    let api := s.nextObject
    { s with nextObject := s.nextObject + 1,
             activeTransfers := QMap.insert s.activeTransfers path api,
             rpcs := s.rpcs ++ [Rpc.removeFile id true] }

/-- The member `updateDirHash(const QDir &)`. -/
def updateDirHash (w : World) (s : SafeDaemon) (dir : String) : SafeDaemon :=
  { s with localStateDb :=
      s.localStateDb.updateDirHash w.md5 (relativeFilePath w s ⟨absolutePath w dir⟩) }

/-- First loop of `prepareTree`: walks up from `relative` and pushes every
directory on the stack (head of the list is the top) until `root` or a path
of length at most one is reached.  `none` when `fuel` iterations do not
suffice. -/
def prepareTreeWalk (w : World) (s : SafeDaemon) (root : String) :
    Nat → String → List String → Option (List String)
  | 0, _, _ => none
  | fuel + 1, relative, stack =>
    if relative ≠ root ∧ 1 < QString.length relative then
      let path := getFilesystemPath w s ++ "/" ++ relative
      prepareTreeWalk w s root fuel (relativePath w s ⟨path⟩) (relative :: stack)
    else some stack

/-- Second loop of `prepareTree`: pops the stack and creates every directory
the remote store does not know. -/
def prepareTreeCreate (w : World) : SafeDaemon → List String → SafeDaemon
  | s, [] => s
  | s, relative :: stack =>
    let path := getFilesystemPath w s ++ "/" ++ relative
    if !s.remoteStateDb.existsDir relative then
      let r := fetchDirId w s (relativePath w s ⟨path⟩)
      let c := createDir w r.1 r.2 path
      prepareTreeCreate w c.1 stack
    else prepareTreeCreate w s stack

/-- The member `prepareTree`. -/
def prepareTree (fuel : Nat) (w : World) (s : SafeDaemon) (info : QFileInfo) (root : String) :
    Option SafeDaemon :=
  match prepareTreeWalk w s root fuel (relativePath w s info) [] with
  | some stack => some (prepareTreeCreate w s stack)
  | none => none

end SafeDaemon

/-! ## Local indexing and the local-event handlers

`fileAdded` calls `fullIndex` for a new directory and `fullIndex` calls
`fileAdded` for every untracked entry, so the two members are tied together
through a `fuel` argument that bounds the nesting depth of `fullIndex` calls
(`none` when the fuel does not suffice).  `fileAddedWith` is the body of
`fileAdded` with the nested `fullIndex` passed in; `fullIndexWith` is the body
of `fullIndex` with the nested `fileAdded` passed in. -/

namespace SafeDaemon

/-- The body of the member `fileAdded`; `index` stands for the nested call
`fullIndex(QDir(path))`. -/
def fileAddedWith (index : SafeDaemon → String → Option SafeDaemon) (w : World)
    (s : SafeDaemon) (path : String) (isDir : Bool) : Option SafeDaemon :=
  let info : QFileInfo := if isDir then ⟨Path.qdirPath path⟩ else ⟨path⟩
  if !isFileAllowed info then some s
  else
    let relative := relativePath w s info
    let relativeF := relativeFilePath w s info
    if isDir then
      if s.remoteStateDb.existsDir relativeF then some s
      else if s.localStateDb.existsDir relativeF then some s
      else
        let r := fetchDirId w s relative
        let c := createDir w r.1 r.2 info.filePath
        let s := c.1
        let dirId := c.2
        let s := { s with localStateDb := s.localStateDb.removeDir relativeF }
        let s := { s with localStateDb :=
          s.localStateDb.insertDir relativeF info.dirName (getMtime w info) (some dirId) }
        index s (Path.qdirPath path)
    else
      let s := { s with localStateDb := s.localStateDb.removeFile relativeF }
      let s := { s with localStateDb :=
        (s.localStateDb.insertFile relative relativeF info.fileName (getMtime w info)
          (makeHash w info) none) }
      let s := { s with localStateDb := s.localStateDb.updateDirHash w.md5 relative }
      if s.remoteStateDb.existsFile relativeF then some s
      else
        let r := fetchDirId w s relative
        some (r.1.queueUploadFile r.2 info)

/-- Insertion of a new key into the `QMap` local to `fullIndex`, which keeps
its keys in ascending order. -/
def dirIndexInsert (k : String) (v : String × Nat) :
    List (String × (String × Nat)) → List (String × (String × Nat))
  | [] => [(k, v)]
  | (a, x) :: rest =>
    if SafeStateDb.leChars k.data a.data then (k, v) :: (a, x) :: rest
    else (a, x) :: dirIndexInsert k v rest

/-- The update of `dir_index[dirPath]` for a further file of a directory: the
hash is appended, the time raised to the file's when that is larger. -/
def dirIndexAppend (k : String) (hash : String) (mtime : Nat) :
    List (String × (String × Nat)) → List (String × (String × Nat))
  | [] => []
  | (a, x) :: rest =>
    if a = k then (a, (x.1 ++ hash, if x.2 < mtime then mtime else x.2)) :: rest
    else (a, x) :: dirIndexAppend k hash mtime rest

/-- One round of the `while (iterator.hasNext())` loop of `fullIndex` for the
entry `entry`; the state of the loop is the daemon and `dir_index`. -/
def fullIndexEntry (fileAdded : SafeDaemon → String → Bool → Option SafeDaemon) (fuel : Nat)
    (w : World) (dir : String) (st : SafeDaemon × List (String × (String × Nat)))
    (entry : String) : Option (SafeDaemon × List (String × (String × Nat))) :=
  let s := st.1
  let dir_index := st.2
  let info : QFileInfo := ⟨entry⟩
  if info.fileName = "." ∨ info.fileName = ".." then some st
  else if w.isSymLink info.filePath then some st
  else
    let relative := relativeFilePath w s info
    if !w.isDir info.filePath then
      let hash := makeHash w info
      let mtime := getMtime w info
      let dirPath := absolutePath w info.path
      let added : Option SafeDaemon :=
        if !s.remoteStateDb.existsFile relative && !s.localStateDb.existsFile relative then
          let prepared : Option SafeDaemon :=
            if !s.remoteStateDb.existsDir (relativePath w s info) then
              prepareTree fuel w s info (relativeFilePath w s ⟨dir⟩)
            else some s
          match prepared with
          | some s => fileAdded s info.filePath false
          | none => none
        else some s
      match added with
      | none => none
      | some s =>
        let s := { s with localStateDb :=
          (s.localStateDb.insertFile (relativePath w s info) relative info.fileName mtime hash
            none) }
        if !QMap.contains dir_index dirPath then
          some (s, dirIndexInsert dirPath (hash, mtime) dir_index)
        else some (s, dirIndexAppend dirPath hash mtime dir_index)
    else if w.entryCount info.filePath < 3 then
      let added : Option SafeDaemon :=
        if !s.remoteStateDb.existsDir relative && !s.localStateDb.existsDir relative then
          fileAdded s info.filePath true
        else some s
      match added with
      | none => none
      | some s =>
        some ({ s with localStateDb :=
          (s.localStateDb.insertDir (relativeFilePath w s info) info.dirName (getMtime w info)
            none) }, dir_index)
    else some st

/-- One round of the `foreach(auto k, dir_index.keys())` loop of `fullIndex`. -/
def fullIndexDir (fileAdded : SafeDaemon → String → Bool → Option SafeDaemon) (w : World)
    (dir_index : List (String × (String × Nat))) (s : SafeDaemon) (k : String) :
    Option SafeDaemon :=
  let relative := relativeFilePath w s ⟨k⟩
  if relative = "" then some s
  else
    let added : Option SafeDaemon :=
      if !s.remoteStateDb.existsDir relative && !s.localStateDb.existsDir relative then
        fileAdded s (getFilesystemPath w s ++ "/" ++ k) true
      else some s
    match added with
    | none => none
    | some s =>
      let v := (QMap.value dir_index k).getD ("", 0)
      some { s with localStateDb :=
        (s.localStateDb.insertDirHashed relative (QFileInfo.fileName ⟨Path.qdirPath k⟩) v.2
          (makeHashString w v.1)) }

/-- The body of the member `fullIndex` for the directory `dir`. -/
def fullIndexWith (fileAdded : SafeDaemon → String → Bool → Option SafeDaemon) (fuel : Nat)
    (w : World) (s : SafeDaemon) (dir : String) : Option SafeDaemon :=
  match (w.entries (absolutePath w dir)).foldlM (fullIndexEntry fileAdded fuel w dir) (s, []) with
  | none => none
  | some (s, dir_index) =>
    (dir_index.map Prod.fst).foldlM (fullIndexDir fileAdded w dir_index) s

/-- The member `fullIndex`. -/
def fullIndex : Nat → World → SafeDaemon → String → Option SafeDaemon
  | 0, _, _, _ => none
  | fuel + 1, w, s, dir =>
    fullIndexWith (fileAddedWith (fun s p => fullIndex fuel w s p) w) (fuel + 1) w s dir

/-- The member `fileAdded`. -/
def fileAdded (fuel : Nat) (w : World) (s : SafeDaemon) (path : String) (isDir : Bool) :
    Option SafeDaemon :=
  fileAddedWith (fun s p => fullIndex fuel w s p) w s path isDir

/-- The member `fileModified`. -/
def fileModified (w : World) (s : SafeDaemon) (path : String) : SafeDaemon :=
  let info : QFileInfo := ⟨path⟩
  if !isFileAllowed info then s
  else
    let relative := relativePath w s info
    let relativeF := relativeFilePath w s info
    let s := { s with localStateDb := s.localStateDb.removeFile relativeF }
    let s := { s with localStateDb :=
      (s.localStateDb.insertFile relative relativeF info.fileName (getMtime w info)
        (makeHash w info) none) }
    let s := { s with localStateDb := s.localStateDb.updateDirHash w.md5 relative }
    if s.remoteStateDb.existsFile relativeF then
      if s.remoteStateDb.getFileMtime relativeF < getMtime w info then
        let r := fetchDirId w s relative
        r.1.queueUploadFile r.2 info
      else s
    else
      let r := fetchDirId w s relative
      r.1.queueUploadFile r.2 info

/-- The member `fileDeleted`. -/
def fileDeleted (w : World) (s : SafeDaemon) (path : String) (isDir : Bool) : SafeDaemon :=
  let info : QFileInfo := ⟨path⟩
  let relativeF := relativeFilePath w s info
  if !isFileAllowed info then s
  else if (if isDir then !s.localStateDb.existsDir relativeF
      else !s.localStateDb.existsFile relativeF) then s
  else if isDir then
    let s := { s with localStateDb := s.localStateDb.removeDir relativeF }
    let s := { s with localStateDb := s.localStateDb.removeDirRecursively relativeF }
    remoteRemoveDir w s info
  else
    let s := remoteRemoveFile w s info
    let s := { s with localStateDb := s.localStateDb.removeFile relativeF }
    updateDirHash w s info.dirPath

/-- The member `fileMoved`. -/
def fileMoved (fuel : Nat) (w : World) (s : SafeDaemon) (path1 path2 : String) (isDir : Bool) :
    Option SafeDaemon :=
  let relative1 := relativeFilePath w s ⟨path1⟩
  let relative2 := relativeFilePath w s ⟨path2⟩
  let moved : Option SafeDaemon :=
    if s.localStateDb.existsFile relative2 then some (fileModified w s path2)
    else
      let s := fileDeleted w s path2 isDir
      fileAdded fuel w s path2 isDir
  match moved with
  | none => none
  | some s =>
    if isDir then some { s with localStateDb := s.localStateDb.removeDir relative1 }
    else some { s with localStateDb := s.localStateDb.removeFile relative1 }

/-! ## Lifecycle and the control action `logout` -/

/-- The member `purgeDb`: the database file is removed, so the store of that
name holds nothing afterwards. -/
def purgeDb (s : SafeDaemon) (name : String) : SafeDaemon :=
  if name = "local.db" then { s with localStateDb := SafeStateDb.empty }
  else if name = "remote.db" then { s with remoteStateDb := SafeStateDb.empty }
  else s

/-- The member `deauthUser`.  It dereferences `watcher`, `swatcher` and both
stores, so it has a result only while these objects exist. -/
def deauthUser (s : SafeDaemon) : Option SafeDaemon :=
  match s.watcher, s.swatcher with
  | some watcher, some _ =>
    let s := { s with online := false }
    let s := { s with watcher := some { watcher with watching := false } }
    -- apiFactory, swatcher, watcher and both stores are deleted
    let s := { s with swatcher := none, watcher := none }
    let s := s.setValue "init" (QVariant.bool true)
    let s := { s with apiFactory := ⟨""⟩ }
    let s := s.purgeDb "local.db"
    some (s.purgeDb "remote.db")
  | _, _ => none

/-- The daemon after a completed `init`: the watchers (and with them both
stores) exist. -/
def Initialised (s : SafeDaemon) : Prop := s.watcher.isSome = true ∧ s.swatcher.isSome = true

/-- The branch `verb == "logout"` of the member `handleClientConnection`. -/
def handleLogout (s : SafeDaemon) : Option SafeDaemon :=
  match s.deauthUser with
  | some s =>
    let s := s.setValue "login" (QVariant.str "")
    some (s.setValue "password" (QVariant.str ""))
  | none => none

end SafeDaemon

/-! ## Remote indexing and bootstrap -/

namespace SafeDaemon

/-- The `uint` increment `++counter`. -/
def counterInc (counter : Nat) : Nat := (counter + 1) % 4294967296

/-- The `uint` decrement `--counter`, which wraps around below zero. -/
def counterDec (counter : Nat) : Nat := (counter + 4294967295) % 4294967296

/-- The loop over `files` in the `listDirComplete` handler of
`fullRemoteIndex`. -/
def indexRemoteFiles (root : Bool) (tree : String) (s : SafeDaemon) (files : List SafeFile) :
    SafeDaemon :=
  files.foldl (fun s file =>
    if file.is_trash then s
    else
      { s with remoteStateDb :=
          (s.remoteStateDb.insertFile tree (if root then file.name else tree ++ "/" ++ file.name)
            file.name file.mtime file.chksum (some file.id)) }) s

/-- The loop over `dirs` in the `listDirComplete` handler of `fullRemoteIndex`;
the state of the loop is the daemon, the counter and the `listDir` requests
issued so far in this handler. -/
def indexRemoteDirs (root : Bool) (tree : String) (st : SafeDaemon × Nat × List String)
    (dirs : List SafeDir) : SafeDaemon × Nat × List String :=
  dirs.foldl (fun st dir =>
    if dir.is_trash ∨ dir.special_dir ≠ "" then st
    else
      let s := st.1
      let counter := counterInc st.2.1
      let s := { s with remoteStateDb :=
        (s.remoteStateDb.insertDir (if root then dir.name else tree ++ "/" ++ dir.name)
          dir.name dir.mtime (some dir.id)) }
      let s := { s with rpcs := s.rpcs ++ [Rpc.listDir dir.id] }
      (s, counter, st.2.2 ++ [dir.id])) st

/-- The `listDirComplete` handler of `fullRemoteIndex`: the daemon and the
counter afterwards, the `listDir` requests it issued, and whether it called
`loop.exit()`. -/
def listDirComplete (s : SafeDaemon) (counter : Nat) (reply : ListDirReply) :
    SafeDaemon × Nat × List String × Bool :=
  let tree := String.mk (reply.tree.data.drop 1).dropLast
  let root := tree = ""
  let tree := if root then "/" else tree
  let s := if root then
      { s with remoteStateDb := s.remoteStateDb.insertDir tree tree 0 (some reply.id) }
    else s
  let s := indexRemoteFiles root tree s reply.files
  let r := indexRemoteDirs root tree (s, counter, []) reply.dirs
  let counter := counterDec r.2.1
  (r.1, counter, r.2.2, decide (counter < 1))

/-- The `errorRaised` handler of `fullRemoteIndex`: the counter afterwards and
whether it called `loop.exit()`. -/
def listDirError (counter : Nat) : Nat × Bool :=
  let counter := counterDec counter
  (counter, decide (counter < 1))

/-- The event loop `loop.exec()` of `fullRemoteIndex`: the outstanding
`listDir` requests are answered one after the other, in the order in which they
were issued, until a handler exits the loop.  `none` when the loop does not
exit (no request is outstanding any more, or `fuel` answers do not
suffice). -/
def fullRemoteIndexLoop (w : World) : Nat → SafeDaemon → Nat → List String → Option SafeDaemon
  | 0, _, _, _ => none
  | _ + 1, _, _, [] => none
  | fuel + 1, s, counter, id :: outstanding =>
    match w.listDir id with
    | some reply =>
      let r := listDirComplete s counter reply
      if r.2.2.2 then some r.1
      else fullRemoteIndexLoop w fuel r.1 r.2.1 (outstanding ++ r.2.2.1)
    | none =>
      let r := listDirError counter
      if r.2 then some s
      else fullRemoteIndexLoop w fuel s r.1 outstanding

/-- The member `fullRemoteIndex`. -/
def fullRemoteIndex (fuel : Nat) (w : World) (s : SafeDaemon) : Option SafeDaemon :=
  let s := { s with nextObject := s.nextObject + 1 }
  let counter := 0
  let counter := counterInc counter
  let r := fetchDirId w s "/"
  let s := { r.1 with rpcs := r.1.rpcs ++ [Rpc.listDir r.2] }
  fullRemoteIndexLoop w fuel s counter [r.2]

/-- The member `authUser`. -/
def authUser (w : World) (s : SafeDaemon) : SafeDaemon × Bool :=
  let login := (s.settingsValue "login" (QVariant.str "")).toString
  let password := (s.settingsValue "password" (QVariant.str "")).toString
  if login.length < 1 ∨ password.length < 1 then ({ s with online := false }, false)
  else
    let s := { s with rpcs := s.rpcs ++ [Rpc.authUser login password] }
    if !w.authUser login password then ({ s with online := false }, false)
    else ({ s with apiFactory := ⟨login⟩ }, true)

/-- The member `checkIndex`, whose body is empty. -/
def checkIndex (s : SafeDaemon) (_dir : String) : SafeDaemon := s

/-- The member `initWatcher`. -/
def initWatcher (s : SafeDaemon) (path : String) : SafeDaemon :=
  { s with watcher := some ⟨path, true, [path]⟩ }

/-- The member `init`. -/
def init (fuel : Nat) (w : World) (s : SafeDaemon) : Option SafeDaemon :=
  let s := { s with online := true }
  let s := s.fetchUsage
  let s := s.purgeDb "local.db"
  let s := s.purgeDb "remote.db"
  let s := { s with localStateDb := SafeStateDb.empty, remoteStateDb := SafeStateDb.empty }
  match fullRemoteIndex fuel w s with
  | none => none
  | some s =>
    let s := s.setValue "last_updated" (QVariant.uint (w.now % 4294967296))
    let s := { s with swatcher :=
      (some ⟨(s.settingsValue "last_updated" (QVariant.uint 0)).toNat, false⟩) }
    let indexed : Option SafeDaemon :=
      if (s.settingsValue "init" (QVariant.bool true)).toBool then
        fullIndex fuel w s (Path.qdirPath (getFilesystemPath w s))
        -- this->settings->setValue("init", false) is commented out in the source
      else some (s.checkIndex (Path.qdirPath (getFilesystemPath w s)))
    match indexed with
    | none => none
    | some s =>
      let s := { s with swatcher := s.swatcher.map (fun (sw : SafeWatcher) => { sw with watching := true }) }
      some (s.initWatcher (getFilesystemPath w s))

end SafeDaemon

/-! ## Remote-event handlers -/

namespace SafeDaemon

/-- The member `fetchFileInfo`: a `getProps(id)` request whose answer is
awaited. -/
def fetchFileInfo (w : World) (s : SafeDaemon) (id : String) : SafeDaemon × SafeFile :=
  ({ s with nextObject := s.nextObject + 1, rpcs := s.rpcs ++ [Rpc.getPropsById id] },
   w.fileInfo id)

/-- The member `fetchDirInfo`: a `getProps(id)` request whose answer is
awaited. -/
def fetchDirInfo (w : World) (s : SafeDaemon) (id : String) : SafeDaemon × SafeDir :=
  ({ s with nextObject := s.nextObject + 1, rpcs := s.rpcs ++ [Rpc.getPropsById id] },
   w.dirInfo id)

/-- The path a remote event resolves to: `name` below the directory with
remote id `pid`. -/
def remotePath (s : SafeDaemon) (pid name : String) : String :=
  let dir := s.remoteStateDb.getDirPathById pid
  if dir = "/" then name else dir ++ "/" ++ name

/-- The member `remoteFileAdded`. -/
def remoteFileAdded (w : World) (s : SafeDaemon) (id pid name : String) : SafeDaemon :=
  let dir := s.remoteStateDb.getDirPathById pid
  let path := if dir = "/" then name else dir ++ "/" ++ name
  let r := fetchFileInfo w s id
  let s := r.1
  let file := r.2
  let s := { s with remoteStateDb := s.remoteStateDb.removeFile path }
  let s := { s with remoteStateDb :=
    (s.remoteStateDb.insertFile dir path name file.mtime file.chksum (some id)) }
  if s.localStateDb.existsFile path then s
  else s.queueDownloadFile id ⟨getFilesystemPath w s ++ "/" ++ path⟩

/-- The member `remoteFileDeleted`. -/
def remoteFileDeleted (w : World) (s : SafeDaemon) (_id pid name : String) : SafeDaemon :=
  let dir := s.remoteStateDb.getDirPathById pid
  let path := if dir = "/" then name else dir ++ "/" ++ name
  let s := { s with remoteStateDb := s.remoteStateDb.removeFile path }
  if s.localStateDb.existsFile path then
    let s := { s with localStateDb := s.localStateDb.removeFile path }
    { s with diskOps := s.diskOps ++ [DiskOp.remove (getFilesystemPath w s ++ "/" ++ path)] }
  else s

/-- The member `remoteDirectoryCreated`.  It dereferences `watcher`, so it has
a result only while that object exists. -/
def remoteDirectoryCreated (w : World) (s : SafeDaemon) (id pid name : String) :
    Option SafeDaemon :=
  let dir := s.remoteStateDb.getDirPathById pid
  let path := if dir = "/" then name else dir ++ "/" ++ name
  let r := fetchDirInfo w s id
  let s := r.1
  let info := r.2
  let s := { s with remoteStateDb := s.remoteStateDb.removeDir path }
  let s := { s with remoteStateDb := s.remoteStateDb.insertDir path name info.mtime (some id) }
  if s.localStateDb.existsDir path then some s
  else
    let s := { s with localStateDb := s.localStateDb.insertDir path name info.mtime (some id) }
    let dirPath := getFilesystemPath w s ++ "/" ++ path
    let s := { s with diskOps := s.diskOps ++ [DiskOp.mkdir dirPath] }
    match s.watcher with
    | some watcher =>
      some { s with watcher := some { watcher with watches := watcher.watches ++ [dirPath] } }
    | none => none

/-- The member `remoteDirectoryDeleted`. -/
def remoteDirectoryDeleted (w : World) (s : SafeDaemon) (id _pid _name : String) :
    SafeDaemon :=
  let path := s.remoteStateDb.getDirPathById id
  let s := { s with remoteStateDb := s.remoteStateDb.removeDirById id }
  let s := { s with remoteStateDb := s.remoteStateDb.removeDirByIdRecursively id }
  let s :=
    if s.localStateDb.existsDir path then
      let s := { s with localStateDb := s.localStateDb.removeDir path }
      { s with localStateDb := s.localStateDb.removeDirRecursively path }
    else s
  if 1 < QString.length path then
    let dir := Path.qdirPath (getFilesystemPath w s ++ "/" ++ path)
    if w.fileExists dir && w.isDir dir then
      { s with diskOps := s.diskOps ++ [DiskOp.removeRecursively dir] }
    else s
  else s

/-- The member `remoteFileMoved`. -/
def remoteFileMoved (w : World) (s : SafeDaemon) (id pid1 n1 pid2 n2 : String) : SafeDaemon :=
  let dir1 := s.remoteStateDb.getDirPathById pid1
  let dir2 := s.remoteStateDb.getDirPathById pid2
  let path1 := if dir1 = "/" then n1 else dir1 ++ "/" ++ n1
  let path2 := if dir2 = "/" then n2 else dir2 ++ "/" ++ n2
  let s := { s with remoteStateDb := s.remoteStateDb.removeFileById id }
  let s :=
    if s.localStateDb.existsFile path1 then
      { s with localStateDb := s.localStateDb.removeFile path1 }
    else s
  let r := fetchFileInfo w s id
  let s := r.1
  let file := r.2
  let s := { s with localStateDb :=
    (s.localStateDb.insertFile dir2 path2 file.name file.mtime file.chksum (some id)) }
  { s with diskOps := s.diskOps ++
      [DiskOp.rename (getFilesystemPath w s ++ "/" ++ path1)
        (getFilesystemPath w s ++ "/" ++ path2)] }

/-- The member `remoteDirectoryMoved`. -/
def remoteDirectoryMoved (w : World) (s : SafeDaemon) (id pid1 n1 pid2 n2 : String) :
    SafeDaemon :=
  let dir1 := s.remoteStateDb.getDirPathById pid1
  let dir2 := s.remoteStateDb.getDirPathById pid2
  let path1 := if dir1 = "/" then n1 else dir1 ++ "/" ++ n1
  let path2 := if dir2 = "/" then n2 else dir2 ++ "/" ++ n2
  let s := { s with remoteStateDb := s.remoteStateDb.removeDirById id }
  let s :=
    if s.localStateDb.existsDir path1 then
      { s with localStateDb := s.localStateDb.removeDir path1 }
    else s
  let r := fetchDirInfo w s id
  let s := r.1
  let info := r.2
  let s := { s with localStateDb := s.localStateDb.insertDir path2 info.name info.mtime (some id) }
  { s with diskOps := s.diskOps ++
      [DiskOp.rename (getFilesystemPath w s ++ "/" ++ path1)
        (getFilesystemPath w s ++ "/" ++ path2)] }

/-- The `pullFileComplete` handler connected in `downloadFile`: the transfer
is finished and the downloaded file gets its local row. -/
def pullFileComplete (w : World) (s : SafeDaemon) (info : QFileInfo) : SafeDaemon :=
  let path := info.filePath
  let s := s.finishTransfer path
  let file_id := s.remoteStateDb.getFileId (relativeFilePath w s info)
  { s with localStateDb :=
      (s.localStateDb.insertFile (relativePath w s info) (relativeFilePath w s info)
        info.fileName (getMtime w info) (makeHash w info) (some file_id)) }

end SafeDaemon

/-! ## Control server -/

namespace SafeDaemon

/-- The cast `(qint64)` of an `ulong`. -/
def toQint64 (n : Nat) : Int :=
  if n % 18446744073709551616 < 9223372036854775808 then ((n % 18446744073709551616 : Nat) : Int)
  else ((n % 18446744073709551616 : Nat) : Int) - 18446744073709551616

/-- The member `notifyEventQuota`. -/
def notifyEventQuota (s : SafeDaemon) (used total : Nat) : SafeDaemon :=
  let values : List (String × QJsonValue) := []
  let values := QMap.insert values "used_bytes" (QJsonValue.num (toQint64 used))
  let values := QMap.insert values "total_bytes" (QJsonValue.num (toQint64 total))
  let obj : List (String × QJsonValue) := []
  let obj := QMap.insert obj "type" (QJsonValue.str "event")
  let obj := QMap.insert obj "category" (QJsonValue.str "disk_quota")
  let obj := QMap.insert obj "values" (QJsonValue.obj values)
  { s with messagesQueue := s.messagesQueue ++ [QJsonValue.obj obj] }

/-- The member `notifyEventAuth`. -/
def notifyEventAuth (s : SafeDaemon) (auth : Bool) (login : String) : SafeDaemon :=
  let values : List (String × QJsonValue) := []
  let values := QMap.insert values "authorized" (QJsonValue.bool auth)
  let values := QMap.insert values "login" (QJsonValue.str login)
  let obj : List (String × QJsonValue) := []
  let obj := QMap.insert obj "type" (QJsonValue.str "event")
  let obj := QMap.insert obj "category" (QJsonValue.str "auth")
  let obj := QMap.insert obj "values" (QJsonValue.obj values)
  { s with messagesQueue := s.messagesQueue ++ [QJsonValue.obj obj] }

/-- The member `notifyEventSync`. -/
def notifyEventSync (s : SafeDaemon) (count : Nat) : SafeDaemon :=
  let values : List (String × QJsonValue) := []
  let values := QMap.insert values "count" (QJsonValue.num (toQint64 count))
  let values := QMap.insert values "timestamp"
    (QJsonValue.num ((s.settingsValue "last_updated" (QVariant.uint 0)).toNat))
  let obj : List (String × QJsonValue) := []
  let obj := QMap.insert obj "type" (QJsonValue.str "event")
  let obj := QMap.insert obj "category" (QJsonValue.str "sync")
  let obj := QMap.insert obj "values" (QJsonValue.obj values)
  { s with messagesQueue := s.messagesQueue ++ [QJsonValue.obj obj] }

/-- The member `formSettingsReply`: the members of the reply object. -/
def formSettingsReply (s : SafeDaemon) (requestFields : List QJsonValue) :
    List (String × QJsonValue) :=
  let result : List (String × QJsonValue) := []
  let result := QMap.insert result "type" (QJsonValue.str "settings")
  let values := requestFields.foldl (fun (values : List (String × QJsonValue)) field =>
    let value := (s.settingsValue field.toString (QVariant.str "")).toString
    if 0 < value.length then QMap.insert values field.toString (QJsonValue.str value)
    else values) []
  QMap.insert result "values" (QJsonValue.obj values)

/-- The member `getPublicLink`. -/
def getPublicLink (w : World) (s : SafeDaemon) (info : QFileInfo) : SafeDaemon × String :=
  let id :=
    if w.isDir info.filePath then s.remoteStateDb.getDirId (relativeFilePath w s info)
    else s.remoteStateDb.getFileId (relativeFilePath w s info)
  if id = "" then (s, "")
  else
    ({ s with nextObject := s.nextObject + 1, rpcs := s.rpcs ++ [Rpc.publicObject id] },
     w.publicLink id)

/-- The member `getFolderLink`. -/
def getFolderLink (w : World) (s : SafeDaemon) (info : QFileInfo) : SafeDaemon × String :=
  let r := fetchDirId w s (relativePath w s info)
  let pid := r.2
  if pid = "" then (r.1, "")
  else (r.1, "https://www.2safe.com/web/" ++ pid ++ "/" ++ info.fileName)

/-- The branch `verb == "login"` of the member `handleClientConnection`. -/
def handleLogin (fuel : Nat) (w : World) (s : SafeDaemon) (args : List (String × QJsonValue)) :
    Option SafeDaemon :=
  let login := (QJsonValue.member args "login").toString
  let password := (QJsonValue.member args "password").toString
  if login.length < 1 ∨ password.length < 1 then some s
  else
    let s := s.setValue "login" (QVariant.str login)
    let s := s.setValue "password" (QVariant.str password)
    let r := authUser w s
    if r.2 then init fuel w r.1 else some r.1

/-- The branch `verb == "chdir"` of the member `handleClientConnection`. -/
def handleChdir (fuel : Nat) (w : World) (s : SafeDaemon) (args : List (String × QJsonValue)) :
    Option SafeDaemon :=
  let dir := (QJsonValue.member args "dir").toString
  if w.fileExists dir && w.isReadable dir && w.isDir dir then
    let s := s.setValue "root_name" (QVariant.str dir)
    match s.deauthUser with
    | some s => init fuel w s
    | none => none
  else some s

/-- The branch `type == NOOP_TYPE` of the member `handleClientConnection`. -/
def handleNoop (s : SafeDaemon) : SafeDaemon × Reply :=
  let s := s.notifyEventQuota s.used_bytes s.total_bytes
  let s := s.notifyEventSync s.activeTransfers.length
  let s := s.notifyEventAuth s.online s.apiFactory.login
  if s.messagesQueue.isEmpty then
    let obj : List (String × QJsonValue) := []
    let obj := QMap.insert obj "type" (QJsonValue.str "noop")
    (s, Reply.json (QJsonValue.obj obj))
  else
    let obj : List (String × QJsonValue) := []
    let messages := s.messagesQueue.foldl (fun (messages : List QJsonValue) m => messages ++ [m]) []
    let obj := QMap.insert obj "type" (QJsonValue.str "queue")
    let obj := QMap.insert obj "messages" (QJsonValue.arr messages)
    ({ s with messagesQueue := [] }, Reply.json (QJsonValue.obj obj))

/-- The member `handleClientConnection` from the parsed message on: the daemon
afterwards and what is written to the socket.  `none` when a nested call has
no result. -/
def handleClientConnection (fuel : Nat) (w : World) (s : SafeDaemon)
    (message : List (String × QJsonValue)) : Option (SafeDaemon × Option Reply) :=
  let type := (QJsonValue.member message "type").toString
  if type = "get_settings" then
    let response := formSettingsReply s (QJsonValue.member message "fields").toArray
    some (s, some (Reply.json (QJsonValue.obj response)))
  else if type = "set_settings" then
    let args := (QJsonValue.member message "args").toObject
    some (args.foldl (fun s kv => s.setValue kv.1 (QVariant.str kv.2.toString)) s, none)
  else if type = "action" then
    let verb := (QJsonValue.member message "verb").toString
    let args := (QJsonValue.member message "args").toObject
    if verb = "get_public_link" then
      let file := (QJsonValue.member args "file").toString
      let r := getPublicLink w s ⟨file⟩
      some (r.1, some (Reply.text r.2))
    else if verb = "open_in_browser" then
      let file := (QJsonValue.member args "file").toString
      let r := getFolderLink w s ⟨file⟩
      some (r.1, some (Reply.text r.2))
    else if verb = "logout" then (handleLogout s).map (fun s => (s, none))
    else if verb = "login" then (handleLogin fuel w s args).map (fun s => (s, none))
    else if verb = "chdir" then (handleChdir fuel w s args).map (fun s => (s, none))
    else some (s, none)
  else if type = "api_call" then some (s, none)
  else if type = "noop" then
    let r := handleNoop s
    some (r.1, some r.2)
  else some (s, none)

end SafeDaemon

/-! ## A small world for worked examples -/

/-- A disk and a remote service for worked examples: the home directory is
`/home/u`, every file was last modified at time 20 and has the same contents,
the sync root and `a` below it are directories.  The string hash is the
identity, a stand-in that lets a stored fingerprint show the string it was
computed from. -/
def World.sample : World :=
  { homePath := "/home/u"
    currentPath := "/"
    isDir := fun p => p = "/home/u/2safe" || p = "/home/u/2safe/a"
    fileExists := fun _ => true
    isReadable := fun _ => true
    isSymLink := fun _ => false
    lastModified := fun _ => 20
    size := fun _ => 3
    fileMd5 := fun _ => "900150983cd24fb0d6963f7d28e17f72"
    md5 := fun str => str
    entries := fun _ => []
    entryCount := fun _ => 2
    dirId := fun p => if p = "/" then "227930033757" else "7"
    madeDirId := fun _ _ => "8"
    now := 1000
    authUser := fun login password => login = "user" && password = "secret"
    listDir := fun id =>
      if id = "227930033757" then
        some ⟨[⟨"7", "a", 10, false, ""⟩, ⟨"227931033757", "Trash", 1, true, ""⟩], [],
          "/", "227930033757"⟩
      else if id = "7" then
        some ⟨[], [⟨"42", "b.txt", 10, "900150983cd24fb0d6963f7d28e17f72", false⟩], "/a/", "7"⟩
      else none
    fileInfo := fun id =>
      if id = "42" then ⟨"42", "b.txt", 10, "900150983cd24fb0d6963f7d28e17f72", false⟩
      else ⟨"", "", 0, "", false⟩
    dirInfo := fun id =>
      if id = "7" then ⟨"7", "a", 10, false, ""⟩ else ⟨"", "", 0, false, ""⟩
    publicLink := fun id => "https://www.2safe.com/l/" ++ id }

/-- A running daemon for worked examples: watchers exist, the local and the
remote store both hold the file `a/b.txt` with the same hash, the remote row
carrying the older time 10 and the remote id `42`; the directory `a` is known
to both stores. -/
def SafeDaemon.sample : SafeDaemon :=
  { SafeDaemon.start with
    online := true
    apiFactory := ⟨"user"⟩
    settings := [("login", QVariant.str "user"), ("password", QVariant.str "secret"),
      ("last_updated", QVariant.uint 5)]
    watcher := some ⟨"/home/u/2safe", true, ["/home/u/2safe"]⟩
    swatcher := some ⟨5, true⟩
    localStateDb :=
      ⟨[⟨"a", "a/b.txt", "b.txt", 10, "900150983cd24fb0d6963f7d28e17f72", none⟩],
       [⟨"a", "a", 10, "", some "7"⟩]⟩
    remoteStateDb :=
      ⟨[⟨"a", "a/b.txt", "b.txt", 10, "900150983cd24fb0d6963f7d28e17f72", some "42"⟩],
       [⟨"a", "a", 10, "", some "7"⟩]⟩ }

/-! ## Auxiliary definitions

Names for pieces of the members above, so that facts can be proved piece by
piece: the row update shared by `fileModified` and `fileAdded`, the part of the
daemon outside the transfer manager, and the five phases that
`queueUploadFile` and `queueDownloadFile` both run. -/

namespace SafeDaemon

/-- The three store statements at the head of `fileModified` and of the file
branch of `fileAdded`: the row of the file is replaced by one with the file's
current time and hash, and the fingerprint of its directory is recomputed. -/
def upsertLocalFile (w : World) (s : SafeDaemon) (info : QFileInfo) : SafeDaemon :=
  { s with localStateDb :=
      (((s.localStateDb.removeFile (relativeFilePath w s info)).insertFile
          (relativePath w s info) (relativeFilePath w s info) info.fileName (getMtime w info)
          (makeHash w info) none).updateDirHash w.md5 (relativePath w s info)) }

/-- The daemon with the members of the transfer manager (both maps, the timer
objects, the allocation counter and the request trace) blanked: two states
with the same `core` differ at most in those members. -/
def core (s : SafeDaemon) : SafeDaemon :=
  { s with pendingTransfers := [], activeTransfers := [], timers := [], nextObject := 0,
           rpcs := [] }

/-- Phase 1 of an enqueue: the timer object is created and configured. -/
def queueCreate (s : SafeDaemon) : SafeDaemon :=
  let timer := s.nextObject
  let s := { s with nextObject := s.nextObject + 1,
                    timers := QMap.insert s.timers timer
                      ⟨0, false, TimerType.CoarseTimer, false, 0, none⟩ }
  let s := s.modifyTimer timer (fun t => { t with interval := 2000 })
  let s := s.modifyTimer timer (fun t => { t with singleShot := true })
  s.modifyTimer timer (fun t => { t with timerType := TimerType.VeryCoarseTimer })

/-- Phase 2 of an enqueue: an active transfer of the path is finished. -/
def queueCancelActive (s : SafeDaemon) (path : String) : SafeDaemon :=
  let active := QMap.contains s.activeTransfers path
  if active then s.finishTransfer path else s

/-- Phase 3 of an enqueue: the slot is connected to the new timer. -/
def queueConnect (s : SafeDaemon) (timer : Nat) (slot : Slot) : SafeDaemon :=
  s.modifyTimer timer (fun t => { t with slot := some slot })

/-- Phase 4 of an enqueue: a queued timer of the path is stopped and deleted. -/
def queueCancelPending (s : SafeDaemon) (path : String) : SafeDaemon :=
  let queued := QMap.contains s.pendingTransfers path
  if queued then
    match QMap.value s.pendingTransfers path with
    | some old =>
      let s := s.modifyTimer old (fun t => { t with active := false })
      { s with pendingTransfers := QMap.remove s.pendingTransfers path,
               timers := QMap.remove s.timers old }
    | none => s
  else s

/-- Phase 5 of an enqueue: the new timer is registered and started. -/
def queueStart (s : SafeDaemon) (path : String) (timer : Nat) : SafeDaemon :=
  let s := { s with pendingTransfers := QMap.insert s.pendingTransfers path timer }
  s.modifyTimer timer (fun t => { t with active := true, startedAt := s.clock })

/-- The five phases in the order in which both enqueue members run them. -/
def enqueue (s : SafeDaemon) (slot : Slot) : SafeDaemon :=
  queueStart
    (queueCancelPending
      (queueConnect (queueCancelActive (queueCreate s) (slotPath slot)) s.nextObject slot)
      (slotPath slot))
    (slotPath slot) s.nextObject

end SafeDaemon

/-! ## Runs of the transfer manager -/

namespace SafeDaemon

/-- What can happen to the transfer manager: an enqueue, the expiry of a
timer object (which runs `uploadFile` or `downloadFile`), the completion of a
transfer (which runs `finishTransfer`), or time passing. -/
inductive TransferEvent where
  | queueUploadFile (dir_id : String) (info : QFileInfo)
  | queueDownloadFile (id : String) (info : QFileInfo)
  | timeout (timer : Nat)
  | finishTransfer (path : String)
  | passTime (ms : Nat)
deriving DecidableEq, Repr

/-- The daemon after one transfer-manager event. -/
def step (s : SafeDaemon) : TransferEvent → SafeDaemon
  | TransferEvent.queueUploadFile dir_id info => s.queueUploadFile dir_id info
  | TransferEvent.queueDownloadFile id info => s.queueDownloadFile id info
  | TransferEvent.timeout timer => s.timeout timer
  | TransferEvent.finishTransfer path => s.finishTransfer path
  | TransferEvent.passTime ms => s.passTime ms

/-- The daemon after a sequence of transfer-manager events. -/
def run (s : SafeDaemon) (events : List TransferEvent) : SafeDaemon := events.foldl step s

/-- The transfer manager before any enqueue: both maps empty, no timer object. -/
def NoTransfers (s : SafeDaemon) : Prop :=
  s.pendingTransfers = [] ∧ s.activeTransfers = [] ∧ s.timers = []

/-- Every object number held by the pending map or the timer heap was handed
out by the allocation counter (a new object never aliases a known one). -/
def Allocated (s : SafeDaemon) : Prop :=
  (∀ p h, QMap.value s.pendingTransfers p = some h → h < s.nextObject) ∧
  (∀ h t, QMap.value s.timers h = some t → h < s.nextObject)

/-- Every running timer is single-shot, has a slot, and is the timer that the
pending map holds for the path of its slot. -/
def Tracked (s : SafeDaemon) : Prop :=
  ∀ h t, QMap.value s.timers h = some t → t.active = true →
    t.singleShot = true ∧
    ∃ slot, t.slot = some slot ∧ QMap.value s.pendingTransfers (slotPath slot) = some h

/-- No path has both a live debounce timer and an active transfer. -/
def LiveDisjoint (s : SafeDaemon) : Prop :=
  ∀ p h, QMap.value s.pendingTransfers p = some h → s.isLive h = true →
    QMap.contains s.activeTransfers p = false

/-- The request a slot hands to the remote adapter when it runs. -/
def slotRequest : Slot → Rpc
  | Slot.uploadFile dir_id info => Rpc.pushFile dir_id info.filePath info.fileName true
  | Slot.downloadFile id info => Rpc.pullFile id info.filePath

/-- The number of `pushFile` requests for `path` in a request trace. -/
def pushCount (rpcs : List Rpc) (path : String) : Nat :=
  (rpcs.filter (fun r =>
    match r with
    | Rpc.pushFile _ p _ _ => p = path
    | _ => false)).length

/-- A burst of edits of one file: before each `queueUploadFile` call some time
passes (first component, in milliseconds); the second component is the
`dir_id` of the call.  No timer expires during the burst. -/
def editBurst (s : SafeDaemon) (info : QFileInfo) (edits : List (Nat × String)) : SafeDaemon :=
  edits.foldl (fun s e => (s.passTime e.1).queueUploadFile e.2 info) s

/-- Whether `timer` is a running timer whose slot transfers `path`. -/
def isLiveFor (s : SafeDaemon) (path : String) (timer : Nat) : Bool :=
  match QMap.value s.timers timer with
  | some t =>
    t.active &&
      (match t.slot with
       | some slot => slotPath slot = path
       | none => false)
  | none => false

end SafeDaemon

/-! ## Notions used to state facts about local indexing -/

namespace SafeDaemon

/-- The daemon `s'` has the settings and the remote store of `s`, and its
local store tracks every file and directory path that the local store of `s`
tracks. -/
def Grows (s s' : SafeDaemon) : Prop :=
  s'.settings = s.settings ∧ s'.remoteStateDb = s.remoteStateDb ∧
  (∀ p, s.localStateDb.existsFile p = true → s'.localStateDb.existsFile p = true) ∧
  (∀ p, s.localStateDb.existsDir p = true → s'.localStateDb.existsDir p = true)

/-- Nothing happened in the transfer manager between `s` and `s'`: both
transfer maps, the timer objects, the request trace and the allocation counter
are the same. -/
def Quiet (s s' : SafeDaemon) : Prop :=
  s'.pendingTransfers = s.pendingTransfers ∧ s'.activeTransfers = s.activeTransfers ∧
  s'.timers = s.timers ∧ s'.rpcs = s.rpcs ∧ s'.nextObject = s.nextObject

/-- What one round of the first loop of `fullIndex` does to `dir_index`: the
hash of a regular file is appended to the entry of its directory. -/
def dirIndexStep (w : World) (dir_index : List (String × (String × Nat))) (entry : String) :
    List (String × (String × Nat)) :=
  let info : QFileInfo := ⟨entry⟩
  if info.fileName = "." ∨ info.fileName = ".." then dir_index
  else if w.isSymLink info.filePath then dir_index
  else if !w.isDir info.filePath then
    if !QMap.contains dir_index (absolutePath w info.path) then
      dirIndexInsert (absolutePath w info.path) (makeHash w info, getMtime w info) dir_index
    else dirIndexAppend (absolutePath w info.path) (makeHash w info) (getMtime w info) dir_index
  else dir_index

/-- Whether the local store of `s` has the row that the first loop of
`fullIndex` writes for `entry` (nothing is required of entries the loop
skips). -/
def entryTracked (w : World) (s : SafeDaemon) (entry : String) : Bool :=
  let info : QFileInfo := ⟨entry⟩
  if info.fileName = "." ∨ info.fileName = ".." then true
  else if w.isSymLink info.filePath then true
  else if !w.isDir info.filePath then s.localStateDb.existsFile (relativeFilePath w s info)
  else if w.entryCount info.filePath < 3 then
    s.localStateDb.existsDir (relativeFilePath w s info)
  else true

/-- Whether the local store of `s` has the row that the second loop of
`fullIndex` writes for the directory `k`. -/
def keyTracked (w : World) (s : SafeDaemon) (k : String) : Bool :=
  relativeFilePath w s ⟨k⟩ = "" || s.localStateDb.existsDir (relativeFilePath w s ⟨k⟩)

/-- Whether the entry is a regular file directly in directory `d`, as the
first loop of `fullIndex` sees it. -/
def isChildFile (w : World) (d : String) (entry : String) : Bool :=
  let info : QFileInfo := ⟨entry⟩
  !(info.fileName = "." || info.fileName = "..") && !w.isSymLink info.filePath &&
    !w.isDir info.filePath && absolutePath w info.path = d

end SafeDaemon

/-! ## A disk tree for worked examples of local indexing -/

/-- The disk of `World.sample` with a directory iterator that yields the given
entries for the sync root: `a` is a directory with more than two entries, the
file `a/c.txt` is empty (its MD5 is `d41d8cd98f00b204e9800998ecf8427e`) and
every other file has the contents of `World.sample`.  The string hash is the
identity stand-in of `World.sample`, so a stored directory fingerprint shows
the string that was passed to MD5. -/
def World.listing (entries : List String) : World :=
  { World.sample with
    entries := fun p => if p = "/home/u/2safe" then entries else []
    entryCount := fun _ => 4
    fileMd5 := fun p =>
      if p = "/home/u/2safe/a/c.txt" then "d41d8cd98f00b204e9800998ecf8427e"
      else "900150983cd24fb0d6963f7d28e17f72" }

/-- The fingerprint stored in the local store for the directory `path`, empty
when there is no row. -/
def SafeDaemon.localDirHash (s : SafeDaemon) (path : String) : String :=
  match s.localStateDb.getDir path with
  | some r => r.dir_hash
  | none => ""

/-! ## Notions used to state where a disk removal lands -/

/-- The disk of `World.sample` as the operating system answers for it: a path
is a directory when it resolves (its `.` and `..` elements followed) to the
sync root or to `a` below it. -/
def World.resolving : World :=
  { World.sample with
    isDir := fun p => Path.cleanPath p = "/home/u/2safe" || Path.cleanPath p = "/home/u/2safe/a" }

/-- The elements of a path after its `.` and `..` elements are followed, which
is the directory the operating system reaches for it. -/
def Path.resolved (s : String) : List (List Char) :=
  Path.normalize (Path.isAbsolute s.data) [] (Path.elements s.data)

/-- Whether a relative path is made of plain names only: it has at least one
element and none of its elements is `.` or `..`. -/
def Path.isPlain (s : String) : Bool :=
  !(Path.elements s.data).isEmpty &&
    (Path.elements s.data).all (fun e => e ≠ ['.'] && e ≠ ['.', '.'])

/-! ## The relation between the two tables of a store -/

/-- Whether every row of the `files` table whose `relative_dir` is not `/` has
a row at `relative_dir` in the `dirs` table of the same store. -/
def SafeStateDb.dirsCover (db : SafeStateDb) : Bool :=
  db.files.all (fun f => decide (f.relative_dir = "/") || db.existsDir f.relative_dir)

/-! ## Notions used to state facts about remote indexing -/

/-- Whether the `foreach(SafeDir dir, dirs)` loop of `fullRemoteIndex` issues a
`listDir` request for the directory: it is neither in the trash nor a special
directory. -/
def SafeDir.isListed (dir : SafeDir) : Bool := !(dir.is_trash || decide (dir.special_dir ≠ ""))

/-- Modelled from the spec: remote indexing in which completion is detected
from the outstanding `list_dir` requests themselves ("one outstanding request
per unexplored directory; completion when the count returns to zero") instead
of a counter variable.  The requests are answered in the order in which they
were issued, each answer is handled by the handlers of the source, and the
loop is left when no request is outstanding after a handled answer. -/
def SafeDaemon.remoteIndexByOutstanding (w : World) :
    Nat → SafeDaemon → List String → Option SafeDaemon
  | 0, _, _ => none
  | _ + 1, _, [] => none
  | fuel + 1, s, id :: outstanding =>
    match w.listDir id with
    | some reply =>
      let r := SafeDaemon.listDirComplete s 0 reply
      if (outstanding ++ r.2.2.1).isEmpty then some r.1
      else SafeDaemon.remoteIndexByOutstanding w fuel r.1 (outstanding ++ r.2.2.1)
    | none =>
      if outstanding.isEmpty then some s
      else SafeDaemon.remoteIndexByOutstanding w fuel s outstanding

/-! ## Notions used to state what `prepareTree` creates -/

/-- Whether a path element is a plain name: not empty, without a slash, and
neither `.` nor `..`. -/
def Path.isName (e : List Char) : Bool :=
  decide (e ≠ [] ∧ '/' ∉ e ∧ e ≠ ['.'] ∧ e ≠ ['.', '.'])

/-- The relative path made of the given names, the empty string for no
name. -/
def Path.ofNames (names : List (List Char)) : String := String.mk (Path.join names)

/-- The relative paths of the directories on the way from just below `base`
down to `base` extended by all of `ext`, the one nearest to `base` first. -/
def Path.levels (base : List (List Char)) : List (List Char) → List String
  | [] => []
  | e :: rest => Path.ofNames (base ++ [e]) :: Path.levels (base ++ [e]) rest

/-- The relative path of the directory with the given names, `/` for the sync
root itself. -/
def Path.ofNamesOrRoot (names : List (List Char)) : String :=
  if names = [] then "/" else Path.ofNames names

/-- Modelled from the spec: the requests that creating the missing ancestors
top-down amounts to.  For every directory on the way from just below `base`
down to `base` extended by `ext`, parents first, that the remote store does
not have: the id of its parent is asked for (`getProps`) and the directory is
created in it (`makeDir`). -/
def SafeDaemon.treeRequests (w : World) (s : SafeDaemon) (base : List (List Char)) :
    List (List Char) → List Rpc
  | [] => []
  | e :: rest =>
    (if s.remoteStateDb.existsDir (Path.ofNames (base ++ [e])) then []
      else [Rpc.getProps (Path.ofNamesOrRoot base) true,
        Rpc.makeDir (w.dirId (Path.ofNamesOrRoot base)) (String.mk e)]) ++
    SafeDaemon.treeRequests w s (base ++ [e]) rest

/-! ## Notions used to state what a bootstrap leaves behind -/

/-- The members of the daemon that show whether it is bootstrapped: the online
flag, the two watchers and the adapter factory. -/
def SafeDaemon.session (s : SafeDaemon) :
    Bool × Option FSWatcher × Option SafeWatcher × SafeApiFactory :=
  (s.online, s.watcher, s.swatcher, s.apiFactory)

/-! # Theorems -/

namespace QMap

variable {K V : Type} [DecidableEq K]

theorem value_remove (m : List (K × V)) (k a : K) :
    value (remove m k) a = if k = a then none else value m a := by
  induction m with
  | nil => simp [remove, value]
  | cons e rest ih =>
    obtain ⟨b, v⟩ := e
    by_cases hb : b = k
    · subst hb
      simp only [remove, if_true, ih, value]
      by_cases hba : b = a <;> simp [hba]
    · simp only [remove, hb, if_false, value, ih]
      by_cases hba : b = a
      · subst hba
        simp [Ne.symm hb]
      · simp [hba]

theorem value_insert (m : List (K × V)) (k a : K) (v : V) :
    value (insert m k v) a = if k = a then some v else value m a := by
  by_cases h : k = a
  · simp [insert, value, h]
  · simp [insert, value, h, value_remove]

theorem contains_remove (m : List (K × V)) (k a : K) :
    contains (remove m k) a = (decide (k ≠ a) && contains m a) := by
  by_cases h : k = a <;> simp [contains, value_remove, h]

theorem contains_insert (m : List (K × V)) (k a : K) (v : V) :
    contains (insert m k v) a = (decide (k = a) || contains m a) := by
  by_cases h : k = a <;> simp [contains, value_insert, h]

end QMap

namespace SafeDaemon

section fields

variable (s : SafeDaemon) (timer : Nat) (f : QTimer → QTimer) (path : String)

@[simp] theorem modifyTimer_pendingTransfers :
    (s.modifyTimer timer f).pendingTransfers = s.pendingTransfers := by
  unfold modifyTimer; split <;> rfl

@[simp] theorem modifyTimer_activeTransfers :
    (s.modifyTimer timer f).activeTransfers = s.activeTransfers := by
  unfold modifyTimer; split <;> rfl

@[simp] theorem modifyTimer_nextObject : (s.modifyTimer timer f).nextObject = s.nextObject := by
  unfold modifyTimer; split <;> rfl

@[simp] theorem modifyTimer_clock : (s.modifyTimer timer f).clock = s.clock := by
  unfold modifyTimer; split <;> rfl

@[simp] theorem modifyTimer_rpcs : (s.modifyTimer timer f).rpcs = s.rpcs := by
  unfold modifyTimer; split <;> rfl

theorem value_modifyTimer (x : Nat) :
    QMap.value (s.modifyTimer timer f).timers x =
      if timer = x then (QMap.value s.timers x).map f else QMap.value s.timers x := by
  unfold modifyTimer
  by_cases h : timer = x
  · subst h
    cases hv : QMap.value s.timers timer <;> simp [hv, QMap.value_insert]
  · cases hv : QMap.value s.timers timer <;> simp [hv, QMap.value_insert, h]

@[simp] theorem finishTransfer_pendingTransfers :
    (s.finishTransfer path).pendingTransfers = s.pendingTransfers := by
  unfold finishTransfer fetchUsage; split <;> rfl

@[simp] theorem finishTransfer_timers : (s.finishTransfer path).timers = s.timers := by
  unfold finishTransfer fetchUsage; split <;> rfl

@[simp] theorem finishTransfer_clock : (s.finishTransfer path).clock = s.clock := by
  unfold finishTransfer fetchUsage; split <;> rfl

theorem finishTransfer_nextObject_le : s.nextObject ≤ (s.finishTransfer path).nextObject := by
  unfold finishTransfer fetchUsage; split <;> simp

theorem value_finishTransfer (q : String) :
    QMap.value (s.finishTransfer path).activeTransfers q =
      if path = q then none else QMap.value s.activeTransfers q := by
  unfold finishTransfer fetchUsage
  by_cases hc : QMap.contains s.activeTransfers path = true
  · simp [hc, QMap.value_remove]
  · simp only [hc, if_false, Bool.false_eq_true]
    by_cases hq : path = q
    · subst hq
      simpa [QMap.contains] using hc
    · simp [hq]

end fields

section phases

variable (s : SafeDaemon) (path : String) (slot : Slot)

@[simp] theorem modifyTimer_core (timer : Nat) (f : QTimer → QTimer) :
    (s.modifyTimer timer f).core = s.core := by
  unfold modifyTimer; split <;> rfl

@[simp] theorem finishTransfer_core : (s.finishTransfer path).core = s.core := by
  unfold finishTransfer fetchUsage; split <;> rfl

theorem finishTransfer_rpcs :
    (s.finishTransfer path).rpcs =
      s.rpcs ++ (if QMap.contains s.activeTransfers path then [Rpc.getDiskQuota] else []) := by
  unfold finishTransfer fetchUsage; split <;> simp

@[simp] theorem queueCreate_pendingTransfers :
    (queueCreate s).pendingTransfers = s.pendingTransfers := by
  simp [queueCreate]

@[simp] theorem queueCreate_activeTransfers :
    (queueCreate s).activeTransfers = s.activeTransfers := by
  simp [queueCreate]

@[simp] theorem queueCreate_clock : (queueCreate s).clock = s.clock := by
  simp [queueCreate]

@[simp] theorem queueCreate_rpcs : (queueCreate s).rpcs = s.rpcs := by
  simp [queueCreate]

@[simp] theorem queueCreate_nextObject : (queueCreate s).nextObject = s.nextObject + 1 := by
  simp [queueCreate]

@[simp] theorem queueCreate_core : (queueCreate s).core = s.core := by
  simp only [queueCreate, modifyTimer_core]
  rfl

theorem value_queueCreate (x : Nat) :
    QMap.value (queueCreate s).timers x =
      if s.nextObject = x then
        some ⟨2000, true, TimerType.VeryCoarseTimer, false, 0, none⟩
      else QMap.value s.timers x := by
  simp only [queueCreate, value_modifyTimer, QMap.value_insert]
  by_cases h : s.nextObject = x <;> simp [h]

theorem queueCancelActive_eq : queueCancelActive s path = s.finishTransfer path := by
  simp only [queueCancelActive, finishTransfer]
  by_cases h : QMap.contains s.activeTransfers path = true <;> simp [h]

theorem queueCancelPending_none (h : QMap.value s.pendingTransfers path = none) :
    queueCancelPending s path = s := by
  simp [queueCancelPending, QMap.contains, h]

theorem queueCancelPending_some (old : Nat) (h : QMap.value s.pendingTransfers path = some old) :
    queueCancelPending s path =
      { s.modifyTimer old (fun t => { t with active := false }) with
        pendingTransfers := QMap.remove s.pendingTransfers path,
        timers := QMap.remove (s.modifyTimer old (fun t => { t with active := false })).timers
          old } := by
  simp [queueCancelPending, QMap.contains, h]

@[simp] theorem queueCancelPending_activeTransfers :
    (queueCancelPending s path).activeTransfers = s.activeTransfers := by
  cases h : QMap.value s.pendingTransfers path with
  | none => rw [queueCancelPending_none s path h]
  | some old => rw [queueCancelPending_some s path old h]; simp

@[simp] theorem queueCancelPending_clock : (queueCancelPending s path).clock = s.clock := by
  cases h : QMap.value s.pendingTransfers path with
  | none => rw [queueCancelPending_none s path h]
  | some old => rw [queueCancelPending_some s path old h]; simp

@[simp] theorem queueCancelPending_rpcs : (queueCancelPending s path).rpcs = s.rpcs := by
  cases h : QMap.value s.pendingTransfers path with
  | none => rw [queueCancelPending_none s path h]
  | some old => rw [queueCancelPending_some s path old h]; simp

@[simp] theorem queueCancelPending_nextObject :
    (queueCancelPending s path).nextObject = s.nextObject := by
  cases h : QMap.value s.pendingTransfers path with
  | none => rw [queueCancelPending_none s path h]
  | some old => rw [queueCancelPending_some s path old h]; simp

@[simp] theorem queueCancelPending_core : (queueCancelPending s path).core = s.core := by
  cases h : QMap.value s.pendingTransfers path with
  | none => rw [queueCancelPending_none s path h]
  | some old =>
    rw [queueCancelPending_some s path old h]
    have := modifyTimer_core s old (fun t => { t with active := false })
    simp only [core, SafeDaemon.mk.injEq] at this ⊢
    simp [this]

theorem value_queueCancelPending_pending (q : String) :
    QMap.value (queueCancelPending s path).pendingTransfers q =
      if path = q then none else QMap.value s.pendingTransfers q := by
  cases hv : QMap.value s.pendingTransfers path with
  | none =>
    rw [queueCancelPending_none s path hv]
    by_cases hq : path = q
    · subst hq; simp [hv]
    · simp [hq]
  | some old =>
    rw [queueCancelPending_some s path old hv]
    simp [QMap.value_remove]

theorem value_queueCancelPending_timers (x : Nat) :
    QMap.value (queueCancelPending s path).timers x =
      if QMap.value s.pendingTransfers path = some x then none else QMap.value s.timers x := by
  cases hv : QMap.value s.pendingTransfers path with
  | none => rw [queueCancelPending_none s path hv]; simp
  | some old =>
    rw [queueCancelPending_some s path old hv]
    simp only [QMap.value_remove, value_modifyTimer, Option.some.injEq]
    by_cases hx : old = x <;> simp [hx]

@[simp] theorem queueConnect_pendingTransfers (timer : Nat) :
    (queueConnect s timer slot).pendingTransfers = s.pendingTransfers := by
  simp [queueConnect]

@[simp] theorem queueConnect_activeTransfers (timer : Nat) :
    (queueConnect s timer slot).activeTransfers = s.activeTransfers := by
  simp [queueConnect]

@[simp] theorem queueConnect_clock (timer : Nat) : (queueConnect s timer slot).clock = s.clock := by
  simp [queueConnect]

@[simp] theorem queueConnect_rpcs (timer : Nat) : (queueConnect s timer slot).rpcs = s.rpcs := by
  simp [queueConnect]

@[simp] theorem queueConnect_nextObject (timer : Nat) :
    (queueConnect s timer slot).nextObject = s.nextObject := by
  simp [queueConnect]

@[simp] theorem queueConnect_core (timer : Nat) : (queueConnect s timer slot).core = s.core := by
  simp [queueConnect]

@[simp] theorem queueStart_pendingTransfers (timer : Nat) :
    (queueStart s path timer).pendingTransfers = QMap.insert s.pendingTransfers path timer := by
  simp [queueStart]

@[simp] theorem queueStart_activeTransfers (timer : Nat) :
    (queueStart s path timer).activeTransfers = s.activeTransfers := by
  simp [queueStart]

@[simp] theorem queueStart_clock (timer : Nat) : (queueStart s path timer).clock = s.clock := by
  simp [queueStart]

@[simp] theorem queueStart_rpcs (timer : Nat) : (queueStart s path timer).rpcs = s.rpcs := by
  simp [queueStart]

@[simp] theorem queueStart_nextObject (timer : Nat) :
    (queueStart s path timer).nextObject = s.nextObject := by
  simp [queueStart]

@[simp] theorem queueStart_core (timer : Nat) : (queueStart s path timer).core = s.core := by
  simp only [queueStart, modifyTimer_core]
  rfl

theorem value_queueStart (timer x : Nat) :
    QMap.value (queueStart s path timer).timers x =
      if timer = x then
        (QMap.value s.timers x).map (fun t => { t with active := true, startedAt := s.clock })
      else QMap.value s.timers x := by
  simp only [queueStart, value_modifyTimer]

@[simp] theorem enqueue_core : (s.enqueue slot).core = s.core := by
  simp [enqueue, queueCancelActive_eq]

@[simp] theorem enqueue_clock : (s.enqueue slot).clock = s.clock := by
  simp [enqueue, queueCancelActive_eq]

theorem enqueue_rpcs :
    (s.enqueue slot).rpcs =
      s.rpcs ++ (if QMap.contains s.activeTransfers (slotPath slot) then [Rpc.getDiskQuota]
        else []) := by
  simp [enqueue, queueCancelActive_eq, finishTransfer_rpcs]

theorem enqueue_nextObject : s.nextObject < (s.enqueue slot).nextObject := by
  simp only [enqueue, queueStart_nextObject, queueCancelPending_nextObject,
    queueConnect_nextObject, queueCancelActive_eq]
  have := finishTransfer_nextObject_le (queueCreate s) (slotPath slot)
  simp only [queueCreate_nextObject] at this
  omega

theorem value_enqueue_pending (q : String) :
    QMap.value (s.enqueue slot).pendingTransfers q =
      if slotPath slot = q then some s.nextObject else QMap.value s.pendingTransfers q := by
  simp only [enqueue, queueStart_pendingTransfers, QMap.value_insert,
    value_queueCancelPending_pending, queueConnect_pendingTransfers, queueCancelActive_eq,
    finishTransfer_pendingTransfers, queueCreate_pendingTransfers]
  by_cases h : slotPath slot = q <;> simp [h]

theorem value_enqueue_active (q : String) :
    QMap.value (s.enqueue slot).activeTransfers q =
      if slotPath slot = q then none else QMap.value s.activeTransfers q := by
  simp only [enqueue, queueStart_activeTransfers, queueCancelPending_activeTransfers,
    queueConnect_activeTransfers, queueCancelActive_eq, value_finishTransfer,
    queueCreate_activeTransfers]

theorem value_enqueue_timers (x : Nat)
    (hfresh : QMap.value s.pendingTransfers (slotPath slot) ≠ some s.nextObject) :
    QMap.value (s.enqueue slot).timers x =
      if s.nextObject = x then
        some ⟨2000, true, TimerType.VeryCoarseTimer, true, s.clock, some slot⟩
      else if QMap.value s.pendingTransfers (slotPath slot) = some x then none
      else QMap.value s.timers x := by
  simp only [enqueue, value_queueStart, value_queueCancelPending_timers,
    queueConnect_pendingTransfers, queueCancelActive_eq, finishTransfer_pendingTransfers,
    queueCreate_pendingTransfers, queueConnect, value_modifyTimer, finishTransfer_timers,
    value_queueCreate, queueCancelPending_clock, modifyTimer_clock, finishTransfer_clock,
    queueCreate_clock]
  by_cases h : s.nextObject = x
  · subst h
    simp [hfresh]
  · simp only [h, if_false]
    by_cases h2 : QMap.value s.pendingTransfers (slotPath slot) = some x <;> simp [h2]

end phases

theorem queueUploadFile_eq (s : SafeDaemon) (dir_id : String) (info : QFileInfo) :
    s.queueUploadFile dir_id info = s.enqueue (Slot.uploadFile dir_id info) := rfl

theorem queueDownloadFile_eq (s : SafeDaemon) (id : String) (info : QFileInfo) :
    s.queueDownloadFile id info = s.enqueue (Slot.downloadFile id info) := rfl

section expiry

variable (s : SafeDaemon) (timer : Nat)

theorem timeout_dead (h : s.isLive timer = false) : s.timeout timer = s := by
  unfold timeout
  unfold isLive at h
  cases hv : QMap.value s.timers timer with
  | none => rfl
  | some t =>
    simp only [hv] at h
    simp [h]

theorem timeout_live (t : QTimer) (slot : Slot) (hv : QMap.value s.timers timer = some t)
    (ha : t.active = true) (hs : t.singleShot = true) (hslot : t.slot = some slot) :
    s.timeout timer =
      { s with
        timers := QMap.insert s.timers timer { t with active := false },
        nextObject := s.nextObject + 1,
        activeTransfers := QMap.insert s.activeTransfers (slotPath slot) s.nextObject,
        rpcs := s.rpcs ++ [slotRequest slot] } := by
  unfold timeout
  simp only [hv, ha, if_true, hslot]
  cases slot <;> simp [modifyTimer, hv, hs, uploadFile, downloadFile, slotPath, hslot, slotRequest]

theorem isLive_eq_true_iff (h : Nat) :
    s.isLive h = true ↔ ∃ t, QMap.value s.timers h = some t ∧ t.active = true := by
  unfold isLive
  cases hv : QMap.value s.timers h <;> simp

end expiry

/-- The three facts that hold of the transfer manager in every run. -/
theorem inv_enqueue (s : SafeDaemon) (slot : Slot)
    (hA : s.Allocated) (hT : s.Tracked) (hD : s.LiveDisjoint) :
    (s.enqueue slot).Allocated ∧ (s.enqueue slot).Tracked ∧ (s.enqueue slot).LiveDisjoint := by
  have hfresh : QMap.value s.pendingTransfers (slotPath slot) ≠ some s.nextObject := by
    intro h
    exact absurd (hA.1 _ _ h) (lt_irrefl _)
  have hn := enqueue_nextObject s slot
  refine ⟨⟨?_, ?_⟩, ?_, ?_⟩
  · intro p h hp
    rw [value_enqueue_pending] at hp
    by_cases hq : slotPath slot = p
    · simp only [hq, if_true, Option.some.injEq] at hp
      omega
    · simp only [hq, if_false] at hp
      exact lt_trans (hA.1 _ _ hp) hn
  · intro h t ht
    rw [value_enqueue_timers s slot h hfresh] at ht
    by_cases hx : s.nextObject = h
    · omega
    · simp only [hx, if_false] at ht
      by_cases h2 : QMap.value s.pendingTransfers (slotPath slot) = some h
      · simp [h2] at ht
      · simp only [h2, if_false] at ht
        exact lt_trans (hA.2 _ _ ht) hn
  · intro h t ht hact
    rw [value_enqueue_timers s slot h hfresh] at ht
    by_cases hx : s.nextObject = h
    · simp only [hx, if_true, Option.some.injEq] at ht
      subst ht
      refine ⟨rfl, slot, rfl, ?_⟩
      rw [value_enqueue_pending]
      simp [hx]
    · simp only [hx, if_false] at ht
      by_cases h2 : QMap.value s.pendingTransfers (slotPath slot) = some h
      · simp [h2] at ht
      · simp only [h2, if_false] at ht
        obtain ⟨hss, sl, hsl, hpend⟩ := hT h t ht hact
        refine ⟨hss, sl, hsl, ?_⟩
        rw [value_enqueue_pending]
        by_cases hq : slotPath slot = slotPath sl
        · rw [hq] at h2
          exact absurd hpend h2
        · simp [hq, hpend]
  · intro p h hp hlive
    rw [value_enqueue_pending] at hp
    by_cases hq : slotPath slot = p
    · simp [QMap.contains, value_enqueue_active, hq]
    · simp only [hq, if_false] at hp
      have hlt := hA.1 _ _ hp
      rw [isLive_eq_true_iff] at hlive
      obtain ⟨t, ht, hact⟩ := hlive
      rw [value_enqueue_timers s slot h hfresh] at ht
      have hx : ¬ s.nextObject = h := by omega
      simp only [hx, if_false] at ht
      by_cases h2 : QMap.value s.pendingTransfers (slotPath slot) = some h
      · simp [h2] at ht
      · simp only [h2, if_false] at ht
        have := hD p h hp ((isLive_eq_true_iff s h).2 ⟨t, ht, hact⟩)
        simpa [QMap.contains, value_enqueue_active, hq] using this

theorem inv_finishTransfer (s : SafeDaemon) (path : String)
    (hA : s.Allocated) (hT : s.Tracked) (hD : s.LiveDisjoint) :
    (s.finishTransfer path).Allocated ∧ (s.finishTransfer path).Tracked ∧
      (s.finishTransfer path).LiveDisjoint := by
  have hn := finishTransfer_nextObject_le s path
  refine ⟨⟨?_, ?_⟩, ?_, ?_⟩
  · intro p h hp
    simp only [finishTransfer_pendingTransfers] at hp
    exact lt_of_lt_of_le (hA.1 _ _ hp) hn
  · intro h t ht
    simp only [finishTransfer_timers] at ht
    exact lt_of_lt_of_le (hA.2 _ _ ht) hn
  · intro h t ht hact
    simp only [finishTransfer_timers] at ht
    simpa using hT h t ht hact
  · intro p h hp hlive
    simp only [finishTransfer_pendingTransfers] at hp
    have hl : s.isLive h = true := by
      simpa [isLive] using hlive
    have := hD p h hp hl
    simp only [QMap.contains, value_finishTransfer] at this ⊢
    by_cases hq : path = p <;> simp [hq, this]

theorem inv_timeout (s : SafeDaemon) (timer : Nat)
    (hA : s.Allocated) (hT : s.Tracked) (hD : s.LiveDisjoint) :
    (s.timeout timer).Allocated ∧ (s.timeout timer).Tracked ∧ (s.timeout timer).LiveDisjoint := by
  cases hl : s.isLive timer with
  | false => rw [timeout_dead s timer hl]; exact ⟨hA, hT, hD⟩
  | true =>
    obtain ⟨t, hv, hact⟩ := (isLive_eq_true_iff s timer).1 hl
    obtain ⟨hss, slot, hslot, hpend⟩ := hT timer t hv hact
    rw [timeout_live s timer t slot hv hact hss hslot]
    refine ⟨⟨?_, ?_⟩, ?_, ?_⟩
    · intro p h hp
      exact Nat.lt_succ_of_lt (hA.1 _ _ hp)
    · intro h u hu
      simp only [QMap.value_insert] at hu
      by_cases hx : timer = h
      · subst hx
        exact Nat.lt_succ_of_lt (hA.2 _ _ hv)
      · simp only [hx, if_false] at hu
        exact Nat.lt_succ_of_lt (hA.2 _ _ hu)
    · intro h u hu huact
      simp only [QMap.value_insert] at hu
      by_cases hx : timer = h
      · simp only [hx, if_true, Option.some.injEq] at hu
        subst hu
        simp at huact
      · simp only [hx, if_false] at hu
        exact hT h u hu huact
    · intro p h hp hlive
      rw [isLive_eq_true_iff] at hlive
      obtain ⟨u, hu, huact⟩ := hlive
      simp only [QMap.value_insert] at hu
      by_cases hx : timer = h
      · simp only [hx, if_true, Option.some.injEq] at hu
        subst hu
        simp at huact
      · simp only [hx, if_false] at hu
        have h1 := hD p h hp ((isLive_eq_true_iff s h).2 ⟨u, hu, huact⟩)
        have hq : ¬ slotPath slot = p := by
          intro hq
          rw [hq, hp] at hpend
          exact hx (Option.some.inj hpend).symm
        simp only [QMap.contains_insert, h1, Bool.or_false, decide_eq_false_iff_not]
        exact hq

theorem inv_passTime (s : SafeDaemon) (ms : Nat)
    (hA : s.Allocated) (hT : s.Tracked) (hD : s.LiveDisjoint) :
    (s.passTime ms).Allocated ∧ (s.passTime ms).Tracked ∧ (s.passTime ms).LiveDisjoint :=
  ⟨hA, hT, hD⟩

theorem inv_noTransfers (s : SafeDaemon) (h : s.NoTransfers) :
    s.Allocated ∧ s.Tracked ∧ s.LiveDisjoint := by
  obtain ⟨hp, _, ht⟩ := h
  refine ⟨⟨?_, ?_⟩, ?_, ?_⟩
  · intro p h hv; simp [hp, QMap.value] at hv
  · intro h t hv; simp [ht, QMap.value] at hv
  · intro h t hv; simp [ht, QMap.value] at hv
  · intro p h hv; simp [hp, QMap.value] at hv

theorem inv_step (s : SafeDaemon) (e : TransferEvent)
    (h : s.Allocated ∧ s.Tracked ∧ s.LiveDisjoint) :
    (s.step e).Allocated ∧ (s.step e).Tracked ∧ (s.step e).LiveDisjoint := by
  obtain ⟨hA, hT, hD⟩ := h
  cases e with
  | queueUploadFile dir_id info =>
    simp only [step, queueUploadFile_eq]
    exact inv_enqueue s (Slot.uploadFile dir_id info) hA hT hD
  | queueDownloadFile id info =>
    simp only [step, queueDownloadFile_eq]
    exact inv_enqueue s (Slot.downloadFile id info) hA hT hD
  | timeout timer => exact inv_timeout s timer hA hT hD
  | finishTransfer path => exact inv_finishTransfer s path hA hT hD
  | passTime ms => exact inv_passTime s ms hA hT hD

theorem inv_run (events : List TransferEvent) (s : SafeDaemon)
    (h : s.Allocated ∧ s.Tracked ∧ s.LiveDisjoint) :
    (s.run events).Allocated ∧ (s.run events).Tracked ∧ (s.run events).LiveDisjoint := by
  induction events generalizing s with
  | nil => exact h
  | cons e rest ih => exact ih (s.step e) (inv_step s e h)

theorem inv_editBurst (info : QFileInfo) (edits : List (Nat × String)) (s : SafeDaemon)
    (h : s.Allocated ∧ s.Tracked ∧ s.LiveDisjoint) :
    (s.editBurst info edits).Allocated ∧ (s.editBurst info edits).Tracked ∧
      (s.editBurst info edits).LiveDisjoint := by
  induction edits generalizing s with
  | nil => exact h
  | cons e rest ih =>
    refine ih _ ?_
    obtain ⟨hA, hT, hD⟩ := h
    beta_reduce
    rw [queueUploadFile_eq]
    exact inv_enqueue (s.passTime e.1) _ hA hT hD

theorem editBurst_concat (info : QFileInfo) (edits : List (Nat × String)) (e : Nat × String)
    (s : SafeDaemon) :
    s.editBurst info (edits ++ [e]) =
      ((s.editBurst info edits).passTime e.1).queueUploadFile e.2 info := by
  simp [editBurst, List.foldl_append]

theorem editBurst_clock (info : QFileInfo) (edits : List (Nat × String)) (s : SafeDaemon) :
    (s.editBurst info edits).clock = s.clock + (edits.map Prod.fst).sum := by
  induction edits generalizing s with
  | nil => simp [editBurst]
  | cons e rest ih =>
    have := ih ((s.passTime e.1).queueUploadFile e.2 info)
    simp only [editBurst, List.foldl_cons, List.map_cons, List.sum_cons] at this ⊢
    rw [this, queueUploadFile_eq, enqueue_clock]
    simp only [passTime]
    omega

theorem pushCount_append (l : List Rpc) (r : Rpc) (p : String) :
    pushCount (l ++ [r]) p =
      pushCount l p + (match r with
        | Rpc.pushFile _ q _ _ => if q = p then 1 else 0
        | _ => 0) := by
  unfold pushCount
  rw [List.filter_append, List.length_append]
  cases r <;> simp [List.filter]
  split <;> simp_all

theorem mem_keys_of_value {K V : Type} [DecidableEq K] (m : List (K × V)) (k : K) (v : V)
    (h : QMap.value m k = some v) : k ∈ m.map Prod.fst := by
  induction m with
  | nil => simp [QMap.value] at h
  | cons e rest ih =>
    obtain ⟨a, w⟩ := e
    by_cases ha : a = k
    · simp [ha]
    · simp only [QMap.value, ha, if_false] at h
      simp [ih h]

@[simp] theorem timeout_pendingTransfers (s : SafeDaemon) (timer : Nat) :
    (s.timeout timer).pendingTransfers = s.pendingTransfers := by
  unfold timeout
  split
  · split
    · split <;> simp [uploadFile, downloadFile]
    · rfl
  · rfl

/-- Firing a list of timer objects issues exactly one `pushFile` for `p` when
the single live timer of `p` is among them, and none otherwise. -/
theorem pushCount_foldl_timeout (p : String) (h : Nat) (dir_id : String) (info : QFileInfo)
    (hinfo : info.filePath = p) (l : List Nat) (s : SafeDaemon)
    (hinv : s.Allocated ∧ s.Tracked ∧ s.LiveDisjoint)
    (hpend : QMap.value s.pendingTransfers p = some h)
    (hslot : ∀ t, QMap.value s.timers h = some t → t.active = true →
      t.slot = some (Slot.uploadFile dir_id info)) :
    pushCount (l.foldl timeout s).rpcs p =
      pushCount s.rpcs p + (if h ∈ l ∧ s.isLive h = true then 1 else 0) := by
  induction l generalizing s with
  | nil => simp
  | cons x rest ih =>
    simp only [List.foldl_cons]
    have hinv2 := inv_timeout s x hinv.1 hinv.2.1 hinv.2.2
    have hpend2 : QMap.value (s.timeout x).pendingTransfers p = some h := by simpa using hpend
    cases hl : s.isLive x with
    | false =>
      rw [timeout_dead s x hl]
      rw [ih s hinv hpend hslot]
      by_cases hx : h = x
      · subst hx
        simp [hl]
      · simp [hx]
    | true =>
      obtain ⟨t, hv, hact⟩ := (isLive_eq_true_iff s x).1 hl
      obtain ⟨hss, slot, hsl, hp⟩ := hinv.2.1 x t hv hact
      have heq := timeout_live s x t slot hv hact hss hsl
      by_cases hx : h = x
      · subst hx
        have hsl2 := hslot t hv hact
        rw [hsl] at hsl2
        have hslot_eq : slot = Slot.uploadFile dir_id info := Option.some.inj hsl2
        have hdead : (s.timeout h).isLive h = false := by
          rw [heq]
          simp [isLive, QMap.value_insert]
        have hslot2 : ∀ t, QMap.value (s.timeout h).timers h = some t → t.active = true →
            t.slot = some (Slot.uploadFile dir_id info) := by
          intro u hu huact
          have : (s.timeout h).isLive h = true := (isLive_eq_true_iff _ _).2 ⟨u, hu, huact⟩
          rw [hdead] at this
          exact absurd this (by simp)
        rw [ih (s.timeout h) hinv2 hpend2 hslot2, hdead]
        have hr : (s.timeout h).rpcs =
            s.rpcs ++ [Rpc.pushFile dir_id info.filePath info.fileName true] := by
          rw [heq, hslot_eq]
          rfl
        rw [hr, pushCount_append]
        simp [hinfo, hl]
      · have hne : slotPath slot ≠ p := by
          intro hq
          rw [hq, hpend] at hp
          exact hx (Option.some.inj hp)
        have hlive_same : (s.timeout x).isLive h = s.isLive h := by
          rw [heq]
          simp [isLive, QMap.value_insert, Ne.symm hx]
        have hslot2 : ∀ t, QMap.value (s.timeout x).timers h = some t → t.active = true →
            t.slot = some (Slot.uploadFile dir_id info) := by
          intro u hu huact
          rw [heq] at hu
          simp only [QMap.value_insert, Ne.symm hx, if_false] at hu
          exact hslot u hu huact
        rw [ih (s.timeout x) hinv2 hpend2 hslot2, hlive_same]
        have hr : pushCount (s.timeout x).rpcs p = pushCount s.rpcs p := by
          rw [heq]
          simp only [pushCount_append]
          cases slot with
          | uploadFile d i =>
            simp only [slotPath] at hne
            simp [slotRequest, hne]
          | downloadFile d i => simp [slotRequest]
        rw [hr]
        simp [hx]

end SafeDaemon

namespace SafeDaemon

/-! ## C1: the two transfer maps -/

/-- C1, refuted as stated: starting from empty transfer maps, one
`queueUploadFile` for a path followed by the expiry of its timer (which runs
`uploadFile`) leaves the path a key of both `pendingTransfers` and
`activeTransfers`, because the expiry never removes the pending entry. -/
theorem C1_counterexample :
    SafeDaemon.start.NoTransfers ∧
    QMap.contains (SafeDaemon.start.run
      [TransferEvent.queueUploadFile "7" ⟨"/home/u/2safe/a.txt"⟩,
       TransferEvent.timeout 0]).pendingTransfers "/home/u/2safe/a.txt" = true ∧
    QMap.contains (SafeDaemon.start.run
      [TransferEvent.queueUploadFile "7" ⟨"/home/u/2safe/a.txt"⟩,
       TransferEvent.timeout 0]).activeTransfers "/home/u/2safe/a.txt" = true := by
  refine ⟨⟨rfl, rfl, rfl⟩, ?_, ?_⟩ <;> decide

/-- C1, amended: in every state reached from empty transfer maps (and no timer
object) through enqueue calls, timer expiries, transfer completions and the
passing of time, a path whose entry in `pendingTransfers` is a live (running,
not yet expired) debounce timer is not a key of `activeTransfers`. -/
theorem C1_live_pending_not_active (s : SafeDaemon) (events : List TransferEvent)
    (h0 : s.NoTransfers) (p : String) (timer : Nat)
    (hp : QMap.value (s.run events).pendingTransfers p = some timer)
    (hlive : (s.run events).isLive timer = true) :
    QMap.contains (s.run events).activeTransfers p = false :=
  (inv_run events s (inv_noTransfers s h0)).2.2 p timer hp hlive

/-- C1, amended, at a concrete run: upload queued, timer expired, upload
queued again. -/
theorem C1_live_pending_not_active_witness :
    SafeDaemon.start.NoTransfers ∧
    QMap.value (SafeDaemon.start.run
      [TransferEvent.queueUploadFile "7" ⟨"/home/u/2safe/a.txt"⟩, TransferEvent.timeout 0,
       TransferEvent.queueUploadFile "7" ⟨"/home/u/2safe/a.txt"⟩]).pendingTransfers
      "/home/u/2safe/a.txt" = some 2 ∧
    QMap.contains (SafeDaemon.start.run
      [TransferEvent.queueUploadFile "7" ⟨"/home/u/2safe/a.txt"⟩, TransferEvent.timeout 0,
       TransferEvent.queueUploadFile "7" ⟨"/home/u/2safe/a.txt"⟩]).activeTransfers
      "/home/u/2safe/a.txt" = false :=
  ⟨⟨rfl, rfl, rfl⟩, by decide,
   C1_live_pending_not_active SafeDaemon.start
     [TransferEvent.queueUploadFile "7" ⟨"/home/u/2safe/a.txt"⟩, TransferEvent.timeout 0,
      TransferEvent.queueUploadFile "7" ⟨"/home/u/2safe/a.txt"⟩]
     ⟨rfl, rfl, rfl⟩ "/home/u/2safe/a.txt" 2 (by decide) (by decide)⟩

/-! ## C2: what an enqueue does to the maps -/

/-- C2: after `queueUploadFile` or `queueDownloadFile` for the file `info`, in
every state, `activeTransfers` has no entry for the path, `pendingTransfers`
maps the path to the newly created timer object, and the entries of both maps
for every other path are unchanged.  When the object numbers stored in the
daemon were all handed out by the allocator (a new object does not alias a
known one), the new timer is an object that did not exist before, it is
running, single-shot, very coarse, has interval 2000 ms, was started at the
current clock reading and carries the slot of the call, and an earlier timer
for the path no longer exists. -/
theorem C2_enqueue (s : SafeDaemon) (arg : String) (info : QFileInfo)
    (s' : SafeDaemon) (slot : Slot)
    (hcall : (s' = s.queueUploadFile arg info ∧ slot = Slot.uploadFile arg info) ∨
      (s' = s.queueDownloadFile arg info ∧ slot = Slot.downloadFile arg info)) :
    QMap.contains s'.activeTransfers info.filePath = false ∧
    QMap.value s'.pendingTransfers info.filePath = some s.nextObject ∧
    (∀ q, q ≠ info.filePath →
      QMap.value s'.pendingTransfers q = QMap.value s.pendingTransfers q ∧
      QMap.value s'.activeTransfers q = QMap.value s.activeTransfers q) ∧
    (s.Allocated →
      QMap.value s.timers s.nextObject = none ∧
      QMap.value s'.timers s.nextObject =
        some ⟨2000, true, TimerType.VeryCoarseTimer, true, s.clock, some slot⟩ ∧
      (∀ old, QMap.value s.pendingTransfers info.filePath = some old →
        QMap.value s'.timers old = none)) := by
  have hs' : s' = s.enqueue slot ∧ slotPath slot = info.filePath := by
    rcases hcall with ⟨h1, h2⟩ | ⟨h1, h2⟩
    · subst h2
      rw [queueUploadFile_eq] at h1
      exact ⟨h1, rfl⟩
    · subst h2
      rw [queueDownloadFile_eq] at h1
      exact ⟨h1, rfl⟩
  obtain ⟨hs', hpath⟩ := hs'
  subst hs'
  refine ⟨?_, ?_, ?_, ?_⟩
  · simp [QMap.contains, value_enqueue_active, hpath]
  · simp [value_enqueue_pending, hpath]
  · intro q hq
    have hq' : ¬ slotPath slot = q := by
      rw [hpath]; exact fun h => hq h.symm
    simp [value_enqueue_pending, value_enqueue_active, hq']
  · intro hs
    have hfresh : QMap.value s.pendingTransfers (slotPath slot) ≠ some s.nextObject := by
      intro h
      exact absurd (hs.1 _ _ h) (lt_irrefl _)
    have hnone : QMap.value s.timers s.nextObject = none := by
      cases hv : QMap.value s.timers s.nextObject with
      | none => rfl
      | some t => exact absurd (hs.2 _ _ hv) (lt_irrefl _)
    refine ⟨hnone, ?_, ?_⟩
    · simp [value_enqueue_timers s slot _ hfresh]
    · intro old hold
      rw [← hpath] at hold
      have hne : ¬ s.nextObject = old := by
        have := hs.1 _ _ hold
        omega
      simp [value_enqueue_timers s slot _ hfresh, hne, hold]

/-- C2 at a concrete state: a download is queued for a path that has a queued
upload; the pending map then holds the new timer 1 and timer 0 is gone. -/
theorem C2_enqueue_witness :
    QMap.value ((SafeDaemon.start.queueUploadFile "7" ⟨"/home/u/2safe/a.txt"⟩).queueDownloadFile
      "42" ⟨"/home/u/2safe/a.txt"⟩).pendingTransfers "/home/u/2safe/a.txt" = some 1 ∧
    QMap.value ((SafeDaemon.start.queueUploadFile "7" ⟨"/home/u/2safe/a.txt"⟩).queueDownloadFile
      "42" ⟨"/home/u/2safe/a.txt"⟩).timers 0 = none :=
  have hA : (SafeDaemon.start.queueUploadFile "7" ⟨"/home/u/2safe/a.txt"⟩).Allocated :=
    (inv_enqueue SafeDaemon.start (Slot.uploadFile "7" ⟨"/home/u/2safe/a.txt"⟩)
      (inv_noTransfers _ ⟨rfl, rfl, rfl⟩).1 (inv_noTransfers _ ⟨rfl, rfl, rfl⟩).2.1
      (inv_noTransfers _ ⟨rfl, rfl, rfl⟩).2.2).1
  have h := C2_enqueue (SafeDaemon.start.queueUploadFile "7" ⟨"/home/u/2safe/a.txt"⟩) "42"
    ⟨"/home/u/2safe/a.txt"⟩ _ (Slot.downloadFile "42" ⟨"/home/u/2safe/a.txt"⟩)
    (Or.inr ⟨rfl, rfl⟩)
  ⟨h.2.1, (h.2.2.2 hA).2.2 0 (by decide)⟩

end SafeDaemon

namespace SafeDaemon

/-! ## C3: debounce -/

/-- C3: in any state reached by the transfer manager, a burst of `n ≥ 1`
`queueUploadFile` calls for one file, with no timer expiring in between,
leaves exactly one live timer for the path; it is the timer the pending map
holds for the path, has interval 2000 ms, is single-shot, was started at the
clock reading of the last call and carries the `dir_id` of the last call; when
all timers then expire, exactly one `pushFile` request for the path is
issued. -/
theorem C3_debounce (s0 : SafeDaemon) (h0 : s0.NoTransfers) (history : List TransferEvent)
    (info : QFileInfo) (edits : List (Nat × String)) (hne : edits ≠ []) :
    ∃ timer,
      (∀ x, ((s0.run history).editBurst info edits).isLiveFor info.filePath x = true ↔
        x = timer) ∧
      QMap.value ((s0.run history).editBurst info edits).pendingTransfers info.filePath =
        some timer ∧
      QMap.value ((s0.run history).editBurst info edits).timers timer =
        some ⟨2000, true, TimerType.VeryCoarseTimer, true,
          (s0.run history).clock + (edits.map Prod.fst).sum,
          some (Slot.uploadFile (edits.getLast hne).2 info)⟩ ∧
      ((s0.run history).editBurst info edits).clock =
        (s0.run history).clock + (edits.map Prod.fst).sum ∧
      pushCount ((s0.run history).editBurst info edits).expireAll.rpcs info.filePath =
        pushCount ((s0.run history).editBurst info edits).rpcs info.filePath + 1 := by
  have hclock := editBurst_clock info edits (s0.run history)
  have hinv' := inv_editBurst info edits (s0.run history)
    (inv_run history s0 (inv_noTransfers s0 h0))
  obtain ⟨init, last, hsplit⟩ : ∃ init last, edits = init ++ [last] :=
    ⟨edits.dropLast, edits.getLast hne, (List.dropLast_append_getLast hne).symm⟩
  have hlast : (edits.getLast hne).2 = last.2 := by
    subst hsplit
    simp
  rw [hlast]
  rw [← hclock]
  generalize hs' : (s0.run history).editBurst info edits = s' at *
  have hinvm := inv_editBurst info init (s0.run history)
    (inv_run history s0 (inv_noTransfers s0 h0))
  obtain ⟨sp, hinvp, hstep⟩ : ∃ sp : SafeDaemon,
      (sp.Allocated ∧ sp.Tracked ∧ sp.LiveDisjoint) ∧
      s' = sp.enqueue (Slot.uploadFile last.2 info) :=
    ⟨((s0.run history).editBurst info init).passTime last.1,
      inv_passTime _ _ hinvm.1 hinvm.2.1 hinvm.2.2,
      by rw [← hs', hsplit, editBurst_concat, queueUploadFile_eq]⟩
  have hfresh : QMap.value sp.pendingTransfers (slotPath (Slot.uploadFile last.2 info)) ≠
      some sp.nextObject := by
    intro h
    exact absurd (hinvp.1.1 _ _ h) (lt_irrefl _)
  have hpend : QMap.value s'.pendingTransfers info.filePath = some sp.nextObject := by
    rw [hstep, value_enqueue_pending]
    simp [slotPath]
  have htimer : QMap.value s'.timers sp.nextObject =
      some ⟨2000, true, TimerType.VeryCoarseTimer, true, s'.clock,
        some (Slot.uploadFile last.2 info)⟩ := by
    rw [hstep, value_enqueue_timers sp _ _ hfresh]
    simp
  refine ⟨sp.nextObject, ?_, hpend, htimer, rfl, ?_⟩
  · intro x
    constructor
    · intro hx
      unfold isLiveFor at hx
      cases hv : QMap.value s'.timers x with
      | none => simp [hv] at hx
      | some t =>
        simp only [hv, Bool.and_eq_true] at hx
        obtain ⟨hact, hsl⟩ := hx
        obtain ⟨_, sl, hsl', hp⟩ := hinv'.2.1 x t hv hact
        simp only [hsl', decide_eq_true_eq] at hsl
        rw [hsl, hpend] at hp
        exact (Option.some.inj hp).symm
    · intro hx
      subst hx
      simp [isLiveFor, htimer, slotPath]
  · have hcount := pushCount_foldl_timeout info.filePath sp.nextObject last.2 info rfl
      (s'.timers.map Prod.fst) s' hinv' hpend
      (by
        intro t ht _
        rw [htimer] at ht
        rw [← Option.some.inj ht])
    have hmem : sp.nextObject ∈ s'.timers.map Prod.fst := mem_keys_of_value _ _ _ htimer
    have hlive : s'.isLive sp.nextObject = true := by
      simp [isLive, htimer]
    simpa [expireAll, hmem, hlive] using hcount

/-- C3 at a concrete burst: three edits of one file within one second. -/
theorem C3_debounce_witness :
    SafeDaemon.start.NoTransfers ∧
    ([(0, "7"), (400, "7"), (500, "7")] : List (Nat × String)) ≠ [] ∧
    ∃ timer,
      (∀ x, ((SafeDaemon.start.run []).editBurst ⟨"/home/u/2safe/a/b.txt"⟩
        [(0, "7"), (400, "7"), (500, "7")]).isLiveFor "/home/u/2safe/a/b.txt" x = true ↔
        x = timer) ∧
      pushCount ((SafeDaemon.start.run []).editBurst ⟨"/home/u/2safe/a/b.txt"⟩
        [(0, "7"), (400, "7"), (500, "7")]).expireAll.rpcs "/home/u/2safe/a/b.txt" =
        pushCount ((SafeDaemon.start.run []).editBurst ⟨"/home/u/2safe/a/b.txt"⟩
          [(0, "7"), (400, "7"), (500, "7")]).rpcs "/home/u/2safe/a/b.txt" + 1 :=
  ⟨⟨rfl, rfl, rfl⟩, by decide,
    (C3_debounce SafeDaemon.start ⟨rfl, rfl, rfl⟩ [] ⟨"/home/u/2safe/a/b.txt"⟩
      [(0, "7"), (400, "7"), (500, "7")] (by decide)).imp
      (fun _ h => ⟨h.1, h.2.2.2.2⟩)⟩

end SafeDaemon

namespace SafeStateDb

theorem find_filter_ne (files : List FileRecord) (p q : String) (h : q ≠ p) :
    (files.filter (fun r => r.relative_path ≠ p)).find? (fun r => r.relative_path = q) =
      files.find? (fun r => r.relative_path = q) := by
  rw [List.find?_filter]
  congr 1
  funext a
  by_cases hq : a.relative_path = q
  · have hp : ¬ a.relative_path = p := by
      rw [hq]; exact h
    simp [hq, hp, h]
  · simp [hq]

@[simp] theorem updateDirHash_files (md5 : String → String) (db : SafeStateDb) (d : String) :
    (db.updateDirHash md5 d).files = db.files := by
  unfold updateDirHash
  split <;> rfl

theorem getFile_updateDirHash (md5 : String → String) (db : SafeStateDb) (d q : String) :
    (db.updateDirHash md5 d).getFile q = db.getFile q := by
  simp [getFile]

theorem getFile_insertFile_self (db : SafeStateDb) (dir path name : String) (mtime : Nat)
    (hash : String) (id : Option String) :
    (db.insertFile dir path name mtime hash id).getFile path =
      some ⟨dir, path, name, mtime, hash, id⟩ := by
  simp [getFile, insertFile, List.find?]

theorem getFile_insertFile_ne (db : SafeStateDb) (dir path name : String) (mtime : Nat)
    (hash : String) (id : Option String) (q : String) (h : q ≠ path) :
    (db.insertFile dir path name mtime hash id).getFile q = db.getFile q := by
  have hq : ¬ path = q := fun e => h e.symm
  simp only [getFile, insertFile, List.find?, hq, decide_False]
  exact find_filter_ne db.files path q h

theorem getFile_removeFile_ne (db : SafeStateDb) (path q : String) (h : q ≠ path) :
    (db.removeFile path).getFile q = db.getFile q := by
  simp only [getFile, removeFile]
  exact find_filter_ne db.files path q h

end SafeStateDb

namespace SafeDaemon

/-! ## C5: `fileModified` -/

theorem fileModified_allowed (w : World) (s : SafeDaemon) (path : String)
    (h : QFileInfo.isHidden ⟨path⟩ = false) :
    fileModified w s path =
      if s.remoteStateDb.existsFile (relativeFilePath w s ⟨path⟩) = true ∧
          getMtime w ⟨path⟩ ≤ s.remoteStateDb.getFileMtime (relativeFilePath w s ⟨path⟩) then
        upsertLocalFile w s ⟨path⟩
      else
        (fetchDirId w (upsertLocalFile w s ⟨path⟩) (relativePath w s ⟨path⟩)).1.queueUploadFile
          (w.dirId (relativePath w s ⟨path⟩)) ⟨path⟩ := by
  simp only [fileModified, isFileAllowed, h, upsertLocalFile]
  by_cases h1 : s.remoteStateDb.existsFile (relativeFilePath w s ⟨path⟩) = true
  · by_cases h2 : s.remoteStateDb.getFileMtime (relativeFilePath w s ⟨path⟩) < getMtime w ⟨path⟩
    · have h3 : ¬ getMtime w ⟨path⟩ ≤ s.remoteStateDb.getFileMtime (relativeFilePath w s ⟨path⟩) :=
        by omega
      simp [h1, h2, h3, fetchDirId]
    · have h3 : getMtime w ⟨path⟩ ≤ s.remoteStateDb.getFileMtime (relativeFilePath w s ⟨path⟩) :=
        by omega
      simp [h1, h2, h3]
  · simp [h1, fetchDirId]

@[simp] theorem upsertLocalFile_pendingTransfers (w : World) (s : SafeDaemon)
    (info : QFileInfo) : (upsertLocalFile w s info).pendingTransfers = s.pendingTransfers := rfl

@[simp] theorem upsertLocalFile_activeTransfers (w : World) (s : SafeDaemon)
    (info : QFileInfo) : (upsertLocalFile w s info).activeTransfers = s.activeTransfers := rfl

@[simp] theorem upsertLocalFile_timers (w : World) (s : SafeDaemon) (info : QFileInfo) :
    (upsertLocalFile w s info).timers = s.timers := rfl

@[simp] theorem upsertLocalFile_rpcs (w : World) (s : SafeDaemon) (info : QFileInfo) :
    (upsertLocalFile w s info).rpcs = s.rpcs := rfl

@[simp] theorem upsertLocalFile_nextObject (w : World) (s : SafeDaemon) (info : QFileInfo) :
    (upsertLocalFile w s info).nextObject = s.nextObject := rfl

@[simp] theorem upsertLocalFile_clock (w : World) (s : SafeDaemon) (info : QFileInfo) :
    (upsertLocalFile w s info).clock = s.clock := rfl

@[simp] theorem upsertLocalFile_remoteStateDb (w : World) (s : SafeDaemon) (info : QFileInfo) :
    (upsertLocalFile w s info).remoteStateDb = s.remoteStateDb := rfl

theorem upsertLocalFile_getFile_self (w : World) (s : SafeDaemon) (info : QFileInfo) :
    (upsertLocalFile w s info).localStateDb.getFile (relativeFilePath w s info) =
      some ⟨relativePath w s info, relativeFilePath w s info, info.fileName, getMtime w info,
        makeHash w info, none⟩ := by
  simp only [upsertLocalFile, SafeStateDb.getFile_updateDirHash,
    SafeStateDb.getFile_insertFile_self]

theorem upsertLocalFile_getFile_ne (w : World) (s : SafeDaemon) (info : QFileInfo) (q : String)
    (h : q ≠ relativeFilePath w s info) :
    (upsertLocalFile w s info).localStateDb.getFile q = s.localStateDb.getFile q := by
  simp only [upsertLocalFile, SafeStateDb.getFile_updateDirHash]
  rw [SafeStateDb.getFile_insertFile_ne _ _ _ _ _ _ _ _ h, SafeStateDb.getFile_removeFile_ne _ _ _ h]

theorem core_localStateDb (s : SafeDaemon) : s.core.localStateDb = s.localStateDb := rfl

theorem core_remoteStateDb (s : SafeDaemon) : s.core.remoteStateDb = s.remoteStateDb := rfl

theorem core_settings (s : SafeDaemon) : s.core.settings = s.settings := rfl

theorem core_diskOps (s : SafeDaemon) : s.core.diskOps = s.diskOps := rfl

theorem enqueue_localStateDb (s : SafeDaemon) (slot : Slot) :
    (s.enqueue slot).localStateDb = s.localStateDb := by
  have h := congrArg SafeDaemon.localStateDb (enqueue_core s slot)
  rwa [core_localStateDb, core_localStateDb] at h

theorem enqueue_remoteStateDb (s : SafeDaemon) (slot : Slot) :
    (s.enqueue slot).remoteStateDb = s.remoteStateDb := by
  have h := congrArg SafeDaemon.remoteStateDb (enqueue_core s slot)
  rwa [core_remoteStateDb, core_remoteStateDb] at h

theorem fileModified_quiet (w : World) (s : SafeDaemon) (path : String)
    (hvis : QFileInfo.isHidden ⟨path⟩ = false)
    (hc : s.remoteStateDb.existsFile (relativeFilePath w s ⟨path⟩) = true ∧
      getMtime w ⟨path⟩ ≤ s.remoteStateDb.getFileMtime (relativeFilePath w s ⟨path⟩)) :
    fileModified w s path = upsertLocalFile w s ⟨path⟩ := by
  rw [fileModified_allowed w s path hvis]
  simp only [hc, and_self, if_true]

theorem fileModified_hidden (w : World) (s : SafeDaemon) (path : String)
    (hh : QFileInfo.isHidden ⟨path⟩ = true) : fileModified w s path = s := by
  simp [fileModified, isFileAllowed, hh]

/-- C5: for a non-hidden path, `fileModified` replaces the local row of the
file by one with the file's current time and hash (other rows of files are
untouched), and it enqueues an upload for the path exactly when it is not the
case that the remote store has a file at the path whose time is at least the
file's: in that case the transfer maps, the timers and the request trace are
unchanged, otherwise the result is that of `queueUploadFile(fetchDirId(dir),
info)` after the row update, and the pending map holds the new timer for the
path. -/
theorem C5_fileModified (w : World) (s : SafeDaemon) (path : String)
    (hvis : QFileInfo.isHidden ⟨path⟩ = false) :
    (fileModified w s path).localStateDb.getFile (relativeFilePath w s ⟨path⟩) =
      some ⟨relativePath w s ⟨path⟩, relativeFilePath w s ⟨path⟩, QFileInfo.fileName ⟨path⟩,
        getMtime w ⟨path⟩, makeHash w ⟨path⟩, none⟩ ∧
    (∀ q, q ≠ relativeFilePath w s ⟨path⟩ →
      (fileModified w s path).localStateDb.getFile q = s.localStateDb.getFile q) ∧
    ((s.remoteStateDb.existsFile (relativeFilePath w s ⟨path⟩) = true ∧
        getMtime w ⟨path⟩ ≤ s.remoteStateDb.getFileMtime (relativeFilePath w s ⟨path⟩)) →
      (fileModified w s path).pendingTransfers = s.pendingTransfers ∧
      (fileModified w s path).activeTransfers = s.activeTransfers ∧
      (fileModified w s path).timers = s.timers ∧
      (fileModified w s path).rpcs = s.rpcs) ∧
    (¬ (s.remoteStateDb.existsFile (relativeFilePath w s ⟨path⟩) = true ∧
        getMtime w ⟨path⟩ ≤ s.remoteStateDb.getFileMtime (relativeFilePath w s ⟨path⟩)) →
      fileModified w s path =
        (fetchDirId w (upsertLocalFile w s ⟨path⟩) (relativePath w s ⟨path⟩)).1.queueUploadFile
          (w.dirId (relativePath w s ⟨path⟩)) ⟨path⟩ ∧
      QMap.value (fileModified w s path).pendingTransfers path = some (s.nextObject + 1) ∧
      (s.Allocated →
        QMap.value (fileModified w s path).timers (s.nextObject + 1) =
          some ⟨2000, true, TimerType.VeryCoarseTimer, true, s.clock,
            some (Slot.uploadFile (w.dirId (relativePath w s ⟨path⟩)) ⟨path⟩)⟩)) := by
  rw [fileModified_allowed w s path hvis]
  by_cases hc : s.remoteStateDb.existsFile (relativeFilePath w s ⟨path⟩) = true ∧
      getMtime w ⟨path⟩ ≤ s.remoteStateDb.getFileMtime (relativeFilePath w s ⟨path⟩)
  · simp only [hc, and_self, if_true, not_true_eq_false, false_implies, and_true, true_implies]
    exact ⟨upsertLocalFile_getFile_self w s ⟨path⟩,
      fun q hq => upsertLocalFile_getFile_ne w s ⟨path⟩ q hq, rfl, rfl, rfl, rfl⟩
  · simp only [hc, if_false, false_implies, not_false_eq_true, true_implies, true_and]
    rw [queueUploadFile_eq]
    refine ⟨?_, ?_, ?_, ?_⟩
    · rw [enqueue_localStateDb]
      exact upsertLocalFile_getFile_self w s ⟨path⟩
    · intro q hq
      rw [enqueue_localStateDb]
      exact upsertLocalFile_getFile_ne w s ⟨path⟩ q hq
    · rw [value_enqueue_pending]
      simp [slotPath, QFileInfo.filePath, fetchDirId]
    · intro hA
      rw [value_enqueue_timers]
      · simp [fetchDirId]
      · intro h
        have := hA.1 _ _ h
        simp [fetchDirId] at this

/-- C5 at a concrete state: the disk time 20 of `a/b.txt` is larger than the
remote time 10, the row is updated and an upload is queued. -/
theorem C5_fileModified_witness :
    QFileInfo.isHidden ⟨"/home/u/2safe/a/b.txt"⟩ = false ∧
    (fileModified World.sample SafeDaemon.sample "/home/u/2safe/a/b.txt").localStateDb.getFile
        "a/b.txt" =
      some ⟨"a", "a/b.txt", "b.txt", 20, "900150983cd24fb0d6963f7d28e17f72", none⟩ :=
  ⟨by decide,
    (C5_fileModified World.sample SafeDaemon.sample "/home/u/2safe/a/b.txt" (by decide)).1⟩

/-! ## C4: equal hashes on both sides -/

/-- C4, refuted as stated: the local and the remote store both hold `a/b.txt`
with the same content hash (and the file on disk still has that hash), yet
`fileModified` queues an upload for it, because the disk time 20 is larger than
the remote time 10; when the timer expires one `pushFile` is issued. -/
theorem C4_counterexample :
    relativeFilePath World.sample SafeDaemon.sample ⟨"/home/u/2safe/a/b.txt"⟩ = "a/b.txt" ∧
    (SafeDaemon.sample.localStateDb.getFile "a/b.txt").map (fun r => r.content_hash) =
      some "900150983cd24fb0d6963f7d28e17f72" ∧
    (SafeDaemon.sample.remoteStateDb.getFile "a/b.txt").map (fun r => r.content_hash) =
      some "900150983cd24fb0d6963f7d28e17f72" ∧
    makeHash World.sample ⟨"/home/u/2safe/a/b.txt"⟩ = "900150983cd24fb0d6963f7d28e17f72" ∧
    (fileModified World.sample SafeDaemon.sample "/home/u/2safe/a/b.txt").isLiveFor
      "/home/u/2safe/a/b.txt" 1 = true ∧
    QMap.value (fileModified World.sample SafeDaemon.sample
      "/home/u/2safe/a/b.txt").pendingTransfers "/home/u/2safe/a/b.txt" = some 1 ∧
    pushCount (fileModified World.sample SafeDaemon.sample
      "/home/u/2safe/a/b.txt").expireAll.rpcs "/home/u/2safe/a/b.txt" = 1 := by
  decide

theorem fileAdded_file_remote (fuel : Nat) (w : World) (s : SafeDaemon) (path : String)
    (hremote : s.remoteStateDb.existsFile (relativeFilePath w s ⟨path⟩) = true) :
    fileAdded fuel w s path false =
      some (if QFileInfo.isHidden ⟨path⟩ = true then s else upsertLocalFile w s ⟨path⟩) := by
  cases hh : QFileInfo.isHidden ⟨path⟩ <;>
    simp [fileAdded, fileAddedWith, isFileAllowed, hh, hremote, upsertLocalFile]

/-- C4, amended: in every state in which the remote store holds a file row for
the path (in particular when both stores hold one with equal content hash),
`fileAdded` for the file returns and enqueues no transfer (both transfer maps,
the timers and the request trace are unchanged), and so does `fileModified`
provided the file's time on disk is not larger than the time of the remote
row.  `fileModified` compares times only, never hashes. -/
theorem C4_no_transfer (fuel : Nat) (w : World) (s : SafeDaemon) (path : String)
    (hremote : s.remoteStateDb.existsFile (relativeFilePath w s ⟨path⟩) = true) :
    (∃ s', fileAdded fuel w s path false = some s' ∧
      s'.pendingTransfers = s.pendingTransfers ∧ s'.activeTransfers = s.activeTransfers ∧
      s'.timers = s.timers ∧ s'.rpcs = s.rpcs) ∧
    (getMtime w ⟨path⟩ ≤ s.remoteStateDb.getFileMtime (relativeFilePath w s ⟨path⟩) →
      (fileModified w s path).pendingTransfers = s.pendingTransfers ∧
      (fileModified w s path).activeTransfers = s.activeTransfers ∧
      (fileModified w s path).timers = s.timers ∧
      (fileModified w s path).rpcs = s.rpcs) := by
  constructor
  · refine ⟨_, fileAdded_file_remote fuel w s path hremote, ?_⟩
    split <;> exact ⟨rfl, rfl, rfl, rfl⟩
  · intro hm
    cases hh : QFileInfo.isHidden ⟨path⟩ with
    | true =>
      rw [fileModified_hidden w s path hh]
      exact ⟨rfl, rfl, rfl, rfl⟩
    | false =>
      rw [fileModified_quiet w s path hh ⟨hremote, hm⟩]
      exact ⟨rfl, rfl, rfl, rfl⟩

/-- C4, amended, at a concrete state: `fileAdded` for the file `a/b.txt`, which
the remote store holds, leaves the pending map as it was. -/
theorem C4_no_transfer_witness :
    SafeDaemon.sample.remoteStateDb.existsFile
      (relativeFilePath World.sample SafeDaemon.sample ⟨"/home/u/2safe/a/b.txt"⟩) = true ∧
    ∃ s', fileAdded 1 World.sample SafeDaemon.sample "/home/u/2safe/a/b.txt" false = some s' ∧
      s'.pendingTransfers = SafeDaemon.sample.pendingTransfers :=
  ⟨by decide,
    (C4_no_transfer 1 World.sample SafeDaemon.sample "/home/u/2safe/a/b.txt" (by decide)).1.imp
      (fun _ h => ⟨h.1, h.2.1⟩)⟩

/-! ## C6: hidden entries -/

theorem splitLast_of_trailing_slash (l : List Char) (h : l.getLast? = some '/') :
    ∃ d, Path.splitLast l = (some d, []) := by
  induction l with
  | nil => simp at h
  | cons c cs ih =>
    cases cs with
    | nil =>
      simp only [List.getLast?_singleton, Option.some.injEq] at h
      subst h
      exact ⟨[], by simp [Path.splitLast]⟩
    | cons c2 rest =>
      have h2 : (c2 :: rest).getLast? = some '/' := by
        simpa [List.getLast?_cons_cons] using h
      obtain ⟨d, hd⟩ := ih h2
      exact ⟨c :: d, by rw [Path.splitLast, hd]⟩

theorem qdirPath_of_hidden (path : String) (hh : QFileInfo.isHidden ⟨path⟩ = true) :
    Path.qdirPath path = path := by
  unfold Path.qdirPath
  by_cases hl : path.data.getLast? = some '/'
  · obtain ⟨d, hd⟩ := splitLast_of_trailing_slash path.data hl
    simp [QFileInfo.isHidden, hd] at hh
  · simp [hl]

theorem fileAdded_hidden (fuel : Nat) (w : World) (s : SafeDaemon) (path : String)
    (isDir : Bool) (hh : QFileInfo.isHidden ⟨path⟩ = true) :
    fileAdded fuel w s path isDir = some s := by
  cases isDir <;>
    simp [fileAdded, fileAddedWith, isFileAllowed, hh, qdirPath_of_hidden path hh]

theorem fileDeleted_hidden (w : World) (s : SafeDaemon) (path : String) (isDir : Bool)
    (hh : QFileInfo.isHidden ⟨path⟩ = true) : fileDeleted w s path isDir = s := by
  simp [fileDeleted, isFileAllowed, hh]

/-- C6: for a hidden path (the file name starts with a dot) the handlers of
the local events added, modified and deleted return the daemon unchanged, so
the remote store, both transfer maps, the timers and the request trace are as
before; the handler of a move to a hidden path (from any old path, hidden or
not) returns, leaves the remote store, both transfer maps and the timers
unchanged and issues no request. -/
theorem C6_hidden_ignored (fuel : Nat) (w : World) (s : SafeDaemon) (path old : String)
    (isDir : Bool) (hh : QFileInfo.isHidden ⟨path⟩ = true) :
    fileAdded fuel w s path isDir = some s ∧
    fileModified w s path = s ∧
    fileDeleted w s path isDir = s ∧
    ∃ s', fileMoved fuel w s old path isDir = some s' ∧
      s'.remoteStateDb = s.remoteStateDb ∧
      s'.pendingTransfers = s.pendingTransfers ∧
      s'.activeTransfers = s.activeTransfers ∧
      s'.timers = s.timers ∧
      s'.rpcs = s.rpcs := by
  refine ⟨fileAdded_hidden fuel w s path isDir hh, fileModified_hidden w s path hh,
    fileDeleted_hidden w s path isDir hh, ?_⟩
  unfold fileMoved
  simp only [fileModified_hidden w s path hh, fileDeleted_hidden w s path isDir hh,
    fileAdded_hidden fuel w s path isDir hh, ite_self]
  cases isDir <;> exact ⟨_, rfl, rfl, rfl, rfl, rfl, rfl⟩

/-- C6 at a concrete event: the hidden file `a/.b.swp` is modified. -/
theorem C6_hidden_ignored_witness :
    QFileInfo.isHidden ⟨"/home/u/2safe/a/.b.swp"⟩ = true ∧
    fileModified World.sample SafeDaemon.sample "/home/u/2safe/a/.b.swp" = SafeDaemon.sample :=
  ⟨by decide,
    (C6_hidden_ignored 0 World.sample SafeDaemon.sample "/home/u/2safe/a/.b.swp"
      "/home/u/2safe/a/.a.swp" false (by decide)).2.1⟩

/-! ## C7: a local rename -/

/-- C7, the code at the failing input: `a/b.txt` is tracked (remote id `42`)
and is renamed to the untracked `a/c.txt`.  `fileMoved` returns, its only
request is the `getProps` of the upload path, no `removeFile` for id `42` is
issued, the remote store still holds `a/b.txt`, and an upload of `a/c.txt` is
queued. -/
theorem C7_fileMoved_no_remote_removal :
    SafeDaemon.sample.localStateDb.existsFile "a/b.txt" = true ∧
    SafeDaemon.sample.remoteStateDb.getFileId "a/b.txt" = "42" ∧
    SafeDaemon.sample.localStateDb.existsFile "a/c.txt" = false ∧
    QFileInfo.isHidden ⟨"/home/u/2safe/a/b.txt"⟩ = false ∧
    QFileInfo.isHidden ⟨"/home/u/2safe/a/c.txt"⟩ = false ∧
    (fileMoved 1 World.sample SafeDaemon.sample "/home/u/2safe/a/b.txt" "/home/u/2safe/a/c.txt"
      false).map (fun s => s.rpcs) = some [Rpc.getProps "a" true] ∧
    (fileMoved 1 World.sample SafeDaemon.sample "/home/u/2safe/a/b.txt" "/home/u/2safe/a/c.txt"
      false).map (fun s => decide (Rpc.removeFile "42" true ∈ s.rpcs)) = some false ∧
    (fileMoved 1 World.sample SafeDaemon.sample "/home/u/2safe/a/b.txt" "/home/u/2safe/a/c.txt"
      false).map (fun s => s.remoteStateDb.existsFile "a/b.txt") = some true ∧
    (fileMoved 1 World.sample SafeDaemon.sample "/home/u/2safe/a/b.txt" "/home/u/2safe/a/c.txt"
      false).map (fun s => s.isLiveFor "/home/u/2safe/a/c.txt" 1) = some true := by
  decide

/-! ## C8: a deletion and a queued upload -/

/-- C8, the code at the failing input: an upload of the tracked file `a/b.txt`
is queued (timer object 0) and then the file is deleted.  `fileDeleted` issues
the `removeFile` request, but the pending map still holds the running upload
timer for the path, and when it expires a `pushFile` for the deleted file is
issued. -/
theorem C8_fileDeleted_keeps_pending :
    SafeDaemon.sample.localStateDb.existsFile
      (relativeFilePath World.sample SafeDaemon.sample ⟨"/home/u/2safe/a/b.txt"⟩) = true ∧
    QFileInfo.isHidden ⟨"/home/u/2safe/a/b.txt"⟩ = false ∧
    (fileDeleted World.sample (SafeDaemon.sample.queueUploadFile "7" ⟨"/home/u/2safe/a/b.txt"⟩)
      "/home/u/2safe/a/b.txt" false).rpcs = [Rpc.removeFile "42" true] ∧
    QMap.value (fileDeleted World.sample
      (SafeDaemon.sample.queueUploadFile "7" ⟨"/home/u/2safe/a/b.txt"⟩)
      "/home/u/2safe/a/b.txt" false).pendingTransfers "/home/u/2safe/a/b.txt" = some 0 ∧
    (fileDeleted World.sample (SafeDaemon.sample.queueUploadFile "7" ⟨"/home/u/2safe/a/b.txt"⟩)
      "/home/u/2safe/a/b.txt" false).isLiveFor "/home/u/2safe/a/b.txt" 0 = true ∧
    ((fileDeleted World.sample (SafeDaemon.sample.queueUploadFile "7" ⟨"/home/u/2safe/a/b.txt"⟩)
      "/home/u/2safe/a/b.txt" false).timeout 0).rpcs =
      [Rpc.removeFile "42" true, Rpc.pushFile "7" "/home/u/2safe/a/b.txt" "b.txt" true] := by
  decide

/-! ## C9 and C10: logout -/

/-- C9, refuted as stated: with an active transfer of `a/b.txt` and a queued
upload of `a/c.txt`, the daemon after `logout` still has the entry for
`a/c.txt` in `pendingTransfers` and the entry for `a/b.txt` in
`activeTransfers`. -/
theorem C9_counterexample :
    (handleLogout (((SafeDaemon.sample.queueUploadFile "7" ⟨"/home/u/2safe/a/b.txt"⟩).timeout
      0).queueUploadFile "7" ⟨"/home/u/2safe/a/c.txt"⟩)).map
        (fun s => (QMap.contains s.pendingTransfers "/home/u/2safe/a/c.txt",
          QMap.contains s.activeTransfers "/home/u/2safe/a/b.txt",
          s.isLiveFor "/home/u/2safe/a/c.txt" 2)) = some (true, true, true) := by
  decide

theorem handleLogout_eq (s : SafeDaemon) (h : s.Initialised) :
    handleLogout s =
      some { s with
        online := false, watcher := none, swatcher := none, apiFactory := ⟨""⟩,
        localStateDb := SafeStateDb.empty, remoteStateDb := SafeStateDb.empty,
        settings := QMap.insert (QMap.insert (QMap.insert s.settings "init"
          (QVariant.bool true)) "login" (QVariant.str "")) "password" (QVariant.str "") } := by
  obtain ⟨hw, hsw⟩ := h
  cases hwv : s.watcher with
  | none => simp [hwv] at hw
  | some watcher =>
    cases hswv : s.swatcher with
    | none => simp [hswv] at hsw
    | some sw => simp [handleLogout, deauthUser, hwv, hswv, setValue, purgeDb]

/-- C9, amended: `logout`, handled while the watchers exist, returns and leaves
both transfer maps and the timer objects exactly as they were: it cancels no
pending debounce timer and removes no active transfer, so the maps are empty
afterwards exactly when they were empty before. -/
theorem C9_logout_keeps_transfers (s : SafeDaemon) (h : s.Initialised) :
    ∃ s', handleLogout s = some s' ∧
      s'.pendingTransfers = s.pendingTransfers ∧
      s'.activeTransfers = s.activeTransfers ∧
      s'.timers = s.timers ∧
      ((s'.pendingTransfers = [] ∧ s'.activeTransfers = []) ↔
        (s.pendingTransfers = [] ∧ s.activeTransfers = [])) :=
  ⟨_, handleLogout_eq s h, rfl, rfl, rfl, Iff.rfl⟩

/-- C9, amended, at a concrete state: the running daemon of the examples. -/
theorem C9_logout_keeps_transfers_witness :
    SafeDaemon.sample.Initialised ∧
    ∃ s', handleLogout SafeDaemon.sample = some s' ∧
      s'.pendingTransfers = SafeDaemon.sample.pendingTransfers :=
  ⟨⟨rfl, rfl⟩,
    (C9_logout_keeps_transfers SafeDaemon.sample ⟨rfl, rfl⟩).imp (fun _ h => ⟨h.1, h.2.1⟩)⟩

/-- C10: `logout`, handled while the watchers exist (an authenticated,
initialised daemon), returns; afterwards the settings hold the empty string
for `login` and for `password` and `true` for `init`, the online flag is
false, and every other settings key has the value it had. -/
theorem C10_logout_settings (s : SafeDaemon) (h : s.Initialised) :
    ∃ s', handleLogout s = some s' ∧
      QMap.value s'.settings "login" = some (QVariant.str "") ∧
      QMap.value s'.settings "password" = some (QVariant.str "") ∧
      QMap.value s'.settings "init" = some (QVariant.bool true) ∧
      s'.online = false ∧
      ∀ k, k ≠ "login" → k ≠ "password" → k ≠ "init" →
        QMap.value s'.settings k = QMap.value s.settings k := by
  refine ⟨_, handleLogout_eq s h, ?_, ?_, ?_, rfl, ?_⟩
  · simp [QMap.value_insert]
  · simp [QMap.value_insert]
  · simp [QMap.value_insert]
  · intro k h1 h2 h3
    simp [QMap.value_insert, Ne.symm h1, Ne.symm h2, Ne.symm h3]

/-- C10 at a concrete state: the running daemon of the examples, whose
`last_updated` setting survives the logout. -/
theorem C10_logout_settings_witness :
    SafeDaemon.sample.Initialised ∧
    ∃ s', handleLogout SafeDaemon.sample = some s' ∧
      QMap.value s'.settings "login" = some (QVariant.str "") ∧
      s'.online = false ∧
      QMap.value s'.settings "last_updated" = some (QVariant.uint 5) :=
  ⟨⟨rfl, rfl⟩,
    (C10_logout_settings SafeDaemon.sample ⟨rfl, rfl⟩).imp
      (fun _ h => ⟨h.1, h.2.1, h.2.2.2.2.1,
        (h.2.2.2.2.2 "last_updated" (by decide) (by decide) (by decide)).trans (by decide)⟩)⟩

end SafeDaemon

namespace SafeDaemon

/-! ## C12: the `noop` message -/

/-- C12, refuted as stated: the message queue of the running daemon of the
examples is empty when a `noop` message arrives, yet the reply is not
`{type:"noop"}` but a `queue` reply carrying three messages. -/
theorem C12_counterexample :
    SafeDaemon.sample.messagesQueue.length = 0 ∧
    (handleClientConnection 0 World.sample SafeDaemon.sample
      [("type", QJsonValue.str "noop")]).map
        (fun r => ((r.2.map (fun reply =>
            ((QJsonValue.member reply.members "type").toString,
             (QJsonValue.member reply.members "messages").toArray.length))),
          r.1.messagesQueue.length)) =
      some (some ("queue", 3), 0) := by
  decide

theorem notify_three (s : SafeDaemon) :
    (((s.notifyEventQuota s.used_bytes s.total_bytes).notifyEventSync
        s.activeTransfers.length).notifyEventAuth s.online s.apiFactory.login).messagesQueue =
      s.messagesQueue ++
        [QJsonValue.obj
          [("values", QJsonValue.obj
              [("total_bytes", QJsonValue.num (toQint64 s.total_bytes)),
               ("used_bytes", QJsonValue.num (toQint64 s.used_bytes))]),
           ("category", QJsonValue.str "disk_quota"), ("type", QJsonValue.str "event")],
         QJsonValue.obj
          [("values", QJsonValue.obj
              [("timestamp", QJsonValue.num
                  ((s.settingsValue "last_updated" (QVariant.uint 0)).toNat)),
               ("count", QJsonValue.num (toQint64 s.activeTransfers.length))]),
           ("category", QJsonValue.str "sync"), ("type", QJsonValue.str "event")],
         QJsonValue.obj
          [("values", QJsonValue.obj
              [("login", QJsonValue.str s.apiFactory.login),
               ("authorized", QJsonValue.bool s.online)]),
           ("category", QJsonValue.str "auth"), ("type", QJsonValue.str "event")]] := by
  simp [notifyEventQuota, notifyEventSync, notifyEventAuth, QMap.insert, QMap.remove,
    settingsValue]

theorem handleNoop_eq (s : SafeDaemon) :
    handleNoop s =
      ({ ((s.notifyEventQuota s.used_bytes s.total_bytes).notifyEventSync
            s.activeTransfers.length).notifyEventAuth s.online s.apiFactory.login with
          messagesQueue := [] },
        Reply.json (QJsonValue.obj
          [("messages", QJsonValue.arr
              (((s.notifyEventQuota s.used_bytes s.total_bytes).notifyEventSync
                s.activeTransfers.length).notifyEventAuth s.online
                  s.apiFactory.login).messagesQueue),
           ("type", QJsonValue.str "queue")])) := by
  have hfold : ∀ (l acc : List QJsonValue),
      l.foldl (fun (messages : List QJsonValue) m => messages ++ [m]) acc = acc ++ l := by
    intro l
    induction l with
    | nil => intro acc; simp
    | cons x xs ih => intro acc; simp [ih]
  simp [handleNoop, notifyEventQuota, notifyEventSync, notifyEventAuth, hfold, QMap.insert,
    QMap.remove]

/-- C12, amended: for a control message of type `noop` the handler returns and
the reply is always `{type:"queue", messages:[...]}`, whose messages are the
messages queued when the message arrived followed by three events generated
by the handler itself (disk quota, sync, auth, in this order), also when the
queue was empty on arrival; the message queue is empty after the reply. -/
theorem C12_noop_reply (fuel : Nat) (w : World) (s : SafeDaemon)
    (message : List (String × QJsonValue))
    (htype : (QJsonValue.member message "type").toString = "noop") :
    ∃ s' reply quota sync auth,
      handleClientConnection fuel w s message = some (s', some reply) ∧
      QMap.value reply.members "type" = some (QJsonValue.str "queue") ∧
      QMap.value reply.members "messages" =
        some (QJsonValue.arr (s.messagesQueue ++ [quota, sync, auth])) ∧
      QMap.value quota.toObject "category" = some (QJsonValue.str "disk_quota") ∧
      QMap.value sync.toObject "category" = some (QJsonValue.str "sync") ∧
      QMap.value auth.toObject "category" = some (QJsonValue.str "auth") ∧
      s'.messagesQueue = [] := by
  refine ⟨(handleNoop s).1, (handleNoop s).2,
    QJsonValue.obj
      [("values", QJsonValue.obj
          [("total_bytes", QJsonValue.num (toQint64 s.total_bytes)),
           ("used_bytes", QJsonValue.num (toQint64 s.used_bytes))]),
       ("category", QJsonValue.str "disk_quota"), ("type", QJsonValue.str "event")],
    QJsonValue.obj
      [("values", QJsonValue.obj
          [("timestamp", QJsonValue.num
              ((s.settingsValue "last_updated" (QVariant.uint 0)).toNat)),
           ("count", QJsonValue.num (toQint64 s.activeTransfers.length))]),
       ("category", QJsonValue.str "sync"), ("type", QJsonValue.str "event")],
    QJsonValue.obj
      [("values", QJsonValue.obj
          [("login", QJsonValue.str s.apiFactory.login),
           ("authorized", QJsonValue.bool s.online)]),
       ("category", QJsonValue.str "auth"), ("type", QJsonValue.str "event")],
    ?_, ?_, ?_, ?_, ?_, ?_, ?_⟩
  · simp [handleClientConnection, htype]
  · rw [handleNoop_eq]
    simp [Reply.members, QMap.value]
  · rw [handleNoop_eq]
    simp only [Reply.members, QMap.value, if_true, notify_three]
  · simp [QJsonValue.toObject, QMap.value]
  · simp [QJsonValue.toObject, QMap.value]
  · simp [QJsonValue.toObject, QMap.value]
  · rw [handleNoop_eq]

/-- C12, amended, at a concrete message: a `noop` for the running daemon of
the examples, whose queue is empty. -/
theorem C12_noop_reply_witness :
    (QJsonValue.member [("type", QJsonValue.str "noop")] "type").toString = "noop" ∧
    ∃ s' reply, handleClientConnection 0 World.sample SafeDaemon.sample
        [("type", QJsonValue.str "noop")] = some (s', some reply) ∧
      QMap.value reply.members "type" = some (QJsonValue.str "queue") ∧
      s'.messagesQueue = [] :=
  ⟨by decide,
    (C12_noop_reply 0 World.sample SafeDaemon.sample [("type", QJsonValue.str "noop")]
      (by decide)).imp (fun _ h => h.imp (fun _ h2 =>
        match h2 with
        | ⟨_, _, _, h3, h4, _, _, _, _, h5⟩ => ⟨h3, h4, h5⟩))⟩

end SafeDaemon

namespace SafeDaemon

/-! ## C13: the reply to `get_settings` -/

theorem settings_fold_value (s : SafeDaemon) (fields : List QJsonValue)
    (acc : List (String × QJsonValue)) (f : String) :
    QMap.value (fields.foldl (fun (values : List (String × QJsonValue)) field =>
        if 0 < ((s.settingsValue field.toString (QVariant.str "")).toString).length then
          QMap.insert values field.toString
            (QJsonValue.str (s.settingsValue field.toString (QVariant.str "")).toString)
        else values) acc) f =
      if (∃ field ∈ fields, field.toString = f) ∧
          0 < ((s.settingsValue f (QVariant.str "")).toString).length then
        some (QJsonValue.str (s.settingsValue f (QVariant.str "")).toString)
      else QMap.value acc f := by
  induction fields generalizing acc with
  | nil => simp
  | cons field rest ih =>
    rw [List.foldl_cons, ih]
    by_cases hrest : (∃ field ∈ rest, field.toString = f) ∧
        0 < ((s.settingsValue f (QVariant.str "")).toString).length
    · have : (∃ x ∈ field :: rest, x.toString = f) ∧
          0 < ((s.settingsValue f (QVariant.str "")).toString).length := by
        obtain ⟨⟨x, hx, hxf⟩, hlen⟩ := hrest
        exact ⟨⟨x, List.mem_cons_of_mem _ hx, hxf⟩, hlen⟩
      rw [if_pos hrest, if_pos this]
    · rw [if_neg hrest]
      by_cases hf : field.toString = f
      · subst hf
        by_cases hlen : 0 < ((s.settingsValue field.toString (QVariant.str "")).toString).length
        · simp [hlen, QMap.value_insert]
        · have : ¬ ((∃ x ∈ field :: rest, x.toString = field.toString) ∧
              0 < ((s.settingsValue field.toString (QVariant.str "")).toString).length) :=
            fun h => hlen h.2
          rw [if_neg this]
          simp [hlen]
      · have hno : ¬ ((∃ x ∈ field :: rest, x.toString = f) ∧
            0 < ((s.settingsValue f (QVariant.str "")).toString).length) := by
          rintro ⟨⟨x, hx, hxf⟩, hlen⟩
          rcases List.mem_cons.1 hx with h | h
          · exact hf (h ▸ hxf)
          · exact hrest ⟨⟨x, h, hxf⟩, hlen⟩
        rw [if_neg hno]
        by_cases hlen : 0 < ((s.settingsValue field.toString (QVariant.str "")).toString).length
        · simp [hlen, QMap.value_insert, hf]
        · simp [hlen]

/-- C13: for every settings map and every list of requested fields,
`formSettingsReply` returns an object whose `type` is `"settings"` and whose
`values` object has a member `f` exactly when `f` is (the string of) a
requested field and the stored setting for `f`, read as a string, is not
empty; the member is that string.  Handling a `get_settings` message returns
this object and leaves the daemon, hence the settings, as it was. -/
theorem C13_formSettingsReply (s : SafeDaemon) (requestFields : List QJsonValue) :
    QMap.value (formSettingsReply s requestFields) "type" = some (QJsonValue.str "settings") ∧
    (∃ values,
      QMap.value (formSettingsReply s requestFields) "values" = some (QJsonValue.obj values) ∧
      ∀ f, QMap.value values f =
        if (∃ field ∈ requestFields, field.toString = f) ∧
            0 < ((s.settingsValue f (QVariant.str "")).toString).length then
          some (QJsonValue.str (s.settingsValue f (QVariant.str "")).toString)
        else none) ∧
    (∀ (fuel : Nat) (w : World) (message : List (String × QJsonValue)),
      (QJsonValue.member message "type").toString = "get_settings" →
      requestFields = (QJsonValue.member message "fields").toArray →
      handleClientConnection fuel w s message =
        some (s, some (Reply.json (QJsonValue.obj (formSettingsReply s requestFields))))) := by
  refine ⟨?_, ⟨requestFields.foldl (fun (values : List (String × QJsonValue)) field =>
        if 0 < ((s.settingsValue field.toString (QVariant.str "")).toString).length then
          QMap.insert values field.toString
            (QJsonValue.str (s.settingsValue field.toString (QVariant.str "")).toString)
        else values) [], ?_, ?_⟩, ?_⟩
  · simp [formSettingsReply, QMap.value_insert]
  · simp only [formSettingsReply, QMap.value_insert]
    simp
  · intro f
    rw [settings_fold_value]
    simp [QMap.value]
  · intro fuel w message htype hfields
    subst hfields
    simp [handleClientConnection, htype]

end SafeDaemon

namespace SafeStateDb

theorem existsFile_removeFile_self (db : SafeStateDb) (path : String) :
    (db.removeFile path).existsFile path = false := by
  have h : (db.files.filter (fun r => r.relative_path ≠ path)).find?
      (fun r => r.relative_path = path) = none := by
    rw [List.find?_eq_none]
    intro r hr
    have := (List.mem_filter.1 hr).2
    simpa using this
  simp [existsFile, getFile, removeFile, h]

end SafeStateDb

namespace SafeDaemon

/-! ## C17: a remote `file_deleted` event -/

theorem remoteFileDeleted_tracked (w : World) (s : SafeDaemon) (id pid name : String)
    (htracked : s.localStateDb.existsFile (remotePath s pid name) = true) :
    remoteFileDeleted w s id pid name =
      { s with
        remoteStateDb := s.remoteStateDb.removeFile (remotePath s pid name),
        localStateDb := s.localStateDb.removeFile (remotePath s pid name),
        diskOps := s.diskOps ++
          [DiskOp.remove (getFilesystemPath w s ++ "/" ++ remotePath s pid name)] } := by
  simp only [remotePath] at htracked
  simp only [remoteFileDeleted, remotePath, htracked, if_true]
  rfl

/-- C17: when the local store tracks a file at the path `p` that a remote
`file_deleted` event resolves to (the name below the directory of the parent
id), then after `remoteFileDeleted` neither the local nor the remote store has
a file row for `p`, the removal of the file at `p` below the sync root has been
issued on disk, and nothing was enqueued: both transfer maps, the timers and
the request trace are unchanged. -/
theorem C17_remoteFileDeleted (w : World) (s : SafeDaemon) (id pid name : String)
    (htracked : s.localStateDb.existsFile (remotePath s pid name) = true) :
    (remoteFileDeleted w s id pid name).localStateDb.existsFile (remotePath s pid name) = false ∧
    (remoteFileDeleted w s id pid name).remoteStateDb.existsFile (remotePath s pid name) = false ∧
    (remoteFileDeleted w s id pid name).diskOps =
      s.diskOps ++ [DiskOp.remove (getFilesystemPath w s ++ "/" ++ remotePath s pid name)] ∧
    (remoteFileDeleted w s id pid name).pendingTransfers = s.pendingTransfers ∧
    (remoteFileDeleted w s id pid name).activeTransfers = s.activeTransfers ∧
    (remoteFileDeleted w s id pid name).timers = s.timers ∧
    (remoteFileDeleted w s id pid name).rpcs = s.rpcs := by
  rw [remoteFileDeleted_tracked w s id pid name htracked]
  exact ⟨SafeStateDb.existsFile_removeFile_self _ _, SafeStateDb.existsFile_removeFile_self _ _,
    rfl, rfl, rfl, rfl, rfl⟩

/-- C17 at a concrete event: the remote file `b.txt` in directory `a` (id 7)
is deleted while the local store tracks `a/b.txt`. -/
theorem C17_remoteFileDeleted_witness :
    SafeDaemon.sample.localStateDb.existsFile (remotePath SafeDaemon.sample "7" "b.txt") = true ∧
    (remoteFileDeleted World.sample SafeDaemon.sample "42" "7" "b.txt").diskOps =
      [DiskOp.remove "/home/u/2safe/a/b.txt"] :=
  ⟨by decide,
    (C17_remoteFileDeleted World.sample SafeDaemon.sample "42" "7" "b.txt" (by decide)).2.2.1.trans
      (by decide)⟩

/-! ## C15: a remote `directory_deleted` event and the remote store -/

/-- C15, the code at the failing input: the remote store holds the directory
`a` (remote id `7`) and the file `a/b.txt` below it.  `remoteDirectoryDeleted`
for id `7` first removes the row of the directory by id and only then asks for
the recursive removal by the same id, which no row carries any more: the row
of `a` is gone, but the file row `a/b.txt` is still in the remote store. -/
theorem C15_remoteDirectoryDeleted_keeps_children :
    SafeDaemon.sample.remoteStateDb.getDirPathById "7" = "a" ∧
    SafeDaemon.sample.remoteStateDb.existsFile "a/b.txt" = true ∧
    SafeStateDb.isBelow "a" "a/b.txt" = true ∧
    (remoteDirectoryDeleted World.sample SafeDaemon.sample "7" "227930033757"
      "a").remoteStateDb.existsDir "a" = false ∧
    (remoteDirectoryDeleted World.sample SafeDaemon.sample "7" "227930033757"
      "a").remoteStateDb.existsFile "a/b.txt" = true ∧
    ((SafeDaemon.sample.remoteStateDb.removeDirByIdRecursively "7").removeDirById
      "7").existsFile "a/b.txt" = false := by
  decide

end SafeDaemon

/-! ## Facts about the state store used by the indexing proofs -/

namespace SafeStateDb

theorem find_filter_key {α : Type} (key : α → String) (l : List α) (p q : String)
    (h : q ≠ p) :
    (l.filter (fun r => key r ≠ p)).find? (fun r => key r = q) =
      l.find? (fun r => key r = q) := by
  rw [List.find?_filter]
  congr 1
  funext a
  by_cases hq : key a = q
  · have hp : ¬ key a = p := by
      rw [hq]; exact h
    simp [hq, hp, h]
  · simp [hq]

theorem existsFile_insertFile_self (db : SafeStateDb) (dir path name : String) (mtime : Nat)
    (hash : String) (id : Option String) :
    (db.insertFile dir path name mtime hash id).existsFile path = true := by
  simp [existsFile, getFile_insertFile_self]

theorem existsFile_insertFile_of (db : SafeStateDb) (dir path name : String) (mtime : Nat)
    (hash : String) (id : Option String) (q : String) (h : db.existsFile q = true) :
    (db.insertFile dir path name mtime hash id).existsFile q = true := by
  by_cases hq : q = path
  · subst hq
    exact existsFile_insertFile_self db dir q name mtime hash id
  · simp only [existsFile, getFile_insertFile_ne db dir path name mtime hash id q hq]
    exact h

@[simp] theorem existsDir_insertFile (db : SafeStateDb) (dir path name : String) (mtime : Nat)
    (hash : String) (id : Option String) (q : String) :
    (db.insertFile dir path name mtime hash id).existsDir q = db.existsDir q := rfl

@[simp] theorem existsDir_removeFile (db : SafeStateDb) (path q : String) :
    (db.removeFile path).existsDir q = db.existsDir q := rfl

@[simp] theorem existsFile_insertDir (db : SafeStateDb) (path name : String) (mtime : Nat)
    (id : Option String) (q : String) :
    (db.insertDir path name mtime id).existsFile q = db.existsFile q := rfl

@[simp] theorem existsFile_insertDirHashed (db : SafeStateDb) (path name : String) (mtime : Nat)
    (hash : String) (q : String) :
    (db.insertDirHashed path name mtime hash).existsFile q = db.existsFile q := rfl

@[simp] theorem existsFile_removeDir (db : SafeStateDb) (path q : String) :
    (db.removeDir path).existsFile q = db.existsFile q := rfl

theorem existsDir_insertDir_self (db : SafeStateDb) (path name : String) (mtime : Nat)
    (id : Option String) : (db.insertDir path name mtime id).existsDir path = true := by
  simp [existsDir, getDir, insertDir, List.find?]

theorem existsDir_insertDir_ne (db : SafeStateDb) (path name : String) (mtime : Nat)
    (id : Option String) (q : String) (h : q ≠ path) :
    (db.insertDir path name mtime id).existsDir q = db.existsDir q := by
  have hq : ¬ path = q := fun e => h e.symm
  simp only [existsDir, getDir, insertDir, List.find?, hq, decide_False]
  rw [find_filter_key (fun r : DirRecord => r.relative_path) db.dirs path q h]

theorem existsDir_insertDir_of (db : SafeStateDb) (path name : String) (mtime : Nat)
    (id : Option String) (q : String) (h : db.existsDir q = true) :
    (db.insertDir path name mtime id).existsDir q = true := by
  by_cases hq : q = path
  · subst hq
    exact existsDir_insertDir_self db q name mtime id
  · rw [existsDir_insertDir_ne db path name mtime id q hq]
    exact h

theorem existsDir_insertDirHashed_self (db : SafeStateDb) (path name : String) (mtime : Nat)
    (hash : String) : (db.insertDirHashed path name mtime hash).existsDir path = true := by
  simp [existsDir, getDir, insertDirHashed, List.find?]

theorem existsDir_insertDirHashed_of (db : SafeStateDb) (path name : String) (mtime : Nat)
    (hash : String) (q : String) (h : db.existsDir q = true) :
    (db.insertDirHashed path name mtime hash).existsDir q = true := by
  by_cases hq : q = path
  · subst hq
    exact existsDir_insertDirHashed_self db q name mtime hash
  · have hq' : ¬ path = q := fun e => hq e.symm
    simp only [existsDir, getDir, insertDirHashed, List.find?, hq', decide_False]
    rw [find_filter_key (fun r : DirRecord => r.relative_path) db.dirs path q hq]
    exact h

theorem existsFile_removeFile_ne (db : SafeStateDb) (path q : String) (h : q ≠ path) :
    (db.removeFile path).existsFile q = db.existsFile q := by
  simp only [existsFile, getFile_removeFile_ne db path q h]

theorem existsDir_removeDir_ne (db : SafeStateDb) (path q : String) (h : q ≠ path) :
    (db.removeDir path).existsDir q = db.existsDir q := by
  simp only [existsDir, getDir, removeDir]
  rw [find_filter_key (fun r : DirRecord => r.relative_path) db.dirs path q h]

@[simp] theorem existsFile_updateDirHash (md5 : String → String) (db : SafeStateDb)
    (d q : String) : (db.updateDirHash md5 d).existsFile q = db.existsFile q := by
  simp [existsFile, getFile_updateDirHash]

theorem find_map_key (l : List DirRecord) (f : DirRecord → DirRecord)
    (hf : ∀ r, (f r).relative_path = r.relative_path) (q : String) :
    ((l.map f).find? (fun r => r.relative_path = q)).isSome =
      (l.find? (fun r => r.relative_path = q)).isSome := by
  induction l with
  | nil => rfl
  | cons r rest ih =>
    by_cases hq : r.relative_path = q
    · simp [List.find?, hf, hq]
    · simp only [List.map_cons, List.find?, hf, hq, decide_False]
      exact ih

@[simp] theorem existsDir_updateDirHash (md5 : String → String) (db : SafeStateDb)
    (d q : String) : (db.updateDirHash md5 d).existsDir q = db.existsDir q := by
  unfold updateDirHash
  split
  · rfl
  · simp only [existsDir, getDir]
    apply find_map_key
    intro r
    split <;> rfl

end SafeStateDb

namespace SafeDaemon

/-! ## Local indexing only adds rows -/

theorem Grows.refl (s : SafeDaemon) : Grows s s := ⟨rfl, rfl, fun _ h => h, fun _ h => h⟩

theorem Grows.trans {a b c : SafeDaemon} (h1 : Grows a b) (h2 : Grows b c) : Grows a c :=
  ⟨h2.1.trans h1.1, h2.2.1.trans h1.2.1, fun p h => h2.2.2.1 p (h1.2.2.1 p h),
    fun p h => h2.2.2.2 p (h1.2.2.2 p h)⟩

theorem getFilesystemPath_congr (w : World) (s s' : SafeDaemon) (h : s'.settings = s.settings) :
    getFilesystemPath w s' = getFilesystemPath w s := by
  simp [getFilesystemPath, settingsValue, h]

theorem relativeFilePath_congr (w : World) (s s' : SafeDaemon) (h : s'.settings = s.settings)
    (info : QFileInfo) : relativeFilePath w s' info = relativeFilePath w s info := by
  simp [relativeFilePath, getFilesystemPath_congr w s s' h]

theorem relativePath_congr (w : World) (s s' : SafeDaemon) (h : s'.settings = s.settings)
    (info : QFileInfo) : relativePath w s' info = relativePath w s info := by
  simp [relativePath, getFilesystemPath_congr w s s' h]

theorem grows_fetchDirId (w : World) (s : SafeDaemon) (path : String) :
    Grows s (fetchDirId w s path).1 := ⟨rfl, rfl, fun _ h => h, fun _ h => h⟩

theorem grows_createDir (w : World) (s : SafeDaemon) (pid path : String) :
    Grows s (createDir w s pid path).1 := ⟨rfl, rfl, fun _ h => h, fun _ h => h⟩

theorem grows_enqueue (s : SafeDaemon) (slot : Slot) : Grows s (s.enqueue slot) := by
  have h := enqueue_core s slot
  have h1 := congrArg SafeDaemon.settings h
  have h2 := congrArg SafeDaemon.remoteStateDb h
  have h3 := congrArg SafeDaemon.localStateDb h
  rw [core_settings, core_settings] at h1
  rw [core_remoteStateDb, core_remoteStateDb] at h2
  rw [core_localStateDb, core_localStateDb] at h3
  exact ⟨h1, h2, fun p hp => by rw [h3]; exact hp, fun p hp => by rw [h3]; exact hp⟩

theorem grows_prepareTreeCreate (w : World) (stack : List String) (s : SafeDaemon) :
    Grows s (prepareTreeCreate w s stack) := by
  induction stack generalizing s with
  | nil => exact Grows.refl s
  | cons relative rest ih =>
    unfold prepareTreeCreate
    simp only
    split
    · exact ((grows_fetchDirId w s _).trans (grows_createDir w _ _ _)).trans (ih _)
    · exact ih s

theorem grows_prepareTree (fuel : Nat) (w : World) (s s' : SafeDaemon) (info : QFileInfo)
    (root : String) (h : prepareTree fuel w s info root = some s') : Grows s s' := by
  unfold prepareTree at h
  split at h
  · cases h
    exact grows_prepareTreeCreate w _ s
  · cases h

theorem grows_upsertLocalFile (w : World) (s : SafeDaemon) (info : QFileInfo) :
    Grows s (upsertLocalFile w s info) := by
  refine ⟨rfl, rfl, ?_, ?_⟩
  · intro p hp
    simp only [upsertLocalFile, SafeStateDb.existsFile_updateDirHash]
    by_cases hq : p = relativeFilePath w s info
    · subst hq
      exact SafeStateDb.existsFile_insertFile_self _ _ _ _ _ _ _
    · apply SafeStateDb.existsFile_insertFile_of
      rw [SafeStateDb.existsFile_removeFile_ne _ _ _ hq]
      exact hp
  · intro p hp
    simpa [upsertLocalFile] using hp

theorem existsDir_reinsert (db : SafeStateDb) (path name : String) (mtime : Nat)
    (id : Option String) (q : String) (h : db.existsDir q = true) :
    ((db.removeDir path).insertDir path name mtime id).existsDir q = true := by
  by_cases hq : q = path
  · subst hq
    exact SafeStateDb.existsDir_insertDir_self _ _ _ _ _
  · rw [SafeStateDb.existsDir_insertDir_ne _ _ _ _ _ _ hq, SafeStateDb.existsDir_removeDir_ne _ _ _ hq]
    exact h

theorem grows_fileAddedWith (index : SafeDaemon → String → Option SafeDaemon)
    (hindex : ∀ s p s', index s p = some s' → Grows s s') (w : World) (s : SafeDaemon)
    (path : String) (isDir : Bool) (s' : SafeDaemon)
    (h : fileAddedWith index w s path isDir = some s') : Grows s s' := by
  cases isDir with
  | false =>
    simp only [fileAddedWith, Bool.false_eq_true, if_false] at h
    split at h
    · cases h; exact Grows.refl s
    · split at h
      · cases h
        exact grows_upsertLocalFile w s ⟨path⟩
      · cases h
        rw [queueUploadFile_eq]
        exact ((grows_upsertLocalFile w s ⟨path⟩).trans (grows_fetchDirId w _ _)).trans
          (grows_enqueue _ _)
  | true =>
    simp only [fileAddedWith, if_true] at h
    split at h
    · cases h; exact Grows.refl s
    · split at h
      · cases h; exact Grows.refl s
      · split at h
        · cases h; exact Grows.refl s
        · refine Grows.trans ?_ (hindex _ _ _ h)
          refine ⟨rfl, rfl, ?_, ?_⟩
          · intro p hp
            exact hp
          · intro p hp
            exact existsDir_reinsert _ _ _ _ _ _ hp


theorem fullIndexEntry_spec (fa : SafeDaemon → String → Bool → Option SafeDaemon)
    (hfa : ∀ s p d s', fa s p d = some s' → Grows s s') (fuel : Nat) (w : World) (dir : String)
    (st : SafeDaemon × List (String × (String × Nat))) (e : String)
    (st' : SafeDaemon × List (String × (String × Nat)))
    (h : fullIndexEntry fa fuel w dir st e = some st') :
    Grows st.1 st'.1 ∧ st'.2 = dirIndexStep w st.2 e ∧ entryTracked w st'.1 e = true := by
  obtain ⟨s, di⟩ := st
  unfold fullIndexEntry at h
  unfold dirIndexStep entryTracked
  simp only at h ⊢
  by_cases h1 : QFileInfo.fileName ⟨e⟩ = "." ∨ QFileInfo.fileName ⟨e⟩ = ".."
  · simp only [h1, if_true] at h ⊢
    cases h
    exact ⟨Grows.refl s, rfl, trivial⟩
  · simp only [h1, if_false] at h ⊢
    by_cases h2 : w.isSymLink (QFileInfo.filePath ⟨e⟩) = true
    · simp only [h2, if_true] at h ⊢
      cases h
      exact ⟨Grows.refl s, rfl, trivial⟩
    · simp only [h2, if_false] at h ⊢
      by_cases h3 : w.isDir (QFileInfo.filePath ⟨e⟩) = true
      · simp only [h3, Bool.not_true, Bool.false_eq_true, if_false] at h ⊢
        by_cases h4 : w.entryCount (QFileInfo.filePath ⟨e⟩) < 3
        · simp only [h4, if_true] at h ⊢
          generalize hadd : (if (!s.remoteStateDb.existsDir (relativeFilePath w s ⟨e⟩) &&
              !s.localStateDb.existsDir (relativeFilePath w s ⟨e⟩)) = true
              then fa s (QFileInfo.filePath ⟨e⟩) true else some s) = added at h
          cases added with
          | none => cases h
          | some sa =>
            have hg : Grows s sa := by
              split at hadd
              · exact hfa _ _ _ _ hadd
              · cases hadd; exact Grows.refl s
            simp only [Option.some.injEq] at h
            subst h
            refine ⟨hg.trans ⟨rfl, rfl, fun p hp => hp, fun p hp => ?_⟩, rfl, ?_⟩
            · exact SafeStateDb.existsDir_insertDir_of _ _ _ _ _ _ hp
            · exact SafeStateDb.existsDir_insertDir_self _ _ _ _ _
        · simp only [h4, if_false] at h ⊢
          cases h
          exact ⟨Grows.refl s, rfl, trivial⟩
      · simp only [h3, Bool.not_false, if_true, Bool.false_eq_true, if_false] at h ⊢
        generalize hadd : (if (!s.remoteStateDb.existsFile (relativeFilePath w s ⟨e⟩) &&
            !s.localStateDb.existsFile (relativeFilePath w s ⟨e⟩)) = true
            then
              (match (if (!s.remoteStateDb.existsDir (relativePath w s ⟨e⟩)) = true then
                  prepareTree fuel w s ⟨e⟩ (relativeFilePath w s ⟨dir⟩)
                else some s) with
              | some s => fa s (QFileInfo.filePath ⟨e⟩) false
              | none => none)
            else some s) = added at h
        cases added with
        | none => cases h
        | some sa =>
          have hg : Grows s sa := by
            split at hadd
            · split at hadd
              · rename_i sp hprep
                have hgp : Grows s sp := by
                  split at hprep
                  · exact grows_prepareTree _ _ _ _ _ _ hprep
                  · cases hprep; exact Grows.refl s
                exact hgp.trans (hfa _ _ _ _ hadd)
              · cases hadd
            · cases hadd; exact Grows.refl s
          have hrel : relativeFilePath w sa ⟨e⟩ = relativeFilePath w s ⟨e⟩ :=
            relativeFilePath_congr w s sa hg.1 ⟨e⟩
          have hthis : relativeFilePath w
              { sa with localStateDb :=
                (sa.localStateDb.insertFile (relativePath w sa ⟨e⟩) (relativeFilePath w s ⟨e⟩)
                  (QFileInfo.fileName ⟨e⟩) (getMtime w ⟨e⟩) (makeHash w ⟨e⟩) none) } ⟨e⟩ =
              relativeFilePath w s ⟨e⟩ := relativeFilePath_congr w s _ hg.1 ⟨e⟩
          by_cases hc : (!QMap.contains di (absolutePath w (QFileInfo.path ⟨e⟩))) = true
          · simp only [hc, if_true, Option.some.injEq] at h ⊢
            subst h
            refine ⟨hg.trans ⟨rfl, rfl, fun p hp => ?_, fun p hp => hp⟩, rfl, ?_⟩
            · exact SafeStateDb.existsFile_insertFile_of _ _ _ _ _ _ _ _ hp
            · simp only [hthis]
              exact SafeStateDb.existsFile_insertFile_self _ _ _ _ _ _ _
          · simp only [hc, Bool.false_eq_true, if_false, Option.some.injEq] at h ⊢
            subst h
            refine ⟨hg.trans ⟨rfl, rfl, fun p hp => ?_, fun p hp => hp⟩, rfl, ?_⟩
            · exact SafeStateDb.existsFile_insertFile_of _ _ _ _ _ _ _ _ hp
            · simp only [hthis]
              exact SafeStateDb.existsFile_insertFile_self _ _ _ _ _ _ _


theorem entryTracked_mono (w : World) (s s' : SafeDaemon) (e : String) (hg : Grows s s')
    (h : entryTracked w s e = true) : entryTracked w s' e = true := by
  unfold entryTracked at h ⊢
  simp only [relativeFilePath_congr w s s' hg.1]
  simp only at h
  split
  · rfl
  · rename_i h1
    simp only [h1, if_false] at h
    split
    · rfl
    · rename_i h2
      simp only [h2, if_false] at h
      split
      · rename_i h3
        simp only [h3, if_true] at h
        exact hg.2.2.1 _ h
      · rename_i h3
        simp only [h3, if_false] at h
        split
        · rename_i h4
          simp only [h4, if_true] at h
          exact hg.2.2.2 _ h
        · rfl

theorem keyTracked_mono (w : World) (s s' : SafeDaemon) (k : String) (hg : Grows s s')
    (h : keyTracked w s k = true) : keyTracked w s' k = true := by
  unfold keyTracked at h ⊢
  simp only [relativeFilePath_congr w s s' hg.1]
  simp only [Bool.or_eq_true, decide_eq_true_eq] at h ⊢
  rcases h with h | h
  · exact Or.inl h
  · exact Or.inr (hg.2.2.2 _ h)

theorem fullIndex_entries_spec (fa : SafeDaemon → String → Bool → Option SafeDaemon)
    (hfa : ∀ s p d s', fa s p d = some s' → Grows s s') (fuel : Nat) (w : World) (dir : String)
    (entries : List String) (st st' : SafeDaemon × List (String × (String × Nat)))
    (h : entries.foldlM (fullIndexEntry fa fuel w dir) st = some st') :
    Grows st.1 st'.1 ∧ st'.2 = entries.foldl (dirIndexStep w) st.2 ∧
      ∀ e ∈ entries, entryTracked w st'.1 e = true := by
  induction entries generalizing st with
  | nil =>
    simp only [List.foldlM_nil] at h
    cases h
    exact ⟨Grows.refl _, rfl, fun e he => absurd he (List.not_mem_nil e)⟩
  | cons e rest ih =>
    simp only [List.foldlM_cons] at h
    cases hstep : fullIndexEntry fa fuel w dir st e with
    | none => simp [hstep] at h
    | some st1 =>
      simp only [hstep, Option.bind_eq_bind, Option.some_bind] at h
      obtain ⟨hg1, hd1, ht1⟩ := fullIndexEntry_spec fa hfa fuel w dir st e st1 hstep
      obtain ⟨hg2, hd2, ht2⟩ := ih st1 h
      refine ⟨hg1.trans hg2, ?_, ?_⟩
      · rw [hd2, hd1]; rfl
      · intro x hx
        rcases List.mem_cons.1 hx with hx | hx
        · subst hx
          exact entryTracked_mono w _ _ _ hg2 ht1
        · exact ht2 x hx


theorem fullIndexDir_spec (fa : SafeDaemon → String → Bool → Option SafeDaemon)
    (hfa : ∀ s p d s', fa s p d = some s' → Grows s s') (w : World)
    (di : List (String × (String × Nat))) (s : SafeDaemon) (k : String) (s' : SafeDaemon)
    (h : fullIndexDir fa w di s k = some s') :
    Grows s s' ∧ keyTracked w s' k = true := by
  unfold fullIndexDir at h
  unfold keyTracked
  simp only at h
  by_cases h1 : relativeFilePath w s ⟨k⟩ = ""
  · simp only [h1, if_true, Option.some.injEq] at h
    subst h
    exact ⟨Grows.refl _, by simp [h1]⟩
  · simp only [h1, if_false] at h
    generalize hadd : (if (!s.remoteStateDb.existsDir (relativeFilePath w s ⟨k⟩) &&
        !s.localStateDb.existsDir (relativeFilePath w s ⟨k⟩)) = true
        then fa s (getFilesystemPath w s ++ "/" ++ k) true else some s) = added at h
    cases added with
    | none => cases h
    | some sa =>
      have hg : Grows s sa := by
        split at hadd
        · exact hfa _ _ _ _ hadd
        · cases hadd; exact Grows.refl s
      simp only [Option.some.injEq] at h
      subst h
      have hthis : ∀ x : SafeStateDb,
          relativeFilePath w { sa with localStateDb := x } ⟨k⟩ = relativeFilePath w s ⟨k⟩ :=
        fun x => relativeFilePath_congr w s _ hg.1 ⟨k⟩
      refine ⟨hg.trans ⟨rfl, rfl, fun p hp => hp, fun p hp => ?_⟩, ?_⟩
      · exact SafeStateDb.existsDir_insertDirHashed_of _ _ _ _ _ _ hp
      · simp only [hthis, relativeFilePath_congr w s sa hg.1]
        simp [SafeStateDb.existsDir_insertDirHashed_self]

theorem fullIndex_keys_spec (fa : SafeDaemon → String → Bool → Option SafeDaemon)
    (hfa : ∀ s p d s', fa s p d = some s' → Grows s s') (w : World)
    (di : List (String × (String × Nat))) (keys : List String) (s s' : SafeDaemon)
    (h : keys.foldlM (fullIndexDir fa w di) s = some s') :
    Grows s s' ∧ ∀ k ∈ keys, keyTracked w s' k = true := by
  induction keys generalizing s with
  | nil =>
    simp only [List.foldlM_nil] at h
    cases h
    exact ⟨Grows.refl _, fun k hk => absurd hk (List.not_mem_nil k)⟩
  | cons k rest ih =>
    simp only [List.foldlM_cons] at h
    cases hstep : fullIndexDir fa w di s k with
    | none => simp [hstep] at h
    | some s1 =>
      simp only [hstep, Option.bind_eq_bind, Option.some_bind] at h
      obtain ⟨hg1, ht1⟩ := fullIndexDir_spec fa hfa w di s k s1 hstep
      obtain ⟨hg2, ht2⟩ := ih s1 h
      refine ⟨hg1.trans hg2, ?_⟩
      intro x hx
      rcases List.mem_cons.1 hx with hx | hx
      · subst hx
        exact keyTracked_mono w _ _ _ hg2 ht1
      · exact ht2 x hx

theorem fullIndexWith_spec (fa : SafeDaemon → String → Bool → Option SafeDaemon)
    (hfa : ∀ s p d s', fa s p d = some s' → Grows s s') (fuel : Nat) (w : World)
    (s : SafeDaemon) (dir : String) (s' : SafeDaemon)
    (h : fullIndexWith fa fuel w s dir = some s') :
    Grows s s' ∧
    (∀ e ∈ w.entries (absolutePath w dir), entryTracked w s' e = true) ∧
    (∀ k ∈ ((w.entries (absolutePath w dir)).foldl (dirIndexStep w) []).map Prod.fst,
      keyTracked w s' k = true) := by
  unfold fullIndexWith at h
  cases h1 : (w.entries (absolutePath w dir)).foldlM (fullIndexEntry fa fuel w dir) (s, []) with
  | none => simp [h1] at h
  | some st1 =>
    obtain ⟨sa, di⟩ := st1
    simp only [h1] at h
    obtain ⟨hg1, hd1, ht1⟩ := fullIndex_entries_spec fa hfa fuel w dir _ _ _ h1
    obtain ⟨hg2, ht2⟩ := fullIndex_keys_spec fa hfa w di _ _ _ h
    simp only at hd1 hg1 ht1
    subst hd1
    exact ⟨hg1.trans hg2, fun e he => entryTracked_mono w _ _ _ hg2 (ht1 e he), ht2⟩

theorem grows_fullIndex (fuel : Nat) (w : World) (s : SafeDaemon) (dir : String)
    (s' : SafeDaemon) (h : fullIndex fuel w s dir = some s') : Grows s s' := by
  induction fuel generalizing s dir s' with
  | zero => simp [fullIndex] at h
  | succ n ih =>
    rw [fullIndex] at h
    exact (fullIndexWith_spec _
      (fun s p d s' hs => grows_fileAddedWith _ (fun s p s' hi => ih s p s' hi) w s p d s' hs)
      _ w s dir s' h).1

/-! ## C19: a second run of `fullIndex` over an unchanged tree -/

theorem Quiet.quiet_refl (s : SafeDaemon) : Quiet s s := ⟨rfl, rfl, rfl, rfl, rfl⟩

theorem Quiet.quiet_trans {a b c : SafeDaemon} (h1 : Quiet a b) (h2 : Quiet b c) : Quiet a c :=
  ⟨h2.1.trans h1.1, h2.2.1.trans h1.2.1, h2.2.2.1.trans h1.2.2.1,
    h2.2.2.2.1.trans h1.2.2.2.1, h2.2.2.2.2.trans h1.2.2.2.2⟩

theorem fullIndexEntry_quiet (fa : SafeDaemon → String → Bool → Option SafeDaemon) (fuel : Nat)
    (w : World) (dir : String) (s : SafeDaemon) (di : List (String × (String × Nat)))
    (e : String) (ht : entryTracked w s e = true) :
    ∃ s', fullIndexEntry fa fuel w dir (s, di) e = some (s', dirIndexStep w di e) ∧
      Grows s s' ∧ Quiet s s' := by
  unfold fullIndexEntry dirIndexStep
  unfold entryTracked at ht
  simp only at ht ⊢
  by_cases h1 : QFileInfo.fileName ⟨e⟩ = "." ∨ QFileInfo.fileName ⟨e⟩ = ".."
  · simp only [h1, if_true]
    exact ⟨s, rfl, Grows.refl s, Quiet.quiet_refl s⟩
  · simp only [h1, if_false] at ht ⊢
    by_cases h2 : w.isSymLink (QFileInfo.filePath ⟨e⟩) = true
    · simp only [h2, if_true]
      exact ⟨s, rfl, Grows.refl s, Quiet.quiet_refl s⟩
    · simp only [h2, if_false] at ht ⊢
      by_cases h3 : w.isDir (QFileInfo.filePath ⟨e⟩) = true
      · simp only [h3, Bool.not_true, Bool.false_eq_true, if_false] at ht ⊢
        by_cases h4 : w.entryCount (QFileInfo.filePath ⟨e⟩) < 3
        · simp only [h4, if_true] at ht ⊢
          simp only [ht, Bool.not_true, Bool.and_false, Bool.false_eq_true, if_false]
          refine ⟨_, rfl, ⟨rfl, rfl, fun p hp => hp, fun p hp => ?_⟩, Quiet.quiet_refl _⟩
          exact SafeStateDb.existsDir_insertDir_of _ _ _ _ _ _ hp
        · simp only [h4, if_false]
          exact ⟨s, rfl, Grows.refl s, Quiet.quiet_refl s⟩
      · simp only [h3, Bool.not_false, if_true, Bool.false_eq_true, if_false] at ht ⊢
        simp only [ht, Bool.not_true, Bool.and_false, Bool.false_eq_true, if_false]
        by_cases hc : (!QMap.contains di (absolutePath w (QFileInfo.path ⟨e⟩))) = true
        · simp only [hc, if_true]
          refine ⟨_, rfl, ⟨rfl, rfl, fun p hp => ?_, fun p hp => hp⟩, Quiet.quiet_refl _⟩
          exact SafeStateDb.existsFile_insertFile_of _ _ _ _ _ _ _ _ hp
        · simp only [hc, Bool.false_eq_true, if_false]
          refine ⟨_, rfl, ⟨rfl, rfl, fun p hp => ?_, fun p hp => hp⟩, Quiet.quiet_refl _⟩
          exact SafeStateDb.existsFile_insertFile_of _ _ _ _ _ _ _ _ hp

theorem fullIndex_entries_quiet (fa : SafeDaemon → String → Bool → Option SafeDaemon)
    (fuel : Nat) (w : World) (dir : String) (entries : List String) (s : SafeDaemon)
    (di : List (String × (String × Nat)))
    (ht : ∀ e ∈ entries, entryTracked w s e = true) :
    ∃ s', entries.foldlM (fullIndexEntry fa fuel w dir) (s, di) =
        some (s', entries.foldl (dirIndexStep w) di) ∧
      Grows s s' ∧ Quiet s s' := by
  induction entries generalizing s di with
  | nil => exact ⟨s, rfl, Grows.refl s, Quiet.quiet_refl s⟩
  | cons e rest ih =>
    obtain ⟨s1, h1, hg1, hq1⟩ :=
      fullIndexEntry_quiet fa fuel w dir s di e (ht e (List.mem_cons_self _ _))
    obtain ⟨s2, h2, hg2, hq2⟩ := ih s1 (dirIndexStep w di e)
      (fun x hx => entryTracked_mono w s s1 x hg1 (ht x (List.mem_cons_of_mem _ hx)))
    refine ⟨s2, ?_, hg1.trans hg2, hq1.quiet_trans hq2⟩
    simp only [List.foldlM_cons, h1, Option.bind_eq_bind, Option.some_bind, h2, List.foldl_cons]

theorem fullIndexDir_quiet (fa : SafeDaemon → String → Bool → Option SafeDaemon) (w : World)
    (di : List (String × (String × Nat))) (s : SafeDaemon) (k : String)
    (ht : keyTracked w s k = true) :
    ∃ s', fullIndexDir fa w di s k = some s' ∧ Grows s s' ∧ Quiet s s' := by
  unfold fullIndexDir
  unfold keyTracked at ht
  simp only [Bool.or_eq_true, decide_eq_true_eq] at ht
  simp only
  by_cases h1 : relativeFilePath w s ⟨k⟩ = ""
  · simp only [h1, if_true]
    exact ⟨s, rfl, Grows.refl s, Quiet.quiet_refl s⟩
  · have h2 : s.localStateDb.existsDir (relativeFilePath w s ⟨k⟩) = true := by
      rcases ht with h | h
      · exact absurd h h1
      · exact h
    simp only [h1, if_false, h2, Bool.not_true, Bool.and_false, Bool.false_eq_true]
    refine ⟨_, rfl, ⟨rfl, rfl, fun p hp => hp, fun p hp => ?_⟩, Quiet.quiet_refl _⟩
    exact SafeStateDb.existsDir_insertDirHashed_of _ _ _ _ _ _ hp

theorem fullIndex_keys_quiet (fa : SafeDaemon → String → Bool → Option SafeDaemon) (w : World)
    (di : List (String × (String × Nat))) (keys : List String) (s : SafeDaemon)
    (ht : ∀ k ∈ keys, keyTracked w s k = true) :
    ∃ s', keys.foldlM (fullIndexDir fa w di) s = some s' ∧ Grows s s' ∧ Quiet s s' := by
  induction keys generalizing s with
  | nil => exact ⟨s, rfl, Grows.refl s, Quiet.quiet_refl s⟩
  | cons k rest ih =>
    obtain ⟨s1, h1, hg1, hq1⟩ := fullIndexDir_quiet fa w di s k (ht k (List.mem_cons_self _ _))
    obtain ⟨s2, h2, hg2, hq2⟩ := ih s1
      (fun x hx => keyTracked_mono w s s1 x hg1 (ht x (List.mem_cons_of_mem _ hx)))
    refine ⟨s2, ?_, hg1.trans hg2, hq1.quiet_trans hq2⟩
    simp only [List.foldlM_cons, h1, Option.bind_eq_bind, Option.some_bind, h2]

theorem fullIndexWith_quiet (fa : SafeDaemon → String → Bool → Option SafeDaemon) (fuel : Nat)
    (w : World) (s : SafeDaemon) (dir : String)
    (hte : ∀ e ∈ w.entries (absolutePath w dir), entryTracked w s e = true)
    (htk : ∀ k ∈ ((w.entries (absolutePath w dir)).foldl (dirIndexStep w) []).map Prod.fst,
      keyTracked w s k = true) :
    ∃ s', fullIndexWith fa fuel w s dir = some s' ∧ Grows s s' ∧ Quiet s s' := by
  obtain ⟨s1, h1, hg1, hq1⟩ := fullIndex_entries_quiet fa fuel w dir _ s [] hte
  obtain ⟨s2, h2, hg2, hq2⟩ := fullIndex_keys_quiet fa w
    ((w.entries (absolutePath w dir)).foldl (dirIndexStep w) []) _ s1
    (fun k hk => keyTracked_mono w s s1 k hg1 (htk k hk))
  refine ⟨s2, ?_, hg1.trans hg2, hq1.quiet_trans hq2⟩
  unfold fullIndexWith
  simp only [h1, h2]

theorem fullIndexEntry_congr (fa fb : SafeDaemon → String → Bool → Option SafeDaemon)
    (fuel fuel2 : Nat) (w : World) (dir : String) (s : SafeDaemon)
    (di : List (String × (String × Nat))) (e : String) (ht : entryTracked w s e = true) :
    fullIndexEntry fa fuel w dir (s, di) e = fullIndexEntry fb fuel2 w dir (s, di) e := by
  unfold fullIndexEntry
  unfold entryTracked at ht
  simp only at ht ⊢
  by_cases h1 : QFileInfo.fileName ⟨e⟩ = "." ∨ QFileInfo.fileName ⟨e⟩ = ".."
  · simp only [h1, if_true]
  · simp only [h1, if_false] at ht ⊢
    by_cases h2 : w.isSymLink (QFileInfo.filePath ⟨e⟩) = true
    · simp only [h2, if_true]
    · simp only [h2, if_false] at ht ⊢
      by_cases h3 : w.isDir (QFileInfo.filePath ⟨e⟩) = true
      · simp only [h3, Bool.not_true, Bool.false_eq_true, if_false] at ht ⊢
        by_cases h4 : w.entryCount (QFileInfo.filePath ⟨e⟩) < 3
        · simp only [h4, if_true] at ht ⊢
          simp only [ht, Bool.not_true, Bool.and_false, Bool.false_eq_true, if_false]
        · simp only [h4, if_false]
      · simp only [h3, Bool.not_false, if_true, Bool.false_eq_true, if_false] at ht ⊢
        simp only [ht, Bool.not_true, Bool.and_false, Bool.false_eq_true, if_false]

theorem fullIndex_entries_congr (fa fb : SafeDaemon → String → Bool → Option SafeDaemon)
    (fuel fuel2 : Nat) (w : World) (dir : String) (entries : List String) (s : SafeDaemon)
    (di : List (String × (String × Nat)))
    (ht : ∀ e ∈ entries, entryTracked w s e = true) :
    entries.foldlM (fullIndexEntry fa fuel w dir) (s, di) =
      entries.foldlM (fullIndexEntry fb fuel2 w dir) (s, di) := by
  induction entries generalizing s di with
  | nil => rfl
  | cons e rest ih =>
    obtain ⟨s1, h1, hg1, _⟩ :=
      fullIndexEntry_quiet fa fuel w dir s di e (ht e (List.mem_cons_self _ _))
    have h2 := fullIndexEntry_congr fa fb fuel fuel2 w dir s di e (ht e (List.mem_cons_self _ _))
    rw [h1] at h2
    simp only [List.foldlM_cons, h1, ← h2, Option.bind_eq_bind, Option.some_bind]
    exact ih s1 _ (fun x hx => entryTracked_mono w s s1 x hg1 (ht x (List.mem_cons_of_mem _ hx)))

theorem fullIndexDir_congr (fa fb : SafeDaemon → String → Bool → Option SafeDaemon) (w : World)
    (di : List (String × (String × Nat))) (s : SafeDaemon) (k : String)
    (ht : keyTracked w s k = true) :
    fullIndexDir fa w di s k = fullIndexDir fb w di s k := by
  unfold fullIndexDir
  unfold keyTracked at ht
  simp only [Bool.or_eq_true, decide_eq_true_eq] at ht
  simp only
  by_cases h1 : relativeFilePath w s ⟨k⟩ = ""
  · simp only [h1, if_true]
  · have h2 : s.localStateDb.existsDir (relativeFilePath w s ⟨k⟩) = true := by
      rcases ht with h | h
      · exact absurd h h1
      · exact h
    simp only [h1, if_false, h2, Bool.not_true, Bool.and_false, Bool.false_eq_true]

theorem fullIndex_keys_congr (fa fb : SafeDaemon → String → Bool → Option SafeDaemon)
    (w : World) (di : List (String × (String × Nat))) (keys : List String) (s : SafeDaemon)
    (ht : ∀ k ∈ keys, keyTracked w s k = true) :
    keys.foldlM (fullIndexDir fa w di) s = keys.foldlM (fullIndexDir fb w di) s := by
  induction keys generalizing s with
  | nil => rfl
  | cons k rest ih =>
    obtain ⟨s1, h1, hg1, _⟩ := fullIndexDir_quiet fa w di s k (ht k (List.mem_cons_self _ _))
    have h2 := fullIndexDir_congr fa fb w di s k (ht k (List.mem_cons_self _ _))
    rw [h1] at h2
    simp only [List.foldlM_cons, h1, ← h2, Option.bind_eq_bind, Option.some_bind]
    exact ih s1 (fun x hx => keyTracked_mono w s s1 x hg1 (ht x (List.mem_cons_of_mem _ hx)))

theorem fullIndexWith_congr (fa fb : SafeDaemon → String → Bool → Option SafeDaemon)
    (fuel fuel2 : Nat) (w : World) (s : SafeDaemon) (dir : String)
    (hte : ∀ e ∈ w.entries (absolutePath w dir), entryTracked w s e = true)
    (htk : ∀ k ∈ ((w.entries (absolutePath w dir)).foldl (dirIndexStep w) []).map Prod.fst,
      keyTracked w s k = true) :
    fullIndexWith fa fuel w s dir = fullIndexWith fb fuel2 w s dir := by
  obtain ⟨s1, h1, hg1, _⟩ := fullIndex_entries_quiet fa fuel w dir _ s [] hte
  have h2 := fullIndex_entries_congr fa fb fuel fuel2 w dir _ s [] hte
  rw [h1] at h2
  unfold fullIndexWith
  simp only [h1, ← h2]
  exact fullIndex_keys_congr fa fb w _ _ s1 (fun k hk => keyTracked_mono w s s1 k hg1 (htk k hk))

/-- C19: when `fullIndex` has run over a tree (from any daemon state, on any
disk and any remote store) and returned, a second run over the same unchanged
tree returns for every positive fuel, calls `fileAdded` for no entry (the run
gives the same result whatever the nested `fileAdded` would do, even if it
always failed), and leaves both transfer maps, the timer objects, the request
trace and the remote store as they were. -/
theorem C19_reindex_no_transfer (fuel : Nat) (w : World) (s : SafeDaemon) (dir : String)
    (s1 : SafeDaemon) (h : fullIndex fuel w s dir = some s1) :
    ∃ s2, (∀ fuel2, fullIndex (fuel2 + 1) w s1 dir = some s2) ∧
      (∀ fa fuel2, fullIndexWith fa fuel2 w s1 dir = some s2) ∧
      s2.pendingTransfers = s1.pendingTransfers ∧ s2.activeTransfers = s1.activeTransfers ∧
      s2.timers = s1.timers ∧ s2.rpcs = s1.rpcs ∧ s2.remoteStateDb = s1.remoteStateDb := by
  cases fuel with
  | zero => simp [fullIndex] at h
  | succ n =>
    simp only [fullIndex] at h
    obtain ⟨_, hte, htk⟩ := fullIndexWith_spec _
      (fun a p d b hab => grows_fileAddedWith _ (fun x q y hxy => grows_fullIndex n w x q y hxy)
        w a p d b hab) (n + 1) w s dir s1 h
    have hte1 : ∀ e ∈ w.entries (absolutePath w dir), entryTracked w s1 e = true := hte
    obtain ⟨s2, h2, hg, hq⟩ :=
      fullIndexWith_quiet (fun _ _ _ => none) 0 w s1 dir hte1 htk
    have hall : ∀ fa fuel2, fullIndexWith fa fuel2 w s1 dir = some s2 := fun fa fuel2 =>
      (fullIndexWith_congr fa (fun _ _ _ => none) fuel2 0 w s1 dir hte1 htk).trans h2
    refine ⟨s2, fun fuel2 => ?_, hall, hq.1, hq.2.1, hq.2.2.1, hq.2.2.2.1, hg.2.1⟩
    simp only [fullIndex]
    exact hall _ _

set_option maxRecDepth 100000 in
/-- C19 at work: on a disk with the files `a/b.txt` and `a/c.txt`, indexed
from a daemon that knows only `a/b.txt`, a first run returns and a second run
is silent. -/
theorem C19_reindex_no_transfer_witness :
    ∃ s1, fullIndex 3 (World.listing ["/home/u/2safe/a", "/home/u/2safe/a/b.txt",
        "/home/u/2safe/a/c.txt"]) SafeDaemon.sample "/home/u/2safe" = some s1 ∧
      ∃ s2, (∀ fuel2, fullIndex (fuel2 + 1) (World.listing ["/home/u/2safe/a",
          "/home/u/2safe/a/b.txt", "/home/u/2safe/a/c.txt"]) s1 "/home/u/2safe" = some s2) ∧
        (∀ fa fuel2, fullIndexWith fa fuel2 (World.listing ["/home/u/2safe/a",
          "/home/u/2safe/a/b.txt", "/home/u/2safe/a/c.txt"]) s1 "/home/u/2safe" = some s2) ∧
        s2.pendingTransfers = s1.pendingTransfers ∧ s2.activeTransfers = s1.activeTransfers ∧
        s2.timers = s1.timers ∧ s2.rpcs = s1.rpcs ∧ s2.remoteStateDb = s1.remoteStateDb := by
  obtain ⟨s1, h⟩ := Option.isSome_iff_exists.1
    (show (fullIndex 3 (World.listing ["/home/u/2safe/a", "/home/u/2safe/a/b.txt",
        "/home/u/2safe/a/c.txt"]) SafeDaemon.sample "/home/u/2safe").isSome = true by decide)
  exact ⟨s1, h, C19_reindex_no_transfer 3 _ SafeDaemon.sample "/home/u/2safe" s1 h⟩

/-! ## C18: the directory fingerprint written by `fullIndex` -/

theorem relativeFilePath_ne_empty (w : World) (s : SafeDaemon) (info : QFileInfo) :
    relativeFilePath w s info ≠ "" := by
  unfold relativeFilePath
  simp only
  by_cases h : Path.relativeFilePath (getFilesystemPath w s) info.filePath = ""
  · simp only [h, if_true]; decide
  · simp only [h, if_false]; exact h

theorem value_dirIndexInsert (k : String) (v : String × Nat)
    (di : List (String × (String × Nat))) (h : QMap.value di k = none) (d : String) :
    QMap.value (dirIndexInsert k v di) d = if k = d then some v else QMap.value di d := by
  induction di with
  | nil => rfl
  | cons a rest ih =>
    obtain ⟨a, x⟩ := a
    have hak : a ≠ k := by
      intro hak
      simp [QMap.value, hak] at h
    have hr : QMap.value rest k = none := by
      simpa [QMap.value, hak] using h
    by_cases hle : SafeStateDb.leChars k.data a.data = true
    · simp only [dirIndexInsert, hle, if_true, QMap.value]
    · simp only [dirIndexInsert, hle, Bool.false_eq_true, if_false, QMap.value, ih hr]
      by_cases h1 : a = d
      · have : k ≠ d := fun hkd => hak (h1.trans hkd.symm)
        simp [h1, this]
      · simp [h1]

theorem value_dirIndexAppend (k hash : String) (mtime : Nat)
    (di : List (String × (String × Nat))) (d : String) :
    QMap.value (dirIndexAppend k hash mtime di) d =
      if k = d then (QMap.value di d).map
        (fun x => (x.1 ++ hash, if x.2 < mtime then mtime else x.2))
      else QMap.value di d := by
  induction di with
  | nil => simp [dirIndexAppend, QMap.value]
  | cons a rest ih =>
    obtain ⟨a, x⟩ := a
    by_cases hak : a = k
    · subst hak
      by_cases h1 : a = d
      · simp [dirIndexAppend, QMap.value, h1]
      · simp [dirIndexAppend, QMap.value, h1]
    · by_cases h1 : a = d
      · subst h1
        have : k ≠ a := fun hkd => hak hkd.symm
        simp [dirIndexAppend, QMap.value, hak, this]
      · simp only [dirIndexAppend, hak, if_false, QMap.value, h1, ih]

theorem dirIndexStep_value (w : World) (di : List (String × (String × Nat))) (e d : String) :
    ((QMap.value (dirIndexStep w di e) d).getD ("", 0)).1 =
      if isChildFile w d e = true then
        ((QMap.value di d).getD ("", 0)).1 ++ makeHash w ⟨e⟩
      else ((QMap.value di d).getD ("", 0)).1 := by
  unfold dirIndexStep isChildFile
  simp only
  by_cases h1 : QFileInfo.fileName ⟨e⟩ = "." ∨ QFileInfo.fileName ⟨e⟩ = ".."
  · have : (decide (QFileInfo.fileName ⟨e⟩ = ".") || decide (QFileInfo.fileName ⟨e⟩ = "..")) = true := by
      simpa using h1
    simp [h1, this]
  · have h1b : (decide (QFileInfo.fileName ⟨e⟩ = ".") || decide (QFileInfo.fileName ⟨e⟩ = "..")) = false := by
      simpa using h1
    simp only [h1, if_false, h1b, Bool.not_false, Bool.true_and]
    by_cases h2 : w.isSymLink (QFileInfo.filePath ⟨e⟩) = true
    · simp [h2]
    · have h2f : w.isSymLink (QFileInfo.filePath ⟨e⟩) = false := by simpa using h2
      simp only [h2f, Bool.false_eq_true, if_false, Bool.not_false, Bool.true_and]
      by_cases h3 : w.isDir (QFileInfo.filePath ⟨e⟩) = true
      · simp [h3]
      · have h3f : w.isDir (QFileInfo.filePath ⟨e⟩) = false := by simpa using h3
        simp only [h3f, Bool.not_false, if_true, Bool.true_and, decide_eq_true_eq]
        by_cases hc : QMap.contains di (absolutePath w (QFileInfo.path ⟨e⟩)) = true
        · simp only [hc, Bool.not_true, Bool.false_eq_true, if_false, value_dirIndexAppend]
          by_cases hd : absolutePath w (QFileInfo.path ⟨e⟩) = d
          · subst hd
            simp only [if_true]
            unfold QMap.contains at hc
            obtain ⟨x, hx⟩ := Option.isSome_iff_exists.1 hc
            simp [hx]
          · simp only [hd, if_false]
        · simp only [hc, Bool.not_false, if_true]
          have hn : QMap.value di (absolutePath w (QFileInfo.path ⟨e⟩)) = none := by
            unfold QMap.contains at hc
            simpa using hc
          rw [value_dirIndexInsert _ _ _ hn]
          by_cases hd : absolutePath w (QFileInfo.path ⟨e⟩) = d
          · subst hd
            simp [hn]
          · simp only [hd, if_false]

theorem dirIndex_fold_value (w : World) (entries : List String)
    (di : List (String × (String × Nat))) (d : String) :
    ((QMap.value (entries.foldl (dirIndexStep w) di) d).getD ("", 0)).1 =
      ((entries.filter (isChildFile w d)).map (fun e => makeHash w ⟨e⟩)).foldl
        (fun r x => r ++ x) ((QMap.value di d).getD ("", 0)).1 := by
  induction entries generalizing di with
  | nil => rfl
  | cons e rest ih =>
    simp only [List.foldl_cons, ih, dirIndexStep_value]
    by_cases hc : isChildFile w d e = true
    · simp [hc, List.filter_cons]
    · simp [hc, List.filter_cons]

theorem contains_dirIndexStep (w : World) (di : List (String × (String × Nat))) (e d : String) :
    QMap.contains (dirIndexStep w di e) d = (QMap.contains di d || isChildFile w d e) := by
  unfold dirIndexStep isChildFile
  simp only
  by_cases h1 : QFileInfo.fileName ⟨e⟩ = "." ∨ QFileInfo.fileName ⟨e⟩ = ".."
  · have : (decide (QFileInfo.fileName ⟨e⟩ = ".") || decide (QFileInfo.fileName ⟨e⟩ = "..")) = true := by
      simpa using h1
    simp [h1, this]
  · have h1b : (decide (QFileInfo.fileName ⟨e⟩ = ".") || decide (QFileInfo.fileName ⟨e⟩ = "..")) = false := by
      simpa using h1
    simp only [h1, if_false, h1b, Bool.not_false, Bool.true_and]
    by_cases h2 : w.isSymLink (QFileInfo.filePath ⟨e⟩) = true
    · simp [h2]
    · have h2f : w.isSymLink (QFileInfo.filePath ⟨e⟩) = false := by simpa using h2
      simp only [h2f, Bool.false_eq_true, if_false, Bool.not_false, Bool.true_and]
      by_cases h3 : w.isDir (QFileInfo.filePath ⟨e⟩) = true
      · simp [h3]
      · have h3f : w.isDir (QFileInfo.filePath ⟨e⟩) = false := by simpa using h3
        simp only [h3f, Bool.not_false, if_true, Bool.true_and]
        by_cases hc : QMap.contains di (absolutePath w (QFileInfo.path ⟨e⟩)) = true
        · simp only [hc, Bool.not_true, Bool.false_eq_true, if_false]
          unfold QMap.contains at hc ⊢
          rw [value_dirIndexAppend]
          by_cases hd : absolutePath w (QFileInfo.path ⟨e⟩) = d
          · subst hd
            simp [hc]
          · simp [hd]
        · simp only [hc, Bool.not_false, if_true]
          have hn : QMap.value di (absolutePath w (QFileInfo.path ⟨e⟩)) = none := by
            unfold QMap.contains at hc
            simpa using hc
          unfold QMap.contains
          rw [value_dirIndexInsert _ _ _ hn]
          by_cases hd : absolutePath w (QFileInfo.path ⟨e⟩) = d
          · subst hd
            simp
          · simp [hd]

theorem contains_dirIndex_fold (w : World) (entries : List String)
    (di : List (String × (String × Nat))) (d : String) :
    QMap.contains (entries.foldl (dirIndexStep w) di) d =
      (QMap.contains di d || entries.any (isChildFile w d)) := by
  induction entries generalizing di with
  | nil => simp
  | cons e rest ih =>
    simp only [List.foldl_cons, ih, contains_dirIndexStep, List.any_cons, Bool.or_assoc]

theorem mem_keys_iff_contains {V : Type} (m : List (String × V)) (k : String) :
    k ∈ m.map Prod.fst ↔ QMap.contains m k = true := by
  induction m with
  | nil => simp [QMap.contains, QMap.value]
  | cons a rest ih =>
    obtain ⟨a, x⟩ := a
    by_cases h : a = k
    · simp [QMap.contains, QMap.value, h]
    · have h' : ¬ k = a := fun e => h e.symm
      simp only [List.map_cons, List.mem_cons, h', false_or, ih, QMap.contains, QMap.value, h,
        if_false]

theorem mem_dirIndex_keys (w : World) (entries : List String) (d : String) :
    d ∈ (entries.foldl (dirIndexStep w) []).map Prod.fst ↔
      ∃ e ∈ entries, isChildFile w d e = true := by
  rw [mem_keys_iff_contains, contains_dirIndex_fold]
  simp [QMap.contains, QMap.value]

theorem fullIndexDir_known (fa : SafeDaemon → String → Bool → Option SafeDaemon) (w : World)
    (di : List (String × (String × Nat))) (s : SafeDaemon) (k : String)
    (hk : s.remoteStateDb.existsDir (relativeFilePath w s ⟨k⟩) = true ∨
      s.localStateDb.existsDir (relativeFilePath w s ⟨k⟩) = true) :
    fullIndexDir fa w di s k = some { s with localStateDb :=
      (s.localStateDb.insertDirHashed (relativeFilePath w s ⟨k⟩)
        (QFileInfo.fileName ⟨Path.qdirPath k⟩) ((QMap.value di k).getD ("", 0)).2
        (makeHashString w ((QMap.value di k).getD ("", 0)).1)) } := by
  unfold fullIndexDir
  simp only [relativeFilePath_ne_empty, if_false]
  have hc : (!s.remoteStateDb.existsDir (relativeFilePath w s ⟨k⟩) &&
      !s.localStateDb.existsDir (relativeFilePath w s ⟨k⟩)) = false := by
    rcases hk with h | h <;> simp [h]
  simp only [hc, Bool.false_eq_true, if_false]

theorem getDir_insertDirHashed_ne (db : SafeStateDb) (path name : String) (mtime : Nat)
    (hash : String) (q : String) (hq : q ≠ path) :
    (db.insertDirHashed path name mtime hash).getDir q = db.getDir q := by
  have hq' : ¬ path = q := fun e => hq e.symm
  simp only [SafeStateDb.getDir, SafeStateDb.insertDirHashed, List.find?, hq', decide_False]
  exact SafeStateDb.find_filter_key (fun r : DirRecord => r.relative_path) db.dirs path q hq

theorem localDirHash_insertDirHashed (s : SafeDaemon) (path name : String) (mtime : Nat)
    (hash : String) :
    localDirHash { s with localStateDb := s.localStateDb.insertDirHashed path name mtime hash }
      path = hash := by
  simp [localDirHash, SafeStateDb.getDir, SafeStateDb.insertDirHashed, List.find?]

theorem fullIndex_keys_hash (fa : SafeDaemon → String → Bool → Option SafeDaemon) (w : World)
    (di : List (String × (String × Nat))) (keys : List String) (s : SafeDaemon)
    (hk : ∀ k ∈ keys, s.remoteStateDb.existsDir (relativeFilePath w s ⟨k⟩) = true ∨
      s.localStateDb.existsDir (relativeFilePath w s ⟨k⟩) = true) :
    ∃ s', keys.foldlM (fullIndexDir fa w di) s = some s' ∧ Grows s s' ∧ Quiet s s' ∧
      (∀ p, (∀ k ∈ keys, relativeFilePath w s ⟨k⟩ ≠ p) →
        s'.localStateDb.getDir p = s.localStateDb.getDir p) ∧
      (∀ k ∈ keys,
        (∀ k2 ∈ keys, relativeFilePath w s ⟨k2⟩ = relativeFilePath w s ⟨k⟩ → k2 = k) →
        localDirHash s' (relativeFilePath w s ⟨k⟩) =
          w.md5 ((QMap.value di k).getD ("", 0)).1) := by
  induction keys generalizing s with
  | nil =>
    exact ⟨s, rfl, Grows.refl s, Quiet.quiet_refl s, fun _ _ => rfl,
      fun k hk => absurd hk (List.not_mem_nil k)⟩
  | cons k0 rest ih =>
    have h1 := fullIndexDir_known fa w di s k0 (hk k0 (List.mem_cons_self _ _))
    generalize hs1 : ({ s with localStateDb :=
      (s.localStateDb.insertDirHashed (relativeFilePath w s ⟨k0⟩)
        (QFileInfo.fileName ⟨Path.qdirPath k0⟩) ((QMap.value di k0).getD ("", 0)).2
        (makeHashString w ((QMap.value di k0).getD ("", 0)).1)) } : SafeDaemon) = s1 at h1
    have hg1 : Grows s s1 := by
      subst hs1
      exact ⟨rfl, rfl, fun p hp => hp,
        fun p hp => SafeStateDb.existsDir_insertDirHashed_of _ _ _ _ _ _ hp⟩
    have hq1 : Quiet s s1 := by subst hs1; exact Quiet.quiet_refl s
    have hrel : ∀ k, relativeFilePath w s1 ⟨k⟩ = relativeFilePath w s ⟨k⟩ :=
      fun k => relativeFilePath_congr w s s1 hg1.1 ⟨k⟩
    have hk1 : ∀ k ∈ rest, s1.remoteStateDb.existsDir (relativeFilePath w s1 ⟨k⟩) = true ∨
        s1.localStateDb.existsDir (relativeFilePath w s1 ⟨k⟩) = true := by
      intro k hkr
      rw [hrel k, hg1.2.1]
      rcases hk k (List.mem_cons_of_mem _ hkr) with h | h
      · exact Or.inl h
      · exact Or.inr (hg1.2.2.2 _ h)
    obtain ⟨s2, h2, hg2, hq2, hframe, hhash⟩ := ih s1 hk1
    refine ⟨s2, ?_, hg1.trans hg2, hq1.quiet_trans hq2, ?_, ?_⟩
    · simp only [List.foldlM_cons, h1, Option.bind_eq_bind, Option.some_bind, h2]
    · intro p hp
      rw [hframe p (fun k hkr => by rw [hrel k]; exact hp k (List.mem_cons_of_mem _ hkr))]
      subst hs1
      exact getDir_insertDirHashed_ne _ _ _ _ _ _ (fun e => hp k0 (List.mem_cons_self _ _) e.symm)
    · intro k hkm hinj
      by_cases hkr : k ∈ rest
      · have := hhash k hkr (fun k2 hk2 he => hinj k2 (List.mem_cons_of_mem _ hk2)
          (by rw [← hrel k2, ← hrel k]; exact he))
        rw [hrel k] at this
        exact this
      · have hk0 : k = k0 := by
          rcases List.mem_cons.1 hkm with h | h
          · exact h
          · exact absurd h hkr
        subst hk0
        have hfr := hframe (relativeFilePath w s ⟨k⟩) (fun k2 hk2 he =>
          hkr ((hinj k2 (List.mem_cons_of_mem _ hk2) (by rw [← hrel k2]; exact he)) ▸ hk2))
        unfold localDirHash
        rw [hfr]
        subst hs1
        simp [SafeStateDb.getDir, SafeStateDb.insertDirHashed, List.find?, makeHashString]

theorem isChildFile_dir (w : World) (d e : String) (h : isChildFile w d e = true) :
    d = absolutePath w (QFileInfo.path ⟨e⟩) ∧ w.isDir e = false := by
  unfold isChildFile at h
  simp only [Bool.and_eq_true, Bool.not_eq_true', decide_eq_true_eq] at h
  exact ⟨h.2.symm, h.1.2⟩

set_option maxRecDepth 100000 in
/-- C18 (counterexample): the same two files `a/b.txt` and `a/c.txt`, listed
by the directory iterator in the two possible orders, on a disk whose string
hash is the identity, so that the stored fingerprint is the string that was
passed to MD5.  The fingerprint recorded for `a` is the two content hashes
concatenated in the order of the listing: the strings passed to MD5 differ
between the two orders. -/
theorem C18_counterexample :
    List.Perm ["/home/u/2safe/a", "/home/u/2safe/a/b.txt", "/home/u/2safe/a/c.txt"]
      ["/home/u/2safe/a", "/home/u/2safe/a/c.txt", "/home/u/2safe/a/b.txt"] ∧
    (fullIndex 3 (World.listing ["/home/u/2safe/a", "/home/u/2safe/a/b.txt",
        "/home/u/2safe/a/c.txt"]) SafeDaemon.sample "/home/u/2safe").map
      (fun s => localDirHash s "a") =
      some "900150983cd24fb0d6963f7d28e17f72d41d8cd98f00b204e9800998ecf8427e" ∧
    (fullIndex 3 (World.listing ["/home/u/2safe/a", "/home/u/2safe/a/c.txt",
        "/home/u/2safe/a/b.txt"]) SafeDaemon.sample "/home/u/2safe").map
      (fun s => localDirHash s "a") =
      some "d41d8cd98f00b204e9800998ecf8427e900150983cd24fb0d6963f7d28e17f72" := by
  refine ⟨by decide, by decide, by decide⟩

/-- C18 (amended): in a run of `fullIndex` over a tree in which every directory
that holds a regular file is already known to the remote or the local store,
and no two such directories have the same path relative to the sync root, the
fingerprint recorded for such a directory is MD5 of the content hashes of the
regular files directly in it, concatenated in the order in which the
directory iterator yields them. -/
theorem C18_dir_hash_in_listing_order (fuel : Nat) (w : World) (s : SafeDaemon) (dir : String)
    (s' : SafeDaemon) (h : fullIndex fuel w s dir = some s')
    (hknown : ∀ d, (∃ e ∈ w.entries (absolutePath w dir), isChildFile w d e = true) →
      s.remoteStateDb.existsDir (relativeFilePath w s ⟨d⟩) = true ∨
        s.localStateDb.existsDir (relativeFilePath w s ⟨d⟩) = true)
    (hdistinct : ∀ d1 d2, (∃ e ∈ w.entries (absolutePath w dir), isChildFile w d1 e = true) →
      (∃ e ∈ w.entries (absolutePath w dir), isChildFile w d2 e = true) →
      relativeFilePath w s ⟨d1⟩ = relativeFilePath w s ⟨d2⟩ → d1 = d2)
    (d : String) (hd : ∃ e ∈ w.entries (absolutePath w dir), isChildFile w d e = true) :
    localDirHash s' (relativeFilePath w s ⟨d⟩) =
      w.md5 (String.join (((w.entries (absolutePath w dir)).filter (isChildFile w d)).map
        (fun e => makeHash w ⟨e⟩))) := by
  cases fuel with
  | zero => simp [fullIndex] at h
  | succ n =>
    simp only [fullIndex] at h
    unfold fullIndexWith at h
    cases h1 : (w.entries (absolutePath w dir)).foldlM
        (fullIndexEntry (fileAddedWith (fun s p => fullIndex n w s p) w) (n + 1) w dir) (s, []) with
    | none => simp [h1] at h
    | some st =>
      obtain ⟨s1, di⟩ := st
      simp only [h1] at h
      obtain ⟨hg1, hdi, _⟩ := fullIndex_entries_spec _
        (fun a p b c hab => grows_fileAddedWith _
          (fun x q y hxy => grows_fullIndex n w x q y hxy) w a p b c hab)
        (n + 1) w dir _ (s, []) (s1, di) h1
      simp only at hdi hg1
      subst hdi
      have hrel : ∀ k, relativeFilePath w s1 ⟨k⟩ = relativeFilePath w s ⟨k⟩ :=
        fun k => relativeFilePath_congr w s s1 hg1.1 ⟨k⟩
      obtain ⟨s2, h2, _, _, _, hhash⟩ := fullIndex_keys_hash
        (fileAddedWith (fun s p => fullIndex n w s p) w) w
        ((w.entries (absolutePath w dir)).foldl (dirIndexStep w) [])
        (((w.entries (absolutePath w dir)).foldl (dirIndexStep w) []).map Prod.fst) s1
        (fun k hk => by
          rw [hrel k, hg1.2.1]
          rcases hknown k ((mem_dirIndex_keys w _ k).1 hk) with hh | hh
          · exact Or.inl hh
          · exact Or.inr (hg1.2.2.2 _ hh))
      rw [h2] at h
      cases h
      have := hhash d ((mem_dirIndex_keys w _ d).2 hd) (fun k2 hk2 he =>
        hdistinct k2 d ((mem_dirIndex_keys w _ k2).1 hk2) hd (by rw [← hrel k2, ← hrel d]; exact he))
      rw [hrel d, dirIndex_fold_value] at this
      exact this

set_option maxRecDepth 100000 in
/-- C18 at work: the directory `a` with the files `b.txt` and `c.txt`, listed
in this order. -/
theorem C18_dir_hash_in_listing_order_witness :
    ∃ s', fullIndex 3 (World.listing ["/home/u/2safe/a", "/home/u/2safe/a/b.txt",
        "/home/u/2safe/a/c.txt"]) SafeDaemon.sample "/home/u/2safe" = some s' ∧
      localDirHash s' "a" =
        "900150983cd24fb0d6963f7d28e17f72d41d8cd98f00b204e9800998ecf8427e" := by
  obtain ⟨s', h⟩ := Option.isSome_iff_exists.1
    (show (fullIndex 3 (World.listing ["/home/u/2safe/a", "/home/u/2safe/a/b.txt",
        "/home/u/2safe/a/c.txt"]) SafeDaemon.sample "/home/u/2safe").isSome = true by decide)
  have hdir : ∀ d, (∃ e ∈ (World.listing ["/home/u/2safe/a", "/home/u/2safe/a/b.txt",
        "/home/u/2safe/a/c.txt"]).entries (absolutePath (World.listing ["/home/u/2safe/a",
        "/home/u/2safe/a/b.txt", "/home/u/2safe/a/c.txt"]) "/home/u/2safe"),
      isChildFile (World.listing ["/home/u/2safe/a", "/home/u/2safe/a/b.txt",
        "/home/u/2safe/a/c.txt"]) d e = true) → d = "/home/u/2safe/a" := by
    intro d hd
    obtain ⟨e, he, hc⟩ := hd
    have he2 : e ∈ ["/home/u/2safe/a", "/home/u/2safe/a/b.txt", "/home/u/2safe/a/c.txt"] := he
    obtain ⟨hd1, hd2⟩ := isChildFile_dir _ d e hc
    simp only [List.mem_cons, List.mem_singleton, List.not_mem_nil, or_false] at he2
    rcases he2 with he2 | he2 | he2
    · subst he2
      exact absurd hd2 (by decide)
    · subst he2
      exact hd1.trans (by decide)
    · subst he2
      exact hd1.trans (by decide)
  have := C18_dir_hash_in_listing_order 3 _ SafeDaemon.sample "/home/u/2safe" s' h
    (fun d hd => by rw [hdir d hd]; decide)
    (fun d1 d2 h1 h2 _ => (hdir d1 h1).trans (hdir d2 h2).symm)
    "/home/u/2safe/a" ⟨"/home/u/2safe/a/b.txt", by decide, by decide⟩
  exact ⟨s', h, this.trans (by decide)⟩

/-! ## C11 and C14: the settings across a bootstrap -/

theorem indexRemoteFiles_settings (root : Bool) (tree : String) (files : List SafeFile)
    (s : SafeDaemon) : (indexRemoteFiles root tree s files).settings = s.settings := by
  unfold indexRemoteFiles
  induction files generalizing s with
  | nil => rfl
  | cons f rest ih =>
    simp only [List.foldl_cons]
    rw [ih]
    split <;> rfl

theorem indexRemoteDirs_settings (root : Bool) (tree : String) (dirs : List SafeDir)
    (st : SafeDaemon × Nat × List String) :
    (indexRemoteDirs root tree st dirs).1.settings = st.1.settings := by
  unfold indexRemoteDirs
  induction dirs generalizing st with
  | nil => rfl
  | cons f rest ih =>
    simp only [List.foldl_cons]
    rw [ih]
    split <;> rfl

theorem listDirComplete_settings (s : SafeDaemon) (counter : Nat) (reply : ListDirReply) :
    (listDirComplete s counter reply).1.settings = s.settings := by
  unfold listDirComplete
  simp only [indexRemoteDirs_settings, indexRemoteFiles_settings]
  split <;> rfl

theorem fullRemoteIndexLoop_settings (w : World) (fuel : Nat) (s : SafeDaemon) (counter : Nat)
    (outstanding : List String) (s' : SafeDaemon)
    (h : fullRemoteIndexLoop w fuel s counter outstanding = some s') :
    s'.settings = s.settings := by
  induction fuel generalizing s counter outstanding with
  | zero => simp [fullRemoteIndexLoop] at h
  | succ n ih =>
    cases outstanding with
    | nil => simp [fullRemoteIndexLoop] at h
    | cons id rest =>
      simp only [fullRemoteIndexLoop] at h
      cases hl : w.listDir id with
      | some reply =>
        simp only [hl] at h
        split at h
        · cases h
          exact listDirComplete_settings s counter reply
        · exact (ih _ _ _ h).trans (listDirComplete_settings s counter reply)
      | none =>
        simp only [hl] at h
        split at h
        · cases h; rfl
        · exact ih _ _ _ h

theorem fullRemoteIndex_settings (fuel : Nat) (w : World) (s s' : SafeDaemon)
    (h : fullRemoteIndex fuel w s = some s') : s'.settings = s.settings := by
  unfold fullRemoteIndex at h
  simp only at h
  exact (fullRemoteIndexLoop_settings w fuel _ _ _ s' h).trans rfl

theorem init_settings (fuel : Nat) (w : World) (s s' : SafeDaemon)
    (h : init fuel w s = some s') :
    s'.settings = QMap.insert s.settings "last_updated" (QVariant.uint (w.now % 4294967296)) := by
  unfold init at h
  simp only at h
  split at h
  · cases h
  · rename_i s1 h1
    have hs1 := fullRemoteIndex_settings fuel w _ s1 h1
    split at h
    · cases h
    · rename_i s2 h2
      cases h
      split at h2
      · have := (grows_fullIndex fuel w _ _ s2 h2).1
        simp only [initWatcher, this, setValue, hs1]
        simp [purgeDb, fetchUsage]
      · cases h2
        simp only [initWatcher, checkIndex, setValue, hs1]
        simp [purgeDb, fetchUsage]

/-- C11: a bootstrap `init()` that returns leaves the `init` setting as it
found it.  When the setting was true or unset, so that the bootstrap ran
`fullIndex`, it is still true or unset afterwards, and the test
`settings->value("init", true).toBool()` of the following bootstrap is true
again: `fullIndex` runs once more instead of `checkIndex`. -/
theorem C11_init_flag_not_cleared (fuel : Nat) (w : World) (s s' : SafeDaemon)
    (h : init fuel w s = some s') :
    QMap.value s'.settings "init" = QMap.value s.settings "init" ∧
    ((s.settingsValue "init" (QVariant.bool true)).toBool = true →
      (s'.settingsValue "init" (QVariant.bool true)).toBool = true) := by
  have hv : QMap.value s'.settings "init" = QMap.value s.settings "init" := by
    rw [init_settings fuel w s s' h, QMap.value_insert]
    simp
  refine ⟨hv, fun h1 => ?_⟩
  unfold settingsValue at h1 ⊢
  rw [hv]
  exact h1

set_option maxRecDepth 100000 in
/-- C11 at work: the bootstrap of a daemon whose `init` setting is unset, on
the sample disk and remote service, returns and leaves the setting unset. -/
theorem C11_init_flag_not_cleared_witness :
    ∃ s', init 5 World.sample SafeDaemon.sample = some s' ∧
      QMap.value s'.settings "init" = QMap.value SafeDaemon.sample.settings "init" ∧
      ((SafeDaemon.sample.settingsValue "init" (QVariant.bool true)).toBool = true →
        (s'.settingsValue "init" (QVariant.bool true)).toBool = true) := by
  obtain ⟨s', h⟩ := Option.isSome_iff_exists.1
    (show (init 5 World.sample SafeDaemon.sample).isSome = true by decide)
  exact ⟨s', h, C11_init_flag_not_cleared 5 World.sample SafeDaemon.sample s' h⟩

theorem deauthUser_settings (s s' : SafeDaemon) (h : s.deauthUser = some s') :
    s'.settings = QMap.insert s.settings "init" (QVariant.bool true) := by
  unfold deauthUser at h
  split at h
  · cases h
    simp [purgeDb, setValue]
  · cases h

/-! ## C16: where the disk removal of `remoteDirectoryDeleted` lands -/

set_option maxRecDepth 100000 in
/-- C16, the code at the failing input: the remote store holds the directory
`a` (remote id `7`).  The remote service reports a directory named `..`
created in it and then the deletion of that directory.  The daemon stores the
path `a/..` as it comes; on the deletion event the only test before the
removal is that the stored path is longer than one and that the directory
exists, so `QDir("/home/u/2safe/a/..")` is removed recursively: that
directory is the sync root `/home/u/2safe` itself. -/
theorem C16_remoteDirectoryDeleted_removes_root :
    (getFilesystemPath World.resolving SafeDaemon.sample = "/home/u/2safe") ∧
    SafeDaemon.sample.remoteStateDb.getDirPathById "7" = "a" ∧
    ((remoteDirectoryCreated World.resolving SafeDaemon.sample "9" "7" "..").map
      (fun s => s.remoteStateDb.getDirPathById "9")) = some "a/.." ∧
    ((remoteDirectoryCreated World.resolving SafeDaemon.sample "9" "7" "..").map
      (fun s => (remoteDirectoryDeleted World.resolving s "9" "7" "..").diskOps)) =
      some [DiskOp.mkdir "/home/u/2safe/a/..",
        DiskOp.removeRecursively "/home/u/2safe/a/.."] ∧
    Path.cleanPath "/home/u/2safe/a/.." = "/home/u/2safe" := by
  refine ⟨by decide, by decide, by decide, by decide, by decide⟩

end SafeDaemon

/-! ## Facts about paths: a plain path below a directory -/

namespace Path

theorem pieces_ne_nil (s : List Char) : pieces s ≠ [] := by
  induction s with
  | nil => simp [pieces]
  | cons c cs ih =>
    unfold pieces
    by_cases h : c = '/'
    · simp [h]
    · simp only [h, if_false]
      cases hp : pieces cs with
      | nil => simp
      | cons x xs => simp

theorem pieces_append_slash (a b : List Char) :
    pieces (a ++ '/' :: b) = pieces a ++ pieces b := by
  induction a with
  | nil => simp [pieces]
  | cons c cs ih =>
    by_cases h : c = '/'
    · simp [pieces, h, ih]
    · cases hp : pieces cs with
      | nil => exact absurd hp (pieces_ne_nil cs)
      | cons x xs =>
        simp only [List.cons_append, pieces, h, if_false, List.append_eq, ih, hp]

theorem elements_append_slash (a b : List Char) :
    elements (a ++ '/' :: b) = elements a ++ elements b := by
  simp [elements, pieces_append_slash]

theorem normalize_plain (absolute : Bool) (ys : List (List Char))
    (hplain : ∀ e ∈ ys, e ≠ ['.'] ∧ e ≠ ['.', '.']) (acc : List (List Char)) :
    normalize absolute acc ys = acc.reverse ++ ys := by
  induction ys generalizing acc with
  | nil => simp [normalize]
  | cons e rest ih =>
    have he := hplain e (List.mem_cons_self _ _)
    have hrest : ∀ x ∈ rest, x ≠ ['.'] ∧ x ≠ ['.', '.'] :=
      fun x hx => hplain x (List.mem_cons_of_mem _ hx)
    simp only [normalize, he.1, he.2, if_false, ih hrest, List.reverse_cons, List.append_assoc,
      List.singleton_append]

theorem normalize_append (absolute : Bool) (xs ys : List (List Char))
    (hplain : ∀ e ∈ ys, e ≠ ['.'] ∧ e ≠ ['.', '.']) (acc : List (List Char)) :
    normalize absolute acc (xs ++ ys) = normalize absolute acc xs ++ ys := by
  induction xs generalizing acc with
  | nil => simp [normalize, normalize_plain absolute ys hplain]
  | cons e rest ih =>
    simp only [List.cons_append, normalize, List.append_eq]
    by_cases h1 : e = ['.']
    · simp only [h1, if_true, ih]
    · simp only [h1, if_false]
      by_cases h2 : e = ['.', '.']
      · simp only [h2, if_true]
        cases acc with
        | nil =>
          simp only
          cases absolute <;> simp [ih]
        | cons top below =>
          simp only
          by_cases h3 : top = ['.', '.']
          · simp only [h3, if_true, ih]
          · simp only [h3, if_false, ih]
      · simp only [h2, if_false, ih]

theorem data_append_slash (a b : String) : (a ++ "/" ++ b).data = a.data ++ '/' :: b.data := by
  simp [String.data_append]

theorem resolved_append_plain (root path : String) (habs : isAbsolute root.data = true)
    (hplain : isPlain path = true) :
    resolved (root ++ "/" ++ path) = resolved root ++ elements path.data ∧
      elements path.data ≠ [] := by
  unfold isPlain at hplain
  simp only [Bool.and_eq_true, Bool.not_eq_true', List.all_eq_true, decide_eq_true_eq] at hplain
  have hpl : ∀ e ∈ elements path.data, e ≠ ['.'] ∧ e ≠ ['.', '.'] := by
    intro e he
    have := hplain.2 e he
    simpa using this
  have hab2 : isAbsolute (root ++ "/" ++ path).data = true := by
    rw [data_append_slash]
    cases hr : root.data with
    | nil => simp [hr, isAbsolute] at habs
    | cons c cs => simpa [hr, isAbsolute] using habs
  refine ⟨?_, ?_⟩
  · unfold resolved
    rw [hab2, habs, data_append_slash, elements_append_slash, normalize_append _ _ _ hpl]
  · intro hnil
    simp [hnil] at hplain

theorem resolved_qdirPath (s : String) : resolved (qdirPath s) = resolved s := by
  unfold qdirPath
  by_cases h : s.data.getLast? = some '/' ∧ 1 < s.data.length
  · simp only [h, and_self, if_true]
    obtain ⟨hl, hlen⟩ := h
    have hsplit : s.data = s.data.dropLast ++ '/' :: [] := by
      have := List.dropLast_append_getLast? '/' (by simpa using hl)
      simpa using this.symm
    have he : elements s.data.dropLast = elements s.data := by
      conv => rhs; rw [hsplit, elements_append_slash]
      simp [elements, pieces]
    have ha : isAbsolute s.data.dropLast = isAbsolute s.data := by
      cases hd : s.data with
      | nil => rfl
      | cons c cs =>
        cases cs with
        | nil => simp [hd] at hlen
        | cons c2 cs2 => simp [isAbsolute, List.dropLast]
    unfold resolved
    simp only [he, ha]
  · simp only [h, if_false]

end Path

namespace SafeDaemon

/-- Where the disk removal of `remoteDirectoryDeleted` lands in general.  The
handler makes at most one change on the disk, the recursive removal of
`QDir(root + "/" + path)` for the path that the remote store holds for the
id, and makes it exactly when `path.length() > 1` and the directory exists.
For the root id (path `/`) and for an id unknown to the remote store (empty
path) nothing is removed.  When the sync root is an absolute path and the
stored path is made of plain names (no `.` or `..` element), the directory
removed lies strictly below the sync root: it resolves to the elements of the
sync root followed by the elements of the stored path, of which there is at
least one. -/
theorem remoteDirectoryDeleted_disk (w : World) (s : SafeDaemon) (id pid name : String) :
    (remoteDirectoryDeleted w s id pid name).diskOps =
      (if 1 < QString.length (s.remoteStateDb.getDirPathById id) ∧
          w.fileExists (Path.qdirPath
            (getFilesystemPath w s ++ "/" ++ s.remoteStateDb.getDirPathById id)) = true ∧
          w.isDir (Path.qdirPath
            (getFilesystemPath w s ++ "/" ++ s.remoteStateDb.getDirPathById id)) = true then
        s.diskOps ++ [DiskOp.removeRecursively (Path.qdirPath
          (getFilesystemPath w s ++ "/" ++ s.remoteStateDb.getDirPathById id))]
      else s.diskOps) ∧
    ((s.remoteStateDb.getDirPathById id = "/" ∨ s.remoteStateDb.getDirById id = none) →
      (remoteDirectoryDeleted w s id pid name).diskOps = s.diskOps) ∧
    (Path.isAbsolute (getFilesystemPath w s).data = true →
      Path.isPlain (s.remoteStateDb.getDirPathById id) = true →
      Path.resolved (Path.qdirPath
          (getFilesystemPath w s ++ "/" ++ s.remoteStateDb.getDirPathById id)) =
        Path.resolved (getFilesystemPath w s) ++
          Path.elements (s.remoteStateDb.getDirPathById id).data ∧
      Path.elements (s.remoteStateDb.getDirPathById id).data ≠ []) := by
  have hmain : (remoteDirectoryDeleted w s id pid name).diskOps =
      (if 1 < QString.length (s.remoteStateDb.getDirPathById id) ∧
          w.fileExists (Path.qdirPath
            (getFilesystemPath w s ++ "/" ++ s.remoteStateDb.getDirPathById id)) = true ∧
          w.isDir (Path.qdirPath
            (getFilesystemPath w s ++ "/" ++ s.remoteStateDb.getDirPathById id)) = true then
        s.diskOps ++ [DiskOp.removeRecursively (Path.qdirPath
          (getFilesystemPath w s ++ "/" ++ s.remoteStateDb.getDirPathById id))]
      else s.diskOps) := by
    unfold remoteDirectoryDeleted
    simp only [getFilesystemPath, settingsValue]
    by_cases hl : 1 < QString.length (s.remoteStateDb.getDirPathById id)
    · simp only [hl, if_true, true_and]
      by_cases he : s.localStateDb.existsDir (s.remoteStateDb.getDirPathById id) = true
      · simp only [he, if_true]
        split
        · rename_i hc
          simp only [Bool.and_eq_true] at hc
          simp [hc.1, hc.2]
        · rename_i hc
          simp only [Bool.and_eq_true] at hc
          simp only [hc, if_false]
      · simp only [he, Bool.false_eq_true, if_false]
        split
        · rename_i hc
          simp only [Bool.and_eq_true] at hc
          simp [hc.1, hc.2]
        · rename_i hc
          simp only [Bool.and_eq_true] at hc
          simp only [hc, if_false]
    · simp only [hl, if_false, false_and]
      split <;> rfl
  refine ⟨hmain, fun h => ?_, fun habs hplain => ?_⟩
  · rw [hmain]
    have hlen : ¬ 1 < QString.length (s.remoteStateDb.getDirPathById id) := by
      rcases h with h | h
      · rw [h]; decide
      · simp only [SafeStateDb.getDirPathById, h]
        decide
    simp [hlen]
  · rw [Path.resolved_qdirPath]
    exact Path.resolved_append_plain _ _ habs hplain

set_option maxRecDepth 100000 in
/-- The disk removal at work: with the directory `docs` (id `8`) in the remote
store and on the disk, the deletion event for it removes
`/home/u/2safe/docs`, which lies below the sync root; an event with the
unknown id `0` removes nothing. -/
theorem remoteDirectoryDeleted_disk_example :
    (remoteDirectoryDeleted { World.sample with isDir := fun p => p = "/home/u/2safe/docs" }
      { SafeDaemon.sample with remoteStateDb := ⟨[], [⟨"docs", "docs", 10, "", some "8"⟩]⟩ }
      "8" "" "docs").diskOps = [DiskOp.removeRecursively "/home/u/2safe/docs"] ∧
    (remoteDirectoryDeleted World.sample SafeDaemon.sample "0" "" "x").diskOps = [] ∧
    Path.resolved "/home/u/2safe/docs" = Path.resolved "/home/u/2safe" ++ [['d', 'o', 'c', 's']] := by
  refine ⟨?_, ?_, ?_⟩
  · exact (remoteDirectoryDeleted_disk
      { World.sample with isDir := fun p => p = "/home/u/2safe/docs" }
      { SafeDaemon.sample with remoteStateDb := ⟨[], [⟨"docs", "docs", 10, "", some "8"⟩]⟩ }
      "8" "" "docs").1.trans (by decide)
  · exact (remoteDirectoryDeleted_disk World.sample SafeDaemon.sample "0" "" "x").2.1
      (Or.inr (by decide))
  · exact ((remoteDirectoryDeleted_disk
      { World.sample with isDir := fun p => p = "/home/u/2safe/docs" }
      { SafeDaemon.sample with remoteStateDb := ⟨[], [⟨"docs", "docs", 10, "", some "8"⟩]⟩ }
      "8" "" "docs").2.2 (by decide) (by decide)).1

/-! ## C20: file rows and their directory rows -/

theorem files_updateDirHash (md5 : String → String) (db : SafeStateDb) (d : String) :
    (db.updateDirHash md5 d).files = db.files := by
  unfold SafeStateDb.updateDirHash
  split <;> rfl

theorem fileAdded_file_local (fuel : Nat) (w : World) (s : SafeDaemon) (path : String)
    (hh : QFileInfo.isHidden ⟨path⟩ = false) :
    ∃ s', fileAdded fuel w s path false = some s' ∧
      s'.localStateDb = (upsertLocalFile w s ⟨path⟩).localStateDb := by
  simp only [fileAdded, fileAddedWith, Bool.false_eq_true, if_false, isFileAllowed, hh,
    Bool.not_false, Bool.not_true]
  split
  · exact ⟨_, rfl, rfl⟩
  · refine ⟨_, rfl, ?_⟩
    rw [queueUploadFile_eq, enqueue_localStateDb]
    rfl

theorem dirsCover_upsert (db : SafeStateDb) (md5 : String → String)
    (dir path name : String) (mtime : Nat) (hash : String) (hcov : db.dirsCover = true) :
    ((((db.removeFile path).insertFile dir path name mtime hash none).updateDirHash md5
      dir).dirsCover) = (decide (dir = "/") || db.existsDir dir) := by
  unfold SafeStateDb.dirsCover at hcov ⊢
  simp only [files_updateDirHash, SafeStateDb.existsDir_updateDirHash]
  have hdir : ∀ q, ((db.removeFile path).insertFile dir path name mtime hash none).existsDir q =
      db.existsDir q := fun q => rfl
  simp only [hdir]
  simp only [SafeStateDb.insertFile, SafeStateDb.removeFile, List.all_cons]
  have hrest : ((db.files.filter (fun r => r.relative_path ≠ path)).filter
      (fun r => r.relative_path ≠ path)).all
        (fun f => decide (f.relative_dir = "/") || db.existsDir f.relative_dir) = true := by
    rw [List.all_eq_true] at hcov ⊢
    intro f hf
    exact hcov f (List.mem_of_mem_filter (List.mem_of_mem_filter hf))
  rw [hrest, Bool.and_true]

/-- C13 at work: a `get_settings` message asking for `login` and `root_name`
from the running daemon of the examples, which stores a login and no root
name. -/
theorem C13_formSettingsReply_witness :
    QMap.value (formSettingsReply SafeDaemon.sample
      [QJsonValue.str "login", QJsonValue.str "root_name"]) "type" =
        some (QJsonValue.str "settings") ∧
    (∃ values,
      QMap.value (formSettingsReply SafeDaemon.sample
        [QJsonValue.str "login", QJsonValue.str "root_name"]) "values" =
          some (QJsonValue.obj values) ∧
      QMap.value values "login" = some (QJsonValue.str "user") ∧
      QMap.value values "root_name" = none) ∧
    handleClientConnection 0 World.sample SafeDaemon.sample
      [("type", QJsonValue.str "get_settings"),
       ("fields", QJsonValue.arr [QJsonValue.str "login", QJsonValue.str "root_name"])] =
      some (SafeDaemon.sample, some (Reply.json (QJsonValue.obj (formSettingsReply
        SafeDaemon.sample [QJsonValue.str "login", QJsonValue.str "root_name"])))) := by
  have h := C13_formSettingsReply SafeDaemon.sample
    [QJsonValue.str "login", QJsonValue.str "root_name"]
  refine ⟨h.1, ?_, h.2.2 0 World.sample _ (by decide) rfl⟩
  obtain ⟨values, hv, hall⟩ := h.2.1
  refine ⟨values, hv, ?_, ?_⟩
  · rw [hall "login"]
    have hc : (∃ field ∈ [QJsonValue.str "login", QJsonValue.str "root_name"],
        field.toString = "login") ∧
        0 < ((SafeDaemon.sample.settingsValue "login" (QVariant.str "")).toString).length :=
      ⟨⟨QJsonValue.str "login", by simp, rfl⟩, by decide⟩
    rw [if_pos hc]
    rfl
  · rw [hall "root_name"]
    have hc : ¬ ((∃ field ∈ [QJsonValue.str "login", QJsonValue.str "root_name"],
        field.toString = "root_name") ∧
        0 < ((SafeDaemon.sample.settingsValue "root_name" (QVariant.str "")).toString).length) :=
      fun hh => absurd hh.2 (by decide)
    rw [if_neg hc]

/-! ## C21: the counter of `fullRemoteIndex` -/

theorem indexRemoteDirs_counter (root : Bool) (tree : String) (dirs : List SafeDir)
    (s : SafeDaemon) (c : Nat) (acc : List String)
    (hb : c + (dirs.filter SafeDir.isListed).length < 4294967296) :
    (indexRemoteDirs root tree (s, c, acc) dirs).2 =
      (c + (dirs.filter SafeDir.isListed).length,
        acc ++ (dirs.filter SafeDir.isListed).map (fun d => d.id)) := by
  unfold indexRemoteDirs
  induction dirs generalizing s c acc with
  | nil => simp
  | cons d rest ih =>
    simp only [List.foldl_cons]
    by_cases hd : d.is_trash = true ∨ d.special_dir ≠ ""
    · have hl : SafeDir.isListed d = false := by
        unfold SafeDir.isListed
        rcases hd with h | h
        · simp [h]
        · simp [h]
      simp only [hd, if_true, List.filter_cons, hl, Bool.false_eq_true, if_false] at hb ⊢
      exact ih s c acc hb
    · have hl : SafeDir.isListed d = true := by
        unfold SafeDir.isListed
        simp only [not_or, Bool.not_eq_true, ne_eq, not_not] at hd
        simp [hd.1, hd.2]
      simp only [hd, if_false, List.filter_cons, hl, if_true, List.length_cons] at hb ⊢
      have hc : counterInc c = c + 1 := by
        unfold counterInc
        exact Nat.mod_eq_of_lt (by omega)
      rw [hc, ih _ (c + 1) (acc ++ [d.id]) (by omega)]
      simp only [List.map_cons, List.append_assoc, List.singleton_append, Prod.mk.injEq,
        and_true]
      omega

theorem indexRemoteDirs_state (root : Bool) (tree : String) (dirs : List SafeDir)
    (s : SafeDaemon) (c c2 : Nat) (acc acc2 : List String) :
    (indexRemoteDirs root tree (s, c, acc) dirs).1 =
      (indexRemoteDirs root tree (s, c2, acc2) dirs).1 := by
  unfold indexRemoteDirs
  induction dirs generalizing s c c2 acc acc2 with
  | nil => rfl
  | cons d rest ih =>
    simp only [List.foldl_cons]
    by_cases hd : d.is_trash = true ∨ d.special_dir ≠ ""
    · simp only [hd, if_true]
      exact ih s c c2 acc acc2
    · simp only [hd, if_false]
      exact ih _ _ _ _ _

theorem listDirComplete_counter (s : SafeDaemon) (c : Nat) (reply : ListDirReply)
    (hpos : 1 ≤ c) (hb : c + (reply.dirs.filter SafeDir.isListed).length < 4294967296) :
    (listDirComplete s c reply).2.1 = c + (reply.dirs.filter SafeDir.isListed).length - 1 ∧
    (listDirComplete s c reply).2.2.1 = (reply.dirs.filter SafeDir.isListed).map (fun d => d.id) ∧
    (listDirComplete s c reply).2.2.2 =
      decide (c + (reply.dirs.filter SafeDir.isListed).length - 1 = 0) ∧
    (listDirComplete s c reply).1 = (listDirComplete s 0 reply).1 := by
  unfold listDirComplete
  simp only
  have hcnt := fun (a : Bool) (b : String) (x : SafeDaemon) =>
    indexRemoteDirs_counter a b reply.dirs x c [] hb
  have hdec : counterDec (c + (reply.dirs.filter SafeDir.isListed).length) =
      c + (reply.dirs.filter SafeDir.isListed).length - 1 := by
    unfold counterDec
    have : c + (reply.dirs.filter SafeDir.isListed).length + 4294967295 =
        (c + (reply.dirs.filter SafeDir.isListed).length - 1) + 4294967296 := by omega
    rw [this, Nat.add_mod_right]
    exact Nat.mod_eq_of_lt (by omega)
  refine ⟨?_, ?_, ?_, ?_⟩
  · rw [hcnt]; exact hdec
  · rw [hcnt]; simp
  · rw [hcnt]
    simp only [hdec]
    by_cases h0 : c + (reply.dirs.filter SafeDir.isListed).length - 1 = 0
    · simp [h0]
    · have : ¬ (c + (reply.dirs.filter SafeDir.isListed).length - 1 < 1) := by omega
      simp [h0, this]
  · exact indexRemoteDirs_state _ _ _ _ _ _ _ _

theorem indexRemoteFiles_rpcs (root : Bool) (tree : String) (files : List SafeFile)
    (s : SafeDaemon) : (indexRemoteFiles root tree s files).rpcs = s.rpcs := by
  unfold indexRemoteFiles
  induction files generalizing s with
  | nil => rfl
  | cons f rest ih =>
    simp only [List.foldl_cons]
    rw [ih]
    split <;> rfl

theorem indexRemoteDirs_rpcs (root : Bool) (tree : String) (dirs : List SafeDir)
    (s : SafeDaemon) (c : Nat) (acc : List String) :
    (indexRemoteDirs root tree (s, c, acc) dirs).1.rpcs =
      s.rpcs ++ (dirs.filter SafeDir.isListed).map (fun d => Rpc.listDir d.id) := by
  unfold indexRemoteDirs
  induction dirs generalizing s c acc with
  | nil => simp
  | cons d rest ih =>
    simp only [List.foldl_cons]
    by_cases hd : d.is_trash = true ∨ d.special_dir ≠ ""
    · have hl : SafeDir.isListed d = false := by
        unfold SafeDir.isListed
        rcases hd with h | h
        · simp [h]
        · simp [h]
      simp only [hd, if_true, List.filter_cons, hl, Bool.false_eq_true, if_false]
      exact ih s c acc
    · have hl : SafeDir.isListed d = true := by
        unfold SafeDir.isListed
        simp only [not_or, Bool.not_eq_true, ne_eq, not_not] at hd
        simp [hd.1, hd.2]
      simp only [hd, if_false, List.filter_cons, hl, if_true]
      rw [ih]
      simp

theorem listDirComplete_rpcs (s : SafeDaemon) (c : Nat) (reply : ListDirReply) :
    (listDirComplete s c reply).1.rpcs =
      s.rpcs ++ (reply.dirs.filter SafeDir.isListed).map (fun d => Rpc.listDir d.id) := by
  unfold listDirComplete
  simp only [indexRemoteDirs_rpcs, indexRemoteFiles_rpcs]
  split <;> rfl

theorem listDirError_counter (c : Nat) (hpos : 1 ≤ c) (hb : c < 4294967296) :
    listDirError c = (c - 1, decide (c - 1 = 0)) := by
  unfold listDirError
  have hdec : counterDec c = c - 1 := by
    unfold counterDec
    have : c + 4294967295 = (c - 1) + 4294967296 := by omega
    rw [this, Nat.add_mod_right]
    exact Nat.mod_eq_of_lt (by omega)
  simp only [hdec]
  by_cases h0 : c - 1 = 0
  · simp [h0]
  · have : ¬ (c - 1 < 1) := by omega
    simp [h0, this]

theorem indexRemoteDirs_issued (root : Bool) (tree : String) (dirs : List SafeDir)
    (s : SafeDaemon) (c : Nat) (acc : List String) :
    (indexRemoteDirs root tree (s, c, acc) dirs).2.2 =
      acc ++ (dirs.filter SafeDir.isListed).map (fun d => d.id) := by
  unfold indexRemoteDirs
  induction dirs generalizing s c acc with
  | nil => simp
  | cons d rest ih =>
    simp only [List.foldl_cons]
    by_cases hd : d.is_trash = true ∨ d.special_dir ≠ ""
    · have hl : SafeDir.isListed d = false := by
        unfold SafeDir.isListed
        rcases hd with h | h
        · simp [h]
        · simp [h]
      simp only [hd, if_true, List.filter_cons, hl, Bool.false_eq_true, if_false]
      exact ih s c acc
    · have hl : SafeDir.isListed d = true := by
        unfold SafeDir.isListed
        simp only [not_or, Bool.not_eq_true, ne_eq, not_not] at hd
        simp [hd.1, hd.2]
      simp only [hd, if_false, List.filter_cons, hl, if_true]
      rw [ih]
      simp

theorem listDirComplete_issued (s : SafeDaemon) (c : Nat) (reply : ListDirReply) :
    (listDirComplete s c reply).2.2.1 =
      (reply.dirs.filter SafeDir.isListed).map (fun d => d.id) := by
  unfold listDirComplete
  simp only [indexRemoteDirs_issued, List.nil_append]

theorem fullRemoteIndexLoop_eq_byOutstanding (w : World) (bound : Nat)
    (hbound : ∀ id reply, w.listDir id = some reply →
      (reply.dirs.filter SafeDir.isListed).length ≤ bound)
    (fuel : Nat) (s : SafeDaemon) (outstanding : List String)
    (hb : outstanding.length + fuel * bound < 4294967296) :
    fullRemoteIndexLoop w fuel s outstanding.length outstanding =
      remoteIndexByOutstanding w fuel s outstanding := by
  induction fuel generalizing s outstanding with
  | zero => simp [fullRemoteIndexLoop, remoteIndexByOutstanding]
  | succ n ih =>
    cases outstanding with
    | nil => simp [fullRemoteIndexLoop, remoteIndexByOutstanding]
    | cons id rest =>
      simp only [fullRemoteIndexLoop, remoteIndexByOutstanding, List.length_cons]
      have hmul : (n + 1) * bound = n * bound + bound := by ring
      simp only [List.length_cons, hmul] at hb
      cases hl : w.listDir id with
      | some reply =>
        have hk := hbound id reply hl
        obtain ⟨h1, _, h3, h4⟩ := listDirComplete_counter s (rest.length + 1) reply
          (by omega) (by omega)
        simp only [h1, h3, h4, listDirComplete_issued]
        have hlen : (rest ++ (reply.dirs.filter SafeDir.isListed).map (fun d => d.id)).length =
            rest.length + 1 + (reply.dirs.filter SafeDir.isListed).length - 1 := by
          simp only [List.length_append, List.length_map]
          omega
        by_cases h0 : rest.length + 1 + (reply.dirs.filter SafeDir.isListed).length - 1 = 0
        · have hemp : (rest ++ (reply.dirs.filter SafeDir.isListed).map
              (fun d => d.id)).isEmpty = true := by
            rw [List.isEmpty_iff_length_eq_zero, hlen, h0]
          simp [h0, hemp]
        · have hemp : (rest ++ (reply.dirs.filter SafeDir.isListed).map
              (fun d => d.id)).isEmpty = false := by
            rw [Bool.eq_false_iff]
            intro hcon
            rw [List.isEmpty_iff_length_eq_zero, hlen] at hcon
            exact h0 hcon
          simp only [h0, decide_False, Bool.false_eq_true, if_false, hemp]
          rw [← hlen]
          exact ih _ _ (by rw [hlen]; omega)
      | none =>
        simp only [listDirError_counter (rest.length + 1) (by omega) (by omega),
          Nat.add_sub_cancel]
        by_cases h0 : rest.length = 0
        · have hemp : rest.isEmpty = true := by
            rw [List.isEmpty_iff_length_eq_zero, h0]
          simp [h0, hemp]
        · have hemp : rest.isEmpty = false := by
            rw [Bool.eq_false_iff]
            intro hcon
            rw [List.isEmpty_iff_length_eq_zero] at hcon
            exact h0 hcon
          simp only [h0, decide_False, Bool.false_eq_true, if_false, hemp]
          exact ih _ _ (by omega)

theorem fullRemoteIndexLoop_complete (w : World) (fuel : Nat) (s : SafeDaemon) (id : String)
    (rest : List String) (reply : ListDirReply) (hl : w.listDir id = some reply)
    (hb : rest.length + 1 + (reply.dirs.filter SafeDir.isListed).length < 4294967296) :
    fullRemoteIndexLoop w (fuel + 1) s (id :: rest).length (id :: rest) =
      if (rest ++ (reply.dirs.filter SafeDir.isListed).map (fun d => d.id)).length = 0 then
        some (listDirComplete s (id :: rest).length reply).1
      else
        fullRemoteIndexLoop w fuel (listDirComplete s (id :: rest).length reply).1
          (rest ++ (reply.dirs.filter SafeDir.isListed).map (fun d => d.id)).length
          (rest ++ (reply.dirs.filter SafeDir.isListed).map (fun d => d.id)) := by
  simp only [fullRemoteIndexLoop, List.length_cons, hl]
  obtain ⟨h1, _, h3, _⟩ := listDirComplete_counter s (rest.length + 1) reply (by omega) hb
  have hlen : (rest ++ (reply.dirs.filter SafeDir.isListed).map (fun d => d.id)).length =
      rest.length + 1 + (reply.dirs.filter SafeDir.isListed).length - 1 := by
    simp only [List.length_append, List.length_map]
    omega
  simp only [h1, h3, listDirComplete_issued, hlen]
  by_cases h0 : rest.length + 1 + (reply.dirs.filter SafeDir.isListed).length - 1 = 0
  · simp [h0]
  · simp [h0]

theorem fullRemoteIndexLoop_error (w : World) (fuel : Nat) (s : SafeDaemon) (id : String)
    (rest : List String) (hl : w.listDir id = none) (hb : rest.length + 1 < 4294967296) :
    fullRemoteIndexLoop w (fuel + 1) s (id :: rest).length (id :: rest) =
      if rest.length = 0 then some s else fullRemoteIndexLoop w fuel s rest.length rest := by
  simp only [fullRemoteIndexLoop, List.length_cons, hl,
    listDirError_counter (rest.length + 1) (by omega) hb, Nat.add_sub_cancel]
  by_cases h0 : rest.length = 0
  · simp [h0]
  · simp [h0]

theorem fullRemoteIndex_start (fuel : Nat) (w : World) (s : SafeDaemon) :
    fullRemoteIndex fuel w s =
      fullRemoteIndexLoop w fuel
        { s with nextObject := s.nextObject + 1 + 1,
                 rpcs := s.rpcs ++ [Rpc.getProps "/" true] ++ [Rpc.listDir (w.dirId "/")] }
        [w.dirId "/"].length [w.dirId "/"] := by
  simp only [fullRemoteIndex, fetchDirId, List.length_singleton]
  rfl

/-- C21: the counter of `fullRemoteIndex`.  The loop is entered with counter 1
and one outstanding request, `listDir` of the root.  A `listDirComplete`
answer handled with a positive counter issues one `listDir` request per
directory that is neither in the trash nor special, and leaves the counter at
its old value plus the number of these requests minus one; an `errorRaised`
answer leaves it at its old value minus one; both leave the loop exactly when
the new counter is zero.  So whenever the loop waits with its counter equal to
the number of outstanding requests, it waits again after the next answer with
the counter equal to the number of outstanding requests, and it is left
exactly when none is outstanding: the loop of the source is the loop that
tests the outstanding requests themselves.  No decrement happens at counter
zero.  The `uint` counter cannot count `2^32` or more requests: the facts are
stated for fewer. -/
theorem C21_counter_is_outstanding (w : World) :
    (∀ fuel s, fullRemoteIndex fuel w s =
      fullRemoteIndexLoop w fuel
        { s with nextObject := s.nextObject + 1 + 1,
                 rpcs := s.rpcs ++ [Rpc.getProps "/" true] ++ [Rpc.listDir (w.dirId "/")] }
        [w.dirId "/"].length [w.dirId "/"]) ∧
    (∀ s c reply, 1 ≤ c → c + (reply.dirs.filter SafeDir.isListed).length < 4294967296 →
      (listDirComplete s c reply).1.rpcs =
        s.rpcs ++ (reply.dirs.filter SafeDir.isListed).map (fun d => Rpc.listDir d.id) ∧
      (listDirComplete s c reply).2.1 =
        c + (reply.dirs.filter SafeDir.isListed).length - 1 ∧
      (listDirComplete s c reply).2.2.2 = decide ((listDirComplete s c reply).2.1 = 0)) ∧
    (∀ c, 1 ≤ c → c < 4294967296 → listDirError c = (c - 1, decide (c - 1 = 0))) ∧
    (∀ fuel s id rest reply, w.listDir id = some reply →
      rest.length + 1 + (reply.dirs.filter SafeDir.isListed).length < 4294967296 →
      fullRemoteIndexLoop w (fuel + 1) s (id :: rest).length (id :: rest) =
        if (rest ++ (reply.dirs.filter SafeDir.isListed).map (fun d => d.id)).length = 0 then
          some (listDirComplete s (id :: rest).length reply).1
        else
          fullRemoteIndexLoop w fuel (listDirComplete s (id :: rest).length reply).1
            (rest ++ (reply.dirs.filter SafeDir.isListed).map (fun d => d.id)).length
            (rest ++ (reply.dirs.filter SafeDir.isListed).map (fun d => d.id))) ∧
    (∀ fuel s id rest, w.listDir id = none → rest.length + 1 < 4294967296 →
      fullRemoteIndexLoop w (fuel + 1) s (id :: rest).length (id :: rest) =
        if rest.length = 0 then some s else fullRemoteIndexLoop w fuel s rest.length rest) ∧
    (∀ bound, (∀ id reply, w.listDir id = some reply →
        (reply.dirs.filter SafeDir.isListed).length ≤ bound) →
      ∀ fuel s outstanding, outstanding.length + fuel * bound < 4294967296 →
        fullRemoteIndexLoop w fuel s outstanding.length outstanding =
          remoteIndexByOutstanding w fuel s outstanding) := by
  refine ⟨fun fuel s => fullRemoteIndex_start fuel w s, ?_,
    fun c h1 h2 => listDirError_counter c h1 h2,
    fun fuel s id rest reply hl hb => fullRemoteIndexLoop_complete w fuel s id rest reply hl hb,
    fun fuel s id rest hl hb => fullRemoteIndexLoop_error w fuel s id rest hl hb,
    fun bound hbound fuel s outstanding hb =>
      fullRemoteIndexLoop_eq_byOutstanding w bound hbound fuel s outstanding hb⟩
  intro s c reply hpos hb
  obtain ⟨h1, _, h3, _⟩ := listDirComplete_counter s c reply hpos hb
  exact ⟨listDirComplete_rpcs s c reply, h1, by rw [h3, h1]⟩

set_option maxRecDepth 100000 in
/-- C21 at work on the sample remote service, whose root lists the directory
`a` and the trash, and whose directory `a` lists one file: the index is
complete after two answers, and the loop of the source agrees with the loop
that tests the outstanding requests. -/
theorem C21_counter_is_outstanding_witness :
    (fullRemoteIndex 5 World.sample SafeDaemon.sample).isSome = true ∧
    fullRemoteIndex 5 World.sample SafeDaemon.sample =
      remoteIndexByOutstanding World.sample 5
        { SafeDaemon.sample with
          nextObject := SafeDaemon.sample.nextObject + 1 + 1,
          rpcs := SafeDaemon.sample.rpcs ++ [Rpc.getProps "/" true] ++
            [Rpc.listDir (World.sample.dirId "/")] }
        [World.sample.dirId "/"] := by
  have hbound : ∀ id reply, World.sample.listDir id = some reply →
      (reply.dirs.filter SafeDir.isListed).length ≤ 1 := by
    intro id reply h
    by_cases h1 : id = "227930033757"
    · subst h1
      have h2 : World.sample.listDir "227930033757" =
          some ⟨[⟨"7", "a", 10, false, ""⟩, ⟨"227931033757", "Trash", 1, true, ""⟩], [],
            "/", "227930033757"⟩ := by decide
      rw [h2] at h
      cases h
      decide
    · by_cases h3 : id = "7"
      · subst h3
        have h2 : World.sample.listDir "7" =
            some ⟨[], [⟨"42", "b.txt", 10, "900150983cd24fb0d6963f7d28e17f72", false⟩],
              "/a/", "7"⟩ := by decide
        rw [h2] at h
        cases h
        decide
      · simp [World.sample, h1, h3] at h
  refine ⟨by decide, ?_⟩
  rw [(C21_counter_is_outstanding World.sample).1 5 SafeDaemon.sample]
  exact (C21_counter_is_outstanding World.sample).2.2.2.2.2 1 hbound 5 _ _ (by decide)

end SafeDaemon

/-! ## Facts about paths used for C22 -/

namespace Path

theorem pieces_no_slash (e : List Char) (h : '/' ∉ e) : pieces e = [e] := by
  induction e with
  | nil => rfl
  | cons c cs ih =>
    have hc : c ≠ '/' := fun hh => h (by simp [hh])
    have hcs : '/' ∉ cs := fun hh => h (List.mem_cons_of_mem _ hh)
    simp only [pieces, hc, if_false, ih hcs]

theorem elements_name (e : List Char) (hne : e ≠ []) (h : '/' ∉ e) : elements e = [e] := by
  unfold elements
  rw [pieces_no_slash e h]
  cases e with
  | nil => exact absurd rfl hne
  | cons c cs => simp

theorem join_cons_cons (e e2 : List Char) (rest : List (List Char)) :
    join (e :: e2 :: rest) = e ++ '/' :: join (e2 :: rest) := rfl

theorem join_snoc (init : List (List Char)) (last : List Char) (h : init ≠ []) :
    join (init ++ [last]) = join init ++ '/' :: last := by
  induction init with
  | nil => exact absurd rfl h
  | cons e rest ih =>
    cases rest with
    | nil => rfl
    | cons e2 rest2 =>
      have := ih (by simp)
      simp only [List.cons_append] at this ⊢
      rw [join_cons_cons, this, join_cons_cons]
      simp

theorem elements_join (names : List (List Char))
    (h : ∀ e ∈ names, e ≠ [] ∧ '/' ∉ e) : elements (join names) = names := by
  induction names with
  | nil => rfl
  | cons e rest ih =>
    have he := h e (List.mem_cons_self _ _)
    have hrest : ∀ x ∈ rest, x ≠ [] ∧ '/' ∉ x := fun x hx => h x (List.mem_cons_of_mem _ hx)
    cases rest with
    | nil => exact elements_name e he.1 he.2
    | cons e2 rest2 =>
      rw [join_cons_cons, elements_append_slash, elements_name e he.1 he.2, ih hrest]
      rfl

theorem elements_slash_join (names : List (List Char))
    (h : ∀ e ∈ names, e ≠ [] ∧ '/' ∉ e) : elements ('/' :: join names) = names := by
  have := elements_append_slash [] (join names)
  simp only [List.nil_append] at this
  rw [this, elements_join names h]
  rfl

theorem pieces_mem_no_slash (s : List Char) : ∀ e ∈ pieces s, '/' ∉ e := by
  induction s with
  | nil => simp [pieces]
  | cons c cs ih =>
    unfold pieces
    by_cases hc : c = '/'
    · simp only [hc, if_true]
      intro e he
      rcases List.mem_cons.1 he with h | h
      · subst h; simp
      · exact ih e h
    · simp only [hc, if_false]
      cases hp : pieces cs with
      | nil => exact absurd hp (pieces_ne_nil cs)
      | cons x xs =>
        simp only
        intro e he
        rcases List.mem_cons.1 he with h | h
        · subst h
          have hx := ih x (by rw [hp]; exact List.mem_cons_self _ _)
          intro hmem
          rcases List.mem_cons.1 hmem with h2 | h2
          · exact hc h2.symm
          · exact hx h2
        · exact ih e (by rw [hp]; exact List.mem_cons_of_mem _ h)

theorem elements_mem (s : List Char) : ∀ e ∈ elements s, e ≠ [] ∧ '/' ∉ e := by
  intro e he
  unfold elements at he
  rw [List.mem_filter] at he
  refine ⟨?_, pieces_mem_no_slash s e he.1⟩
  intro hnil
  simp [hnil] at he

theorem mem_normalize (absolute : Bool) (xs acc : List (List Char)) (e : List Char)
    (h : e ∈ normalize absolute acc xs) : e ∈ acc ∨ e ∈ xs := by
  induction xs generalizing acc with
  | nil =>
    simp only [normalize, List.mem_reverse] at h
    exact Or.inl h
  | cons x rest ih =>
    simp only [normalize] at h
    by_cases h1 : x = ['.']
    · simp only [h1, if_true] at h
      rcases ih acc h with hh | hh
      · exact Or.inl hh
      · exact Or.inr (List.mem_cons_of_mem _ hh)
    · simp only [h1, if_false] at h
      by_cases h2 : x = ['.', '.']
      · simp only [h2, if_true] at h
        cases acc with
        | nil =>
          simp only at h
          cases absolute with
          | true =>
            simp only [if_true] at h
            rcases ih [] h with hh | hh
            · exact Or.inl hh
            · exact Or.inr (List.mem_cons_of_mem _ hh)
          | false =>
            simp only [Bool.false_eq_true, if_false] at h
            rcases ih _ h with hh | hh
            · rcases List.mem_singleton.1 hh with h3
              exact Or.inr (by rw [h3, h2]; exact List.mem_cons_self _ _)
            · exact Or.inr (List.mem_cons_of_mem _ hh)
        | cons top below =>
          simp only at h
          by_cases h3 : top = ['.', '.']
          · simp only [h3, if_true] at h
            rcases ih _ h with hh | hh
            · rcases List.mem_cons.1 hh with h4 | h4
              · exact Or.inr (by rw [h4, h2]; exact List.mem_cons_self _ _)
              · exact Or.inl (by rw [h3]; exact h4)
            · exact Or.inr (List.mem_cons_of_mem _ hh)
          · simp only [h3, if_false] at h
            rcases ih _ h with hh | hh
            · exact Or.inl (List.mem_cons_of_mem _ hh)
            · exact Or.inr (List.mem_cons_of_mem _ hh)
      · simp only [h2, if_false] at h
        rcases ih _ h with hh | hh
        · rcases List.mem_cons.1 hh with h4 | h4
          · exact Or.inr (by rw [h4]; exact List.mem_cons_self _ _)
          · exact Or.inl h4
        · exact Or.inr (List.mem_cons_of_mem _ hh)

theorem resolved_mem (s : String) : ∀ e ∈ resolved s, e ≠ [] ∧ '/' ∉ e := by
  intro e he
  unfold resolved at he
  rcases mem_normalize _ _ _ e he with h | h
  · exact absurd h (List.not_mem_nil e)
  · exact elements_mem _ e h

theorem cleanPath_absolute (s : String) (h : isAbsolute s.data = true) :
    cleanPath s = String.mk ('/' :: join (resolved s)) := by
  unfold cleanPath resolved
  simp only [h, if_true]

theorem elements_cleanPath (s : String) (h : isAbsolute s.data = true) :
    elements (cleanPath s).data = resolved s := by
  rw [cleanPath_absolute s h]
  exact elements_slash_join _ (resolved_mem s)

theorem isAbsolute_cleanPath (s : String) (h : isAbsolute s.data = true) :
    isAbsolute (cleanPath s).data = true := by
  rw [cleanPath_absolute s h]
  rfl

theorem dropCommon_prefix (r ext : List (List Char)) : dropCommon r (r ++ ext) = ([], ext) := by
  induction r with
  | nil => cases ext <;> rfl
  | cons e rest ih => simp [dropCommon, ih]

theorem relativeFilePath_below (dir file : String) (ext : List (List Char))
    (hd : isAbsolute dir.data = true) (hf : isAbsolute file.data = true)
    (hres : resolved file = resolved dir ++ ext) :
    relativeFilePath dir file = String.mk (join ext) := by
  unfold relativeFilePath
  simp only [isAbsolute_cleanPath dir hd, isAbsolute_cleanPath file hf, Bool.not_true,
    Bool.or_self, Bool.false_eq_true, if_false, elements_cleanPath dir hd,
    elements_cleanPath file hf, hres, dropCommon_prefix]
  rfl

theorem splitLast_append_slash (x last : List Char) (h : '/' ∉ last) :
    splitLast (x ++ '/' :: last) = (some x, last) := by
  have hlast : splitLast last = (none, last) := by
    induction last with
    | nil => rfl
    | cons c cs ih =>
      have hc : c ≠ '/' := fun hh => h (by simp [hh])
      have hcs : '/' ∉ cs := fun hh => h (List.mem_cons_of_mem _ hh)
      simp only [splitLast, ih hcs, hc, if_false]
  induction x with
  | nil => simp only [List.nil_append, splitLast, hlast, if_true]
  | cons c cs ih => simp only [List.cons_append, splitLast, List.append_eq, ih]


theorem isAbsolute_qdirPath (s : String) : isAbsolute (qdirPath s).data = isAbsolute s.data := by
  unfold qdirPath
  by_cases h : s.data.getLast? = some '/' ∧ 1 < s.data.length
  · simp only [h, and_self, if_true]
    obtain ⟨_, hlen⟩ := h
    cases hd : s.data with
    | nil => rfl
    | cons c cs =>
      cases cs with
      | nil => simp [hd] at hlen
      | cons c2 cs2 => simp [isAbsolute, List.dropLast]
  · simp only [h, if_false]

theorem isName_iff (e : List Char) :
    isName e = true ↔ e ≠ [] ∧ '/' ∉ e ∧ e ≠ ['.'] ∧ e ≠ ['.', '.'] := by
  unfold isName
  simp

theorem join_ne_nil (names : List (List Char)) (hne : names ≠ [])
    (h : ∀ e ∈ names, e ≠ []) : join names ≠ [] := by
  cases names with
  | nil => exact absurd rfl hne
  | cons e rest =>
    have he := h e (List.mem_cons_self _ _)
    cases rest with
    | nil => exact he
    | cons e2 rest2 =>
      rw [join_cons_cons]
      cases e with
      | nil => exact absurd rfl he
      | cons c cs => simp

theorem isPlain_ofNames (names : List (List Char)) (hne : names ≠ [])
    (h : ∀ e ∈ names, isName e = true) : isPlain (ofNames names) = true := by
  have hel : elements (ofNames names).data = names :=
    elements_join names (fun e he => ⟨((isName_iff e).1 (h e he)).1, ((isName_iff e).1 (h e he)).2.1⟩)
  unfold isPlain
  rw [hel]
  simp only [Bool.and_eq_true, Bool.not_eq_true', List.all_eq_true, decide_eq_true_eq]
  refine ⟨?_, fun e he => ?_⟩
  · cases names with
    | nil => exact absurd rfl hne
    | cons a b => rfl
  · have := (isName_iff e).1 (h e he)
    simp [this.2.2.1, this.2.2.2]

end Path

namespace SafeDaemon

/-! ## The walk and the creation loop of `prepareTree` -/

theorem qfileinfo_path_child (x last : List Char) (hx : x ≠ []) (hl : '/' ∉ last) :
    QFileInfo.path ⟨String.mk (x ++ '/' :: last)⟩ = String.mk x := by
  unfold QFileInfo.path
  cases x with
  | nil => exact absurd rfl hx
  | cons c cs =>
    simp only [Path.splitLast_append_slash (c :: cs) last hl]

theorem relativeFilePath_of_below (w : World) (s : SafeDaemon) (file : String)
    (ext : List (List Char))
    (habs : Path.isAbsolute (getFilesystemPath w s).data = true)
    (hf : Path.isAbsolute file.data = true)
    (hres : Path.resolved file = Path.resolved (getFilesystemPath w s) ++ ext) :
    Path.relativeFilePath (getFilesystemPath w s) file = Path.ofNames ext ∧
    Path.relativeFilePath (getFilesystemPath w s) (Path.qdirPath file) = Path.ofNames ext :=
  ⟨Path.relativeFilePath_below _ _ ext habs hf hres,
    Path.relativeFilePath_below _ _ ext habs
      (by rw [Path.isAbsolute_qdirPath]; exact hf)
      (by rw [Path.resolved_qdirPath]; exact hres)⟩

theorem relativePath_child (w : World) (s : SafeDaemon) (init : List (List Char))
    (last : List Char)
    (habs : Path.isAbsolute (getFilesystemPath w s).data = true)
    (hinit : ∀ e ∈ init, Path.isName e = true) (hlast : '/' ∉ last) :
    relativePath w s ⟨getFilesystemPath w s ++ "/" ++ Path.ofNames (init ++ [last])⟩ =
      if init = [] then "/" else Path.ofNames init := by
  have hfsne : (getFilesystemPath w s).data ≠ [] := by
    intro h
    rw [h] at habs
    simp [Path.isAbsolute] at habs
  by_cases hi : init = []
  · subst hi
    have hp : (getFilesystemPath w s ++ "/" ++ Path.ofNames ([] ++ [last])) =
        String.mk ((getFilesystemPath w s).data ++ '/' :: last) := by
      apply String.ext
      rw [Path.data_append_slash]
      rfl
    have hpath : QFileInfo.path ⟨getFilesystemPath w s ++ "/" ++ Path.ofNames ([] ++ [last])⟩ =
        getFilesystemPath w s := by
      rw [hp, qfileinfo_path_child _ _ hfsne hlast]
    obtain ⟨h1, h2⟩ := relativeFilePath_of_below w s (getFilesystemPath w s) [] habs habs
      (by simp)
    unfold relativePath
    simp only [QFileInfo.dirPath, hpath, h1, h2, if_true]
    have : Path.ofNames [] = "" := rfl
    simp [this]
  · have hp : (getFilesystemPath w s ++ "/" ++ Path.ofNames (init ++ [last])) =
        String.mk (((getFilesystemPath w s).data ++ '/' :: Path.join init) ++ '/' :: last) := by
      apply String.ext
      rw [Path.data_append_slash]
      show (getFilesystemPath w s).data ++ '/' :: Path.join (init ++ [last]) = _
      rw [Path.join_snoc init last hi]
      simp
    have hx : String.mk ((getFilesystemPath w s).data ++ '/' :: Path.join init) =
        getFilesystemPath w s ++ "/" ++ Path.ofNames init := by
      apply String.ext
      rw [Path.data_append_slash]
      rfl
    have hpath : QFileInfo.path ⟨getFilesystemPath w s ++ "/" ++ Path.ofNames (init ++ [last])⟩ =
        getFilesystemPath w s ++ "/" ++ Path.ofNames init := by
      rw [hp, qfileinfo_path_child _ _ (by simp) hlast, hx]
    have hplain := Path.isPlain_ofNames init hi hinit
    have hel : Path.elements (Path.ofNames init).data = init :=
      Path.elements_join init (fun e he =>
        ⟨((Path.isName_iff e).1 (hinit e he)).1, ((Path.isName_iff e).1 (hinit e he)).2.1⟩)
    have hres := (Path.resolved_append_plain (getFilesystemPath w s) (Path.ofNames init) habs
      hplain).1
    rw [hel] at hres
    have hfabs : Path.isAbsolute (getFilesystemPath w s ++ "/" ++ Path.ofNames init).data =
        true := by
      rw [Path.data_append_slash]
      cases hd : (getFilesystemPath w s).data with
      | nil => exact absurd hd hfsne
      | cons c cs =>
        rw [hd] at habs
        simpa [Path.isAbsolute] using habs
    obtain ⟨h1, h2⟩ := relativeFilePath_of_below w s _ init habs hfabs hres
    unfold relativePath
    simp only [QFileInfo.dirPath, hpath, h1, h2, if_true, hi, if_false]
    have hne : Path.ofNames init ≠ "" := by
      intro h
      have := congrArg String.data h
      exact Path.join_ne_nil init hi
        (fun e he => ((Path.isName_iff e).1 (hinit e he)).1) this
    simp [hne]

theorem levels_snoc (base ext : List (List Char)) (last : List Char) :
    Path.levels base (ext ++ [last]) =
      Path.levels base ext ++ [Path.ofNames (base ++ ext ++ [last])] := by
  induction ext generalizing base with
  | nil => simp [Path.levels]
  | cons e rest ih =>
    simp only [List.cons_append, Path.levels, List.append_eq, ih, List.append_assoc,
      List.singleton_append, List.nil_append]

theorem length_le_qlength (s : String) : s.data.length ≤ QString.length s := by
  unfold QString.length
  induction s.data with
  | nil => simp
  | cons c cs ih =>
    simp only [List.length_cons, List.map_cons, List.sum_cons]
    split <;> omega

theorem ofNames_length (names : List (List Char)) (h : ∀ e ∈ names, e ≠ [])
    (h2 : 2 ≤ names.length) : 1 < (Path.ofNames names).length := by
  cases names with
  | nil => simp at h2
  | cons e rest =>
    cases rest with
    | nil => simp at h2
    | cons e2 rest2 =>
      have he := h e (List.mem_cons_self _ _)
      show 1 < (Path.join (e :: e2 :: rest2)).length
      rw [Path.join_cons_cons]
      cases e with
      | nil => exact absurd rfl he
      | cons c cs =>
        simp only [List.cons_append, List.length_cons, List.length_append]
        omega

theorem ofNames_injective (a b : List (List Char)) (ha : ∀ e ∈ a, Path.isName e = true)
    (hb : ∀ e ∈ b, Path.isName e = true) (h : Path.ofNames a = Path.ofNames b) : a = b := by
  have h1 := Path.elements_join a (fun e he =>
    ⟨((Path.isName_iff e).1 (ha e he)).1, ((Path.isName_iff e).1 (ha e he)).2.1⟩)
  have h2 := Path.elements_join b (fun e he =>
    ⟨((Path.isName_iff e).1 (hb e he)).1, ((Path.isName_iff e).1 (hb e he)).2.1⟩)
  have h3 : Path.join a = Path.join b := congrArg String.data h
  rw [← h1, ← h2, h3]

theorem prepareTreeWalk_levels (w : World) (s : SafeDaemon) (base ext : List (List Char))
    (habs : Path.isAbsolute (getFilesystemPath w s).data = true)
    (hbase : ∀ e ∈ base, Path.isName e = true) (hext : ∀ e ∈ ext, Path.isName e = true)
    (htop : base = [] → ∀ e, ext.head? = some e → 2 ≤ QString.length (String.mk e))
    (extra : Nat) (stack : List String) :
    prepareTreeWalk w s (Path.ofNamesOrRoot base) (ext.length + 1 + extra)
      (Path.ofNamesOrRoot (base ++ ext)) stack = some (Path.levels base ext ++ stack) := by
  induction ext using List.reverseRecOn generalizing stack with
  | nil =>
    have hfuel : 0 + 1 + extra = extra + 1 := by omega
    simp only [List.length_nil, hfuel, List.append_nil, prepareTreeWalk, ne_eq, not_true,
      false_and, if_false, Path.levels, List.nil_append]
  | append_singleton ext0 last ih =>
    have hext0 : ∀ e ∈ ext0, Path.isName e = true :=
      fun e he => hext e (List.mem_append_left _ he)
    have hlastn : Path.isName last = true := hext last (by simp)
    have hall : ∀ e ∈ base ++ (ext0 ++ [last]), Path.isName e = true := by
      intro e he
      rcases List.mem_append.1 he with h | h
      · exact hbase e h
      · exact hext e h
    have htop0 : base = [] → ∀ e, ext0.head? = some e → 2 ≤ QString.length (String.mk e) := by
      intro hb e he
      apply htop hb e
      cases ext0 with
      | nil => simp at he
      | cons a r => simpa using he
    have hne : base ++ (ext0 ++ [last]) ≠ [] := by simp
    have hrel : Path.ofNamesOrRoot (base ++ (ext0 ++ [last])) =
        Path.ofNames (base ++ (ext0 ++ [last])) := by
      unfold Path.ofNamesOrRoot
      simp
    have hlen : 1 < QString.length (Path.ofNames (base ++ (ext0 ++ [last]))) := by
      by_cases h2 : 2 ≤ (base ++ (ext0 ++ [last])).length
      · exact Nat.lt_of_lt_of_le
          (ofNames_length _ (fun e he => ((Path.isName_iff e).1 (hall e he)).1) h2)
          (length_le_qlength _)
      · have hb : base = [] := by
          cases base with
          | nil => rfl
          | cons a r =>
            simp only [List.cons_append, List.length_cons, List.length_append,
              List.length_singleton] at h2
            omega
        have h0 : ext0 = [] := by
          cases ext0 with
          | nil => rfl
          | cons a r =>
            simp only [List.cons_append, List.length_cons, List.length_append,
              List.length_singleton] at h2
            omega
        subst hb
        subst h0
        have := htop rfl last (by simp)
        show 1 < QString.length (String.mk (Path.join ([] ++ ([] ++ [last]))))
        simp only [List.nil_append, Path.join]
        omega
    have hneq : Path.ofNames (base ++ (ext0 ++ [last])) ≠ Path.ofNamesOrRoot base := by
      unfold Path.ofNamesOrRoot
      by_cases hb : base = []
      · simp only [hb, if_true, List.nil_append]
        intro h
        rw [hb, List.nil_append, h] at hlen
        exact absurd hlen (by decide)
      · simp only [hb, if_false]
        intro h
        have := ofNames_injective _ _ hall hbase h
        have hl := congrArg List.length this
        simp only [List.length_append, List.length_singleton] at hl
        omega
    have hfuel : (ext0 ++ [last]).length + 1 + extra = (ext0.length + 1 + extra) + 1 := by
      simp only [List.length_append, List.length_singleton]
      omega
    have hnext : relativePath w s
        ⟨getFilesystemPath w s ++ "/" ++ Path.ofNames (base ++ (ext0 ++ [last]))⟩ =
        Path.ofNamesOrRoot (base ++ ext0) := by
      have := relativePath_child w s (base ++ ext0) last habs
        (fun e he => by
          rcases List.mem_append.1 he with h | h
          · exact hbase e h
          · exact hext0 e h)
        ((Path.isName_iff last).1 hlastn).2.1
      rw [List.append_assoc] at this
      exact this
    rw [hrel, hfuel]
    simp only [prepareTreeWalk, ne_eq, hneq, not_false_eq_true, hlen, and_self, if_true, hnext]
    rw [ih hext0 htop0, levels_snoc, List.append_assoc, List.append_assoc]
    rfl

theorem qdirPath_child (x e : List Char) (hne : e ≠ []) (hs : '/' ∉ e) :
    Path.qdirPath (String.mk (x ++ '/' :: e)) = String.mk (x ++ '/' :: e) := by
  unfold Path.qdirPath
  have hlast : (x ++ '/' :: e).getLast? ≠ some '/' := by
    have hsplit : x ++ '/' :: e = (x ++ ['/']) ++ e := by simp
    rw [hsplit, List.getLast?_append_of_ne_nil _ hne]
    intro h
    exact hs (List.mem_of_getLast?_eq_some h)
  simp only [hlast, false_and, if_false]

theorem fileName_child (x e : List Char) (hne : e ≠ []) (hs : '/' ∉ e) :
    QFileInfo.fileName ⟨Path.qdirPath (String.mk (x ++ '/' :: e))⟩ = String.mk e := by
  rw [qdirPath_child x e hne hs]
  unfold QFileInfo.fileName
  simp only [Path.splitLast_append_slash x e hs]

theorem child_path_data (fs : String) (base : List (List Char)) (e : List Char) :
    ∃ x, fs ++ "/" ++ Path.ofNames (base ++ [e]) = String.mk (x ++ '/' :: e) := by
  by_cases hb : base = []
  · refine ⟨fs.data, ?_⟩
    apply String.ext
    rw [Path.data_append_slash, hb]
    rfl
  · refine ⟨fs.data ++ '/' :: Path.join base, ?_⟩
    apply String.ext
    rw [Path.data_append_slash]
    show fs.data ++ '/' :: Path.join (base ++ [e]) = _
    rw [Path.join_snoc base e hb]
    simp

theorem treeRequests_congr (w : World) (s s2 : SafeDaemon)
    (h : s2.remoteStateDb = s.remoteStateDb) (base ext : List (List Char)) :
    treeRequests w s2 base ext = treeRequests w s base ext := by
  induction ext generalizing base with
  | nil => rfl
  | cons e rest ih => simp only [treeRequests, h, ih]

theorem prepareTreeCreate_levels (w : World) (ext : List (List Char)) (base : List (List Char))
    (s : SafeDaemon) (habs : Path.isAbsolute (getFilesystemPath w s).data = true)
    (hbase : ∀ e ∈ base, Path.isName e = true) (hext : ∀ e ∈ ext, Path.isName e = true) :
    prepareTreeCreate w s (Path.levels base ext) =
      { s with nextObject := s.nextObject + (treeRequests w s base ext).length,
               rpcs := s.rpcs ++ treeRequests w s base ext } := by
  induction ext generalizing base s with
  | nil => simp [Path.levels, prepareTreeCreate, treeRequests]
  | cons e rest ih =>
    have he := (Path.isName_iff e).1 (hext e (List.mem_cons_self _ _))
    have hrest : ∀ x ∈ rest, Path.isName x = true :=
      fun x hx => hext x (List.mem_cons_of_mem _ hx)
    have hbase2 : ∀ x ∈ base ++ [e], Path.isName x = true := by
      intro x hx
      rcases List.mem_append.1 hx with h | h
      · exact hbase x h
      · rw [List.mem_singleton.1 h]; exact hext e (List.mem_cons_self _ _)
    have hparent : relativePath w s
        ⟨getFilesystemPath w s ++ "/" ++ Path.ofNames (base ++ [e])⟩ =
        Path.ofNamesOrRoot base := relativePath_child w s base e habs hbase he.2.1
    obtain ⟨x, hx⟩ := child_path_data (getFilesystemPath w s) base e
    have hname : QFileInfo.fileName ⟨Path.qdirPath
        (getFilesystemPath w s ++ "/" ++ Path.ofNames (base ++ [e]))⟩ = String.mk e := by
      rw [hx]
      exact fileName_child x e he.1 he.2.1
    simp only [Path.levels, prepareTreeCreate, treeRequests]
    by_cases hex : s.remoteStateDb.existsDir (Path.ofNames (base ++ [e])) = true
    · simp only [hex, Bool.not_true, Bool.false_eq_true, if_false, if_true, List.nil_append]
      exact ih (base ++ [e]) s habs hbase2 hrest
    · simp only [hex, Bool.not_false, if_true, Bool.false_eq_true, if_false]
      rw [ih (base ++ [e]) _ (by exact habs) hbase2 hrest]
      simp only [createDir, fetchDirId, hparent, hname]
      rw [treeRequests_congr w s
        { s with nextObject := s.nextObject + 1 + 1,
                 rpcs := s.rpcs ++ [Rpc.getProps (Path.ofNamesOrRoot base) true] ++
                   [Rpc.makeDir (w.dirId (Path.ofNamesOrRoot base)) (String.mk e)] }
        rfl (base ++ [e]) rest]
      simp only [List.length_append, List.length_cons, List.length_nil, List.append_assoc,
        List.cons_append, List.nil_append]
      congr 1
      omega

end SafeDaemon

namespace SafeDaemon

/-! ## C22: `prepareTree` -/

/-- C22: what `prepareTree` does.  First part: when the directory that holds
the file has a relative path whose `length()` is at most one (a single
character of the Basic Multilingual Plane), `prepareTree` returns the daemon
as it was; the first loop takes every path of length one for the top of the
tree and pushes nothing, so no `makeDir` is issued whether or not the remote
store knows the directory.  Second part: for a file below the
(absolute) sync root whose directories are plain names, `base` followed by
`ext`, and the root argument that stands for `base`, `prepareTree` returns
when given at least one round of fuel per name of `ext` and one more, and
what it does is exactly to issue, parents first, a `getProps` and a `makeDir`
request for every directory from just below `base` down to the directory of
the file that the remote store does not have, provided that, when `base` is
the sync root, the first name of `ext` has a `length()` of at least two. -/
theorem C22_prepareTree (w : World) (s : SafeDaemon) :
    (∀ (fuel : Nat) (info : QFileInfo) (root : String),
      QString.length (relativePath w s info) ≤ 1 →
        prepareTree (fuel + 1) w s info root = some s) ∧
    (∀ (base ext : List (List Char)) (file : List Char) (extra : Nat),
      Path.isAbsolute (getFilesystemPath w s).data = true →
      (∀ e ∈ base, Path.isName e = true) → (∀ e ∈ ext, Path.isName e = true) →
      '/' ∉ file →
      (base = [] → ∀ e, ext.head? = some e → 2 ≤ QString.length (String.mk e)) →
      prepareTree (ext.length + 1 + extra) w s
          ⟨getFilesystemPath w s ++ "/" ++ Path.ofNames (base ++ ext ++ [file])⟩
          (Path.ofNamesOrRoot base) =
        some { s with nextObject := s.nextObject + (treeRequests w s base ext).length,
                      rpcs := s.rpcs ++ treeRequests w s base ext }) := by
  constructor
  · intro fuel info root h
    have hc : ¬ (relativePath w s info ≠ root ∧ 1 < QString.length (relativePath w s info)) :=
      fun hh => absurd hh.2 (by omega)
    simp only [prepareTree, prepareTreeWalk, hc, if_false, prepareTreeCreate]
  · intro base ext file extra habs hbase hext hfile htop
    have hrel : relativePath w s
        ⟨getFilesystemPath w s ++ "/" ++ Path.ofNames (base ++ ext ++ [file])⟩ =
        Path.ofNamesOrRoot (base ++ ext) :=
      relativePath_child w s (base ++ ext) file habs
        (fun e he => by
          rcases List.mem_append.1 he with h | h
          · exact hbase e h
          · exact hext e h)
        hfile
    unfold prepareTree
    rw [hrel, prepareTreeWalk_levels w s base ext habs hbase hext htop extra []]
    simp only [List.append_nil]
    rw [prepareTreeCreate_levels w ext base s habs hbase hext]

set_option maxRecDepth 100000 in
/-- C22 at work on the sample disk with an empty remote store.  For the file
`a/c.txt` the directory `a` is absent from the remote store, yet nothing is
requested.  For the file `docs/sub/c.txt` the directories `docs` and then
`docs/sub` are created. -/
theorem C22_prepareTree_witness :
    relativePath World.sample { SafeDaemon.sample with remoteStateDb := SafeStateDb.empty }
      ⟨"/home/u/2safe/a/c.txt"⟩ = "a" ∧
    SafeStateDb.empty.existsDir "a" = false ∧
    prepareTree 5 World.sample { SafeDaemon.sample with remoteStateDb := SafeStateDb.empty }
      ⟨"/home/u/2safe/a/c.txt"⟩ "/" =
      some { SafeDaemon.sample with remoteStateDb := SafeStateDb.empty } ∧
    (prepareTree 5 World.sample { SafeDaemon.sample with remoteStateDb := SafeStateDb.empty }
      ⟨"/home/u/2safe/docs/sub/c.txt"⟩ "/").map (fun s => s.rpcs) =
      some [Rpc.getProps "/" true, Rpc.makeDir "227930033757" "docs",
        Rpc.getProps "docs" true, Rpc.makeDir "7" "sub"] := by
  refine ⟨by decide, by decide, ?_, ?_⟩
  · exact (C22_prepareTree World.sample
      { SafeDaemon.sample with remoteStateDb := SafeStateDb.empty }).1 4
      ⟨"/home/u/2safe/a/c.txt"⟩ "/" (by decide)
  · have h := (C22_prepareTree World.sample
      { SafeDaemon.sample with remoteStateDb := SafeStateDb.empty }).2
      [] ["docs".data, "sub".data] "c.txt".data 2 (by decide) (by decide) (by decide) (by decide)
      (fun _ e he => by
        have : e = "docs".data := by simpa using he.symm
        rw [this]
        decide)
    have hp : (getFilesystemPath World.sample
        { SafeDaemon.sample with remoteStateDb := SafeStateDb.empty } ++ "/" ++
        Path.ofNames ([] ++ ["docs".data, "sub".data] ++ ["c.txt".data])) =
        "/home/u/2safe/docs/sub/c.txt" := by decide
    have hr : Path.ofNamesOrRoot [] = "/" := by decide
    have hq : treeRequests World.sample
        { SafeDaemon.sample with remoteStateDb := SafeStateDb.empty } []
        ["docs".data, "sub".data] =
        [Rpc.getProps "/" true, Rpc.makeDir "227930033757" "docs",
          Rpc.getProps "docs" true, Rpc.makeDir "7" "sub"] := by decide
    rw [hp, hr, hq] at h
    have h5 : ["docs".data, "sub".data].length + 1 + 2 = 5 := by decide
    rw [h5] at h
    rw [h]
    rfl

/-! ## Indexing leaves the online flag, the watchers and the factory alone -/

theorem core_session (s : SafeDaemon) : session s.core = session s := rfl

theorem session_enqueue (s : SafeDaemon) (slot : Slot) : session (s.enqueue slot) = session s := by
  have h := congrArg SafeDaemon.session (enqueue_core s slot)
  rwa [core_session, core_session] at h

theorem session_prepareTreeCreate (w : World) (stack : List String) (s : SafeDaemon) :
    session (prepareTreeCreate w s stack) = session s := by
  induction stack generalizing s with
  | nil => rfl
  | cons relative rest ih =>
    unfold prepareTreeCreate
    simp only
    split
    · exact (ih _).trans rfl
    · exact ih s

theorem session_prepareTree (fuel : Nat) (w : World) (s s' : SafeDaemon) (info : QFileInfo)
    (root : String) (h : prepareTree fuel w s info root = some s') : session s' = session s := by
  unfold prepareTree at h
  split at h
  · cases h
    exact session_prepareTreeCreate w _ s
  · cases h

theorem session_fileAddedWith (index : SafeDaemon → String → Option SafeDaemon)
    (hindex : ∀ s p s', index s p = some s' → session s' = session s) (w : World)
    (s : SafeDaemon) (path : String) (isDir : Bool) (s' : SafeDaemon)
    (h : fileAddedWith index w s path isDir = some s') : session s' = session s := by
  cases isDir with
  | false =>
    simp only [fileAddedWith, Bool.false_eq_true, if_false] at h
    split at h
    · cases h; rfl
    · split at h
      · cases h; rfl
      · cases h
        rw [queueUploadFile_eq]
        exact (session_enqueue _ _).trans rfl
  | true =>
    simp only [fileAddedWith, if_true] at h
    split at h
    · cases h; rfl
    · split at h
      · cases h; rfl
      · split at h
        · cases h; rfl
        · exact (hindex _ _ _ h).trans rfl

theorem session_fullIndexEntry (fa : SafeDaemon → String → Bool → Option SafeDaemon)
    (hfa : ∀ s p d s', fa s p d = some s' → session s' = session s) (fuel : Nat) (w : World)
    (dir : String) (st : SafeDaemon × List (String × (String × Nat))) (e : String)
    (st' : SafeDaemon × List (String × (String × Nat)))
    (h : fullIndexEntry fa fuel w dir st e = some st') : session st'.1 = session st.1 := by
  obtain ⟨s, di⟩ := st
  unfold fullIndexEntry at h
  simp only at h
  by_cases h1 : QFileInfo.fileName ⟨e⟩ = "." ∨ QFileInfo.fileName ⟨e⟩ = ".."
  · simp only [h1, if_true] at h
    cases h
    rfl
  · simp only [h1, if_false] at h
    by_cases h2 : w.isSymLink (QFileInfo.filePath ⟨e⟩) = true
    · simp only [h2, if_true] at h
      cases h
      rfl
    · simp only [h2, if_false] at h
      by_cases h3 : w.isDir (QFileInfo.filePath ⟨e⟩) = true
      · simp only [h3, Bool.not_true, Bool.false_eq_true, if_false] at h
        by_cases h4 : w.entryCount (QFileInfo.filePath ⟨e⟩) < 3
        · simp only [h4, if_true] at h
          generalize hadd : (if (!s.remoteStateDb.existsDir (relativeFilePath w s ⟨e⟩) &&
              !s.localStateDb.existsDir (relativeFilePath w s ⟨e⟩)) = true
              then fa s (QFileInfo.filePath ⟨e⟩) true else some s) = added at h
          cases added with
          | none => cases h
          | some sa =>
            have hg : session sa = session s := by
              split at hadd
              · exact hfa _ _ _ _ hadd
              · cases hadd; rfl
            simp only [Option.some.injEq] at h
            subst h
            exact hg
        · simp only [h4, if_false] at h
          cases h
          rfl
      · simp only [h3, Bool.not_false, if_true, Bool.false_eq_true, if_false] at h
        generalize hadd : (if (!s.remoteStateDb.existsFile (relativeFilePath w s ⟨e⟩) &&
            !s.localStateDb.existsFile (relativeFilePath w s ⟨e⟩)) = true
            then
              (match (if (!s.remoteStateDb.existsDir (relativePath w s ⟨e⟩)) = true then
                  prepareTree fuel w s ⟨e⟩ (relativeFilePath w s ⟨dir⟩)
                else some s) with
              | some s => fa s (QFileInfo.filePath ⟨e⟩) false
              | none => none)
            else some s) = added at h
        cases added with
        | none => cases h
        | some sa =>
          have hg : session sa = session s := by
            split at hadd
            · split at hadd
              · rename_i sp hprep
                have hgp : session sp = session s := by
                  split at hprep
                  · exact session_prepareTree _ _ _ _ _ _ hprep
                  · cases hprep; rfl
                exact (hfa _ _ _ _ hadd).trans hgp
              · cases hadd
            · cases hadd; rfl
          simp only at h
          split at h
          · cases h; exact hg
          · cases h; exact hg

theorem session_fullIndex_entries (fa : SafeDaemon → String → Bool → Option SafeDaemon)
    (hfa : ∀ s p d s', fa s p d = some s' → session s' = session s) (fuel : Nat) (w : World)
    (dir : String) (entries : List String)
    (st st' : SafeDaemon × List (String × (String × Nat)))
    (h : entries.foldlM (fullIndexEntry fa fuel w dir) st = some st') :
    session st'.1 = session st.1 := by
  induction entries generalizing st with
  | nil =>
    simp only [List.foldlM_nil] at h
    cases h
    rfl
  | cons e rest ih =>
    simp only [List.foldlM_cons] at h
    cases hstep : fullIndexEntry fa fuel w dir st e with
    | none => simp [hstep] at h
    | some st1 =>
      simp only [hstep, Option.bind_eq_bind, Option.some_bind] at h
      exact (ih st1 h).trans (session_fullIndexEntry fa hfa fuel w dir st e st1 hstep)

theorem session_fullIndexDir (fa : SafeDaemon → String → Bool → Option SafeDaemon)
    (hfa : ∀ s p d s', fa s p d = some s' → session s' = session s) (w : World)
    (di : List (String × (String × Nat))) (s : SafeDaemon) (k : String) (s' : SafeDaemon)
    (h : fullIndexDir fa w di s k = some s') : session s' = session s := by
  unfold fullIndexDir at h
  simp only at h
  by_cases h1 : relativeFilePath w s ⟨k⟩ = ""
  · simp only [h1, if_true, Option.some.injEq] at h
    subst h
    rfl
  · simp only [h1, if_false] at h
    generalize hadd : (if (!s.remoteStateDb.existsDir (relativeFilePath w s ⟨k⟩) &&
        !s.localStateDb.existsDir (relativeFilePath w s ⟨k⟩)) = true
        then fa s (getFilesystemPath w s ++ "/" ++ k) true else some s) = added at h
    cases added with
    | none => cases h
    | some sa =>
      have hg : session sa = session s := by
        split at hadd
        · exact hfa _ _ _ _ hadd
        · cases hadd; rfl
      simp only [Option.some.injEq] at h
      subst h
      exact hg

theorem session_fullIndex_keys (fa : SafeDaemon → String → Bool → Option SafeDaemon)
    (hfa : ∀ s p d s', fa s p d = some s' → session s' = session s) (w : World)
    (di : List (String × (String × Nat))) (keys : List String) (s s' : SafeDaemon)
    (h : keys.foldlM (fullIndexDir fa w di) s = some s') : session s' = session s := by
  induction keys generalizing s with
  | nil =>
    simp only [List.foldlM_nil] at h
    cases h
    rfl
  | cons k rest ih =>
    simp only [List.foldlM_cons] at h
    cases hstep : fullIndexDir fa w di s k with
    | none => simp [hstep] at h
    | some s1 =>
      simp only [hstep, Option.bind_eq_bind, Option.some_bind] at h
      exact (ih s1 h).trans (session_fullIndexDir fa hfa w di s k s1 hstep)

theorem session_fullIndexWith (fa : SafeDaemon → String → Bool → Option SafeDaemon)
    (hfa : ∀ s p d s', fa s p d = some s' → session s' = session s) (fuel : Nat) (w : World)
    (s : SafeDaemon) (dir : String) (s' : SafeDaemon)
    (h : fullIndexWith fa fuel w s dir = some s') : session s' = session s := by
  unfold fullIndexWith at h
  cases h1 : (w.entries (absolutePath w dir)).foldlM (fullIndexEntry fa fuel w dir) (s, []) with
  | none => simp [h1] at h
  | some st1 =>
    obtain ⟨sa, di⟩ := st1
    simp only [h1] at h
    exact (session_fullIndex_keys fa hfa w di _ _ _ h).trans
      (session_fullIndex_entries fa hfa fuel w dir _ _ _ h1)

theorem session_fullIndex (fuel : Nat) (w : World) (s : SafeDaemon) (dir : String)
    (s' : SafeDaemon) (h : fullIndex fuel w s dir = some s') : session s' = session s := by
  induction fuel generalizing s dir s' with
  | zero => simp [fullIndex] at h
  | succ n ih =>
    rw [fullIndex] at h
    exact session_fullIndexWith _
      (fun s p d s' hs => session_fileAddedWith _ (fun s p s' hi => ih s p s' hi) w s p d s' hs)
      _ w s dir s' h

theorem indexRemoteFiles_session (root : Bool) (tree : String) (files : List SafeFile)
    (s : SafeDaemon) : session (indexRemoteFiles root tree s files) = session s := by
  unfold indexRemoteFiles
  induction files generalizing s with
  | nil => rfl
  | cons f rest ih =>
    simp only [List.foldl_cons]
    rw [ih]
    split <;> rfl

theorem indexRemoteDirs_session (root : Bool) (tree : String) (dirs : List SafeDir)
    (st : SafeDaemon × Nat × List String) :
    session (indexRemoteDirs root tree st dirs).1 = session st.1 := by
  unfold indexRemoteDirs
  induction dirs generalizing st with
  | nil => rfl
  | cons f rest ih =>
    simp only [List.foldl_cons]
    rw [ih]
    split <;> rfl

theorem listDirComplete_session (s : SafeDaemon) (counter : Nat) (reply : ListDirReply) :
    session (listDirComplete s counter reply).1 = session s := by
  unfold listDirComplete
  simp only [indexRemoteDirs_session, indexRemoteFiles_session]
  split <;> rfl

theorem fullRemoteIndexLoop_session (w : World) (fuel : Nat) (s : SafeDaemon) (counter : Nat)
    (outstanding : List String) (s' : SafeDaemon)
    (h : fullRemoteIndexLoop w fuel s counter outstanding = some s') :
    session s' = session s := by
  induction fuel generalizing s counter outstanding with
  | zero => simp [fullRemoteIndexLoop] at h
  | succ n ih =>
    cases outstanding with
    | nil => simp [fullRemoteIndexLoop] at h
    | cons id rest =>
      simp only [fullRemoteIndexLoop] at h
      cases hl : w.listDir id with
      | some reply =>
        simp only [hl] at h
        split at h
        · cases h
          exact listDirComplete_session s counter reply
        · exact (ih _ _ _ h).trans (listDirComplete_session s counter reply)
      | none =>
        simp only [hl] at h
        split at h
        · cases h; rfl
        · exact ih _ _ _ h

theorem fullRemoteIndex_session (fuel : Nat) (w : World) (s s' : SafeDaemon)
    (h : fullRemoteIndex fuel w s = some s') : session s' = session s := by
  unfold fullRemoteIndex at h
  simp only at h
  exact (fullRemoteIndexLoop_session w fuel _ _ _ s' h).trans rfl

theorem getFilesystemPath_of_root (w : World) (s s2 : SafeDaemon)
    (h : QMap.value s2.settings "root_name" = QMap.value s.settings "root_name") :
    getFilesystemPath w s2 = getFilesystemPath w s := by
  simp only [getFilesystemPath, settingsValue, h]

theorem init_result (fuel : Nat) (w : World) (s s' : SafeDaemon)
    (h : init fuel w s = some s') :
    s'.online = true ∧
    s'.watcher = some ⟨getFilesystemPath w s, true, [getFilesystemPath w s]⟩ ∧
    s'.swatcher = some ⟨w.now % 4294967296, true⟩ ∧
    s'.apiFactory = s.apiFactory := by
  have hset := init_settings fuel w s s' h
  have hroot : getFilesystemPath w s' = getFilesystemPath w s :=
    getFilesystemPath_of_root w s s' (by rw [hset, QMap.value_insert]; simp)
  unfold init at h
  simp only at h
  split at h
  · cases h
  · rename_i s1 h1
    have hs1 := fullRemoteIndex_session fuel w _ s1 h1
    have hset1 := fullRemoteIndex_settings fuel w _ s1 h1
    split at h
    · cases h
    · rename_i s2 h2
      have hs2 : session s2 = (true, s.watcher,
          some (⟨w.now % 4294967296, false⟩ : SafeWatcher), s.apiFactory) := by
        split at h2
        · rw [session_fullIndex fuel w _ _ s2 h2]
          simp only [session, Prod.mk.injEq] at hs1 ⊢
          simp only [setValue, settingsValue, QMap.value_insert, if_true, Option.getD_some,
            QVariant.toNat, hs1]
          simp [purgeDb, fetchUsage]
        · cases h2
          simp only [session, Prod.mk.injEq, checkIndex] at hs1 ⊢
          simp only [setValue, settingsValue, QMap.value_insert, if_true, Option.getD_some,
            QVariant.toNat, hs1]
          simp [purgeDb, fetchUsage]
      simp only [session, Prod.mk.injEq] at hs2
      have hfs : ∀ x : Option SafeWatcher,
          getFilesystemPath w { s2 with swatcher := x } = getFilesystemPath w s :=
        fun x => by
          cases h
          exact hroot
      cases h
      refine ⟨hs2.1, ?_, ?_, hs2.2.2.2⟩
      · simp only [initWatcher, hfs]
      · simp only [initWatcher, hs2.2.2.1, Option.map_some']

theorem init_purges (fuel : Nat) (w : World) (s : SafeDaemon) (x y : SafeStateDb) :
    init fuel w { s with localStateDb := x, remoteStateDb := y } = init fuel w s := by
  unfold init
  simp only [purgeDb, fetchUsage]
  rfl

/-! ## C14: the control action `chdir` -/

theorem deauthUser_result (s : SafeDaemon) (h : s.Initialised) :
    ∃ d, s.deauthUser = some d ∧ d.online = false ∧ d.watcher = none ∧ d.swatcher = none ∧
      d.localStateDb = SafeStateDb.empty ∧ d.remoteStateDb = SafeStateDb.empty ∧
      d.apiFactory = ⟨""⟩ ∧
      d.settings = QMap.insert s.settings "init" (QVariant.bool true) := by
  obtain ⟨hw, hs⟩ := h
  cases hwv : s.watcher with
  | none => simp [hwv] at hw
  | some watcher =>
    cases hsv : s.swatcher with
    | none => simp [hsv] at hs
    | some sw =>
      cases hd : s.deauthUser with
      | none =>
        unfold deauthUser at hd
        simp only [hwv, hsv] at hd
        cases hd
      | some d =>
        unfold deauthUser at hd
        simp only [hwv, hsv, Option.some.injEq] at hd
        subst hd
        refine ⟨_, rfl, ?_, ?_, ?_, ?_, ?_, ?_, ?_⟩ <;> simp [purgeDb, setValue]

theorem deauthUser_purges (s : SafeDaemon) (x y : SafeStateDb) :
    deauthUser { s with localStateDb := x, remoteStateDb := y } = deauthUser s := by
  unfold deauthUser
  cases s.watcher with
  | none => rfl
  | some watcher =>
    cases s.swatcher with
    | none => rfl
    | some sw =>
      simp only [purgeDb, setValue]
      rfl

theorem handleChdir_valid (fuel : Nat) (w : World) (s : SafeDaemon)
    (args : List (String × QJsonValue))
    (hv : w.fileExists (QJsonValue.member args "dir").toString = true ∧
      w.isReadable (QJsonValue.member args "dir").toString = true ∧
      w.isDir (QJsonValue.member args "dir").toString = true) :
    handleChdir fuel w s args =
      (deauthUser (s.setValue "root_name"
        (QVariant.str (QJsonValue.member args "dir").toString))).bind (init fuel w) := by
  have hc : (w.fileExists (QJsonValue.member args "dir").toString &&
      w.isReadable (QJsonValue.member args "dir").toString &&
      w.isDir (QJsonValue.member args "dir").toString) = true := by
    simp [hv.1, hv.2.1, hv.2.2]
  unfold handleChdir
  simp only [hc, if_true]
  cases deauthUser (s.setValue "root_name"
    (QVariant.str (QJsonValue.member args "dir").toString)) <;> rfl

set_option maxRecDepth 100000 in
/-- C11, refuted as stated: the daemon of the examples has no `init` setting,
so its bootstrap runs `fullIndex` (the row of `a/b.txt` is in the local store
afterwards).  When the bootstrap has completed the setting still reads true,
and the following bootstrap runs `fullIndex` again: it leaves the row of
`a/b.txt` in the freshly purged local store, where the `checkIndex` path,
taken when the setting is stored as false, leaves the store empty. -/
theorem C11_counterexample :
    (SafeDaemon.sample.settingsValue "init" (QVariant.bool true)).toBool = true ∧
    (init 5 (World.listing ["/home/u/2safe/a", "/home/u/2safe/a/b.txt"])
      SafeDaemon.sample).map
      (fun s => ((s.settingsValue "init" (QVariant.bool true)).toBool,
        s.localStateDb.files.map (fun r => r.relative_path))) =
      some (true, ["a/b.txt"]) ∧
    ((init 5 (World.listing ["/home/u/2safe/a", "/home/u/2safe/a/b.txt"])
      SafeDaemon.sample).bind
      (fun s => init 5 (World.listing ["/home/u/2safe/a", "/home/u/2safe/a/b.txt"]) s)).map
      (fun s => s.localStateDb.files.map (fun r => r.relative_path)) = some ["a/b.txt"] ∧
    ((init 5 (World.listing ["/home/u/2safe/a", "/home/u/2safe/a/b.txt"])
      SafeDaemon.sample).bind
      (fun s => init 5 (World.listing ["/home/u/2safe/a", "/home/u/2safe/a/b.txt"])
        (s.setValue "init" (QVariant.bool false)))).map
      (fun s => s.localStateDb.files.map (fun r => r.relative_path)) = some [] := by
  refine ⟨by decide, by decide, by decide, by decide⟩

end SafeDaemon
